import Mathlib

set_option maxHeartbeats 1000000
set_option maxRecDepth 4000

/-!
Verification of the PhotoMigrator web subsystem (src/web/): the in-memory job
store (jobs.py), the queue worker and runner (main.py, runner.py), and the
Config.ini schema engine (config_ini.py).  Python strings are modelled as
lists of characters (`Str`); machine-level concerns (real clocks, uuid4) are
modelled by a monotone counter clock and a fresh-id counter.  The migration
engine, its argument validator and the stdlib logging channel are external
collaborators and appear as explicit function parameters (`RunDeps`).
-/

/-- Python `str` is modelled as a list of characters. -/
abbrev Str := List Char

/-- Coerce a Lean string literal to the `Str` model. -/
def str (s : String) : Str := s.data

/-- Python whitespace for `str.strip()` (ASCII subset). -/
def isPyWs (c : Char) : Bool :=
  c == ' ' || c == '\t' || c == '\n' || c == '\r' || c == '\x0b' || c == '\x0c'

/-- Python `str.lstrip()`. -/
def pyDropLead (s : Str) : Str := s.dropWhile isPyWs

/-- Python `str.rstrip()`. -/
def pyDropTrail (s : Str) : Str := (s.reverse.dropWhile isPyWs).reverse

/-- Python `str.strip()`. -/
def pyStrip (s : Str) : Str := pyDropTrail (pyDropLead s)

/-- Python `a or b` on strings (empty string is falsy). -/
def pyOr (a b : Str) : Str := if a = [] then b else a

/-- Python `s.startswith(p)`. -/
def pyStartsWith (s p : Str) : Bool := s.take p.length == p

/-- Index of the first occurrence of `sep` in `s` (Python `s.find(sep)` for
substrings), `none` when absent. -/
def findSub (s sep : Str) : Option Nat :=
  (List.range (s.length + 1)).find? (fun i => pyStartsWith (s.drop i) sep)

/-- Python `sep in s` (substring containment). -/
def pyContainsSub (s sep : Str) : Bool := (findSub s sep).isSome

/-- Python `s.split(sep, 1)` when `sep` occurs in `s`. -/
def pySplitOnce (s sep : Str) : Option (Str × Str) :=
  (findSub s sep).map (fun i => (s.take i, s.drop (i + sep.length)))

/-- Python single-character `s.replace(a, b)`. -/
def pyReplaceChar (s : Str) (a b : Char) : Str :=
  s.map (fun c => if c = a then b else c)

/-- Python `s.upper()` (ASCII). -/
def pyUpper (s : Str) : Str := s.map Char.toUpper

/-- Python `"\n".join(lines)`. -/
def joinNl : List Str → Str
  | [] => []
  | [l] => l
  | l :: ls => l ++ '\n' :: joinNl ls

/-- Reading a text file line by line with universal newlines: the content is
split at `\n`, `\r\n` or `\r`. -/
def pySplitLines : Str → List Str
  | [] => [[]]
  | '\r' :: '\n' :: rest => [] :: pySplitLines rest
  | '\r' :: rest => [] :: pySplitLines rest
  | '\n' :: rest => [] :: pySplitLines rest
  | c :: rest =>
    match pySplitLines rest with
    | [] => [[c]]
    | l :: ls => (c :: l) :: ls

/-- Collapse adjacent duplicates, given the previously observed element. -/
def dedupFrom {α : Type} [DecidableEq α] (a : α) : List α → List α
  | [] => []
  | b :: l => if b = a then dedupFrom a l else b :: dedupFrom b l

/-- Collapse adjacent duplicates of a list. -/
def dedupAdj {α : Type} [DecidableEq α] : List α → List α
  | [] => []
  | a :: l => a :: dedupFrom a l

/-! ## Job store (src/web/jobs.py) -/

/-- Job lifecycle states (jobs.py `JobStatus`). -/
inductive JobStatus
  | pending
  | running
  | done
  | failed
deriving DecidableEq

/-- String value of a status (jobs.py `JobStatus(str, Enum)` values). -/
def JobStatus.value : JobStatus → String
  | .pending => "pending"
  | .running => "running"
  | .done => "done"
  | .failed => "failed"

/-- A job record (jobs.py `Job` dataclass); timestamps are modelled as
readings of a monotone counter clock. -/
structure Job where
  id : String
  mode : String
  status : JobStatus
  created_at : Nat
  updated_at : Nat
  log_lines : List String
  error : Option String
  result_summary : Option String
deriving DecidableEq

/-- The dict produced by jobs.py `Job.to_dict`. -/
structure JobDict where
  id : String
  mode : String
  status : String
  created_at : Nat
  updated_at : Nat
  log_lines_count : Nat
  error : Option String
  result_summary : Option String
deriving DecidableEq

/-- jobs.py `Job.to_dict`. -/
def Job.to_dict (j : Job) : JobDict :=
  ⟨j.id, j.mode, j.status.value, j.created_at, j.updated_at,
   j.log_lines.length, j.error, j.result_summary⟩

/-- The module-level store state: `_jobs` (dict keyed by id), `_job_order`
(insertion order), plus a monotone clock (for `datetime.utcnow()`) and a
fresh-id counter (for `uuid.uuid4()`). -/
structure Store where
  jobs : List (String × Job)
  job_order : List String
  clock : Nat
  nextId : Nat
deriving DecidableEq

def emptyStore : Store := ⟨[], [], 0, 0⟩

/-- Python `dict.get(k)` on an insertion-ordered association list whose keys
are kept unique by `dictSet`. -/
def dictGet (m : List (String × Job)) (k : String) : Option Job :=
  (m.find? (fun p => p.1 == k)).map (·.2)

/-- Python `d[k] = v`: replace in place when the key exists, else append. -/
def dictSet (m : List (String × Job)) (k : String) (v : Job) : List (String × Job) :=
  if m.any (fun p => p.1 == k) then
    m.map (fun p => if p.1 == k then (k, v) else p)
  else
    m ++ [(k, v)]

/-- Fresh job ids, standing in for `uuid.uuid4()`. -/
def freshId (n : Nat) : String := "job-" ++ toString n

/-- The store mutation performed by `create_job` for a given id. -/
def insertNewJob (s : Store) (job_id mode : String) : Store :=
  let job : Job := ⟨job_id, mode, .pending, s.clock, s.clock, [], Option.none, Option.none⟩
  { jobs := dictSet s.jobs job_id job
    job_order := s.job_order ++ [job_id]
    clock := s.clock + 1
    nextId := s.nextId + 1 }

/-- jobs.py `create_job`. -/
def create_job (s : Store) (mode : String) : Job × Store :=
  let job_id := freshId s.nextId
  (⟨job_id, mode, .pending, s.clock, s.clock, [], Option.none, Option.none⟩,
   insertNewJob s job_id mode)

/-- jobs.py `get_job`. -/
def get_job (s : Store) (job_id : String) : Option Job :=
  dictGet s.jobs job_id

/-- Python `l[i:]` (slice from `i` to the end, `i` possibly negative). -/
def pySliceFrom {α : Type} (l : List α) (i : Int) : List α :=
  if i < 0 then l.drop (l.length - (-i).toNat) else l.drop i.toNat

/-- jobs.py `list_jobs` (explicit `limit`; the Python default is 50, see
`list_jobs_default`). -/
def list_jobs (s : Store) (limit : Int) : List Job :=
  let order := if limit ≠ 0 then pySliceFrom s.job_order (-limit) else s.job_order
  let order := order.reverse
  order.filterMap (fun jid => dictGet s.jobs jid)

/-- jobs.py `list_jobs()` with its default argument `limit=50`. -/
def list_jobs_default (s : Store) : List Job := list_jobs s 50

/-- jobs.py `update_job_status`. -/
def update_job_status (s : Store) (job_id : String) (status : JobStatus)
    (error : Option String) (result_summary : Option String) : Store :=
  match dictGet s.jobs job_id with
  | Option.none => s
  | some job =>
    let job' : Job :=
      { job with
        status := status
        updated_at := s.clock
        error := match error with | some e => some e | Option.none => job.error
        result_summary := match result_summary with | some r => some r | Option.none => job.result_summary }
    { s with jobs := dictSet s.jobs job_id job', clock := s.clock + 1 }

/-- jobs.py `append_job_log`. -/
def append_job_log (s : Store) (job_id line : String) : Store :=
  match dictGet s.jobs job_id with
  | Option.none => s
  | some job =>
    let job' : Job := { job with log_lines := job.log_lines ++ [line], updated_at := s.clock }
    { s with jobs := dictSet s.jobs job_id job', clock := s.clock + 1 }

/-- Result of an HTTP route: a payload or an `HTTPException`. -/
inductive ApiResult (α : Type)
  | ok (v : α)
  | httpError (status : Nat) (detail : String)
deriving DecidableEq

/-- main.py `get_job_api` route: 404 on unknown id. -/
def get_job_api (s : Store) (job_id : String) : ApiResult JobDict :=
  match get_job s job_id with
  | Option.none => .httpError 404 "Job not found"
  | some job => .ok job.to_dict

/-- main.py `list_jobs_route` (default `limit=50` is the store default). -/
def list_jobs_route (s : Store) (limit : Int) : List JobDict :=
  (list_jobs s limit).map Job.to_dict

/-! ## Runner (src/web/runner.py) and worker (src/web/main.py) -/

/-- A Python value as stored in the ARGS dict. -/
inductive Value
  | vnone
  | vstr (s : String)
  | vbool (b : Bool)
  | vint (n : Int)
  | vlist (l : List Value)

/-- Python truthiness of a `Value`. -/
def Value.truthy : Value → Bool
  | .vnone => false
  | .vstr s => !(s == "")
  | .vbool b => b
  | .vint n => !(n == 0)
  | .vlist l => !l.isEmpty

/-- The ARGS dict: insertion-ordered string-keyed mapping. -/
abbrev Args := List (String × Value)

def argsGet (a : Args) (k : String) : Option Value :=
  (a.find? (fun p => p.1 == k)).map (·.2)

def argsHasKey (a : Args) (k : String) : Bool := a.any (fun p => p.1 == k)

/-- Python `d[k] = v` for an existing key (positions preserved). -/
def argsSetExisting (a : Args) (k : String) (v : Value) : Args :=
  a.map (fun p => if p.1 == k then (k, v) else p)

/-- runner.py `_default_args` (the configuration-file path default is taken
with no environment override, i.e. the project-root Config.ini). -/
def default_args : Args := [
  ("configuration-file", .vstr "Config.ini"),
  ("no-request-user-confirmation", .vbool true),
  ("no-log-file", .vbool false),
  ("log-level", .vstr "info"),
  ("log-format", .vstr "log"),
  ("date-separator", .vstr "-"),
  ("range-separator", .vstr "--"),
  ("foldername-albums", .vstr ""),
  ("foldername-no-albums", .vstr ""),
  ("foldername-logs", .vstr ""),
  ("foldername-duplicates-output", .vstr ""),
  ("foldername-extracted-dates", .vstr ""),
  ("exec-gpth-tool", .vstr ""),
  ("exec-exif-tool", .vstr ""),
  ("input-folder", .vstr ""),
  ("output-folder", .vstr ""),
  ("client", .vstr "google-takeout"),
  ("account-id", .vint 1),
  ("filter-from-date", .vnone),
  ("filter-to-date", .vnone),
  ("filter-by-type", .vnone),
  ("filter-by-country", .vnone),
  ("filter-by-city", .vnone),
  ("filter-by-person", .vnone),
  ("albums-folders", .vlist []),
  ("remove-albums-assets", .vbool false),
  ("source", .vstr ""),
  ("target", .vstr ""),
  ("move-assets", .vbool false),
  ("dashboard", .vbool true),
  ("parallel-migration", .vbool true),
  ("google-takeout", .vstr ""),
  ("google-output-folder-suffix", .vstr "processed"),
  ("google-albums-folders-structure", .vstr "flatten"),
  ("google-no-albums-folders-structure", .vstr "year/month"),
  ("google-ignore-check-structure", .vbool false),
  ("google-no-symbolic-albums", .vbool false),
  ("google-remove-duplicates-files", .vbool false),
  ("google-rename-albums-folders", .vbool false),
  ("google-skip-extras-files", .vbool false),
  ("google-skip-move-albums", .vbool false),
  ("google-skip-gpth-tool", .vbool false),
  ("google-skip-preprocess", .vbool false),
  ("google-skip-postprocess", .vbool false),
  ("google-keep-takeout-folder", .vbool false),
  ("show-gpth-info", .vbool true),
  ("show-gpth-errors", .vbool true),
  ("gpth-no-log", .vbool false),
  ("upload-albums", .vstr ""),
  ("download-albums", .vlist []),
  ("upload-all", .vstr ""),
  ("download-all", .vstr ""),
  ("rename-albums", .vlist []),
  ("remove-albums", .vstr ""),
  ("remove-all-albums", .vbool false),
  ("remove-all-assets", .vbool false),
  ("remove-empty-albums", .vbool false),
  ("remove-duplicates-albums", .vbool false),
  ("merge-duplicates-albums", .vbool false),
  ("remove-orphan-assets", .vbool false),
  ("one-time-password", .vbool false),
  ("fix-symlinks-broken", .vstr ""),
  ("rename-folders-content-based", .vstr ""),
  ("find-duplicates", .vlist [.vstr "list", .vstr ""]),
  ("process-duplicates", .vstr ""),
  ("google-input-zip-folder", .vnone),
  ("AUTOMATIC-MIGRATION", .vnone),
  ("duplicates-folders", .vlist []),
  ("duplicates-action", .vstr "list")]

/-- runner.py `_merge_api_args`: only keys already present in the default
dict are overwritten. -/
def merge_api_args (default : Args) (api_body : Args) : Args :=
  api_body.foldl (fun out p =>
    if argsHasKey out p.1 then argsSetExisting out p.1 p.2 else out) default

/-- The ARGS construction in `run_mode` (merge with defaults, then the
`find-duplicates` list normalization). -/
def buildARGS (api_body : Args) : Args :=
  let args0 := merge_api_args default_args api_body
  if argsHasKey api_body "find-duplicates" then
    let fd := argsGet args0 "find-duplicates"
    match fd with
    | some (Value.vlist l) => argsSetExisting args0 "find-duplicates" (Value.vlist l)
    | _ =>
      let fdv := fd.getD Value.vnone
      if fdv.truthy then
        argsSetExisting args0 "find-duplicates" (Value.vlist [Value.vstr "list", fdv])
      else
        argsSetExisting args0 "find-duplicates" (Value.vlist [Value.vstr "list", Value.vstr ""])
  else args0

/-- Outcome of one engine invocation: the log lines it emits through the
shared logger while the job's capture handler is installed (already
formatted by the handler's formatter), and the message of the exception it
raises, if any (`none` means normal return). -/
structure EngineRun where
  logs : List String
  raised : Option String

/-- External collaborators of `run_mode`: the validator `checkArgs` (a
`some msg` result stands for `parser.error(msg)`, i.e. the `MockParser`
raising `ValueError(msg)`), and the two execution-mode entry points of the
engine. -/
structure RunDeps where
  checkArgs : Args → Option String
  mode_google_takeout : Args → EngineRun
  mode_AUTOMATIC_MIGRATION : Value → EngineRun

/-- An elementary store mutation performed by the web layer. -/
inductive Op
  | create (job_id mode : String)
  | setStatus (job_id : String) (status : JobStatus) (error result_summary : Option String)
  | appendLog (job_id line : String)

/-- The job id an operation addresses. -/
def Op.targetId : Op → String
  | .create j _ => j
  | .setStatus j _ _ _ => j
  | .appendLog j _ => j

/-- Apply one elementary operation to the store. -/
def applyOp (s : Store) : Op → Store
  | .create jid mode => insertNewJob s jid mode
  | .setStatus jid st e r => update_job_status s jid st e r
  | .appendLog jid line => append_job_log s jid line

def applyOps (s : Store) (ops : List Op) : Store := ops.foldl applyOp s

/-- Observable side effects of one `run_mode` pass that are not store
mutations: whether an engine mode function was invoked and whether the log
capture handler was added to the shared logger. -/
structure RunEvents where
  engineInvoked : Bool
  handlerInstalled : Bool
deriving DecidableEq

/-- runner.py `run_mode`, as the sequence of store operations it performs
plus its non-store effects.  The global-variable initialization calls
(`set_GLOBAL_VARIABLES`, `set_LOGGER`, `set_HELP_TEXTS`) touch only engine
globals, not the job store, and are abstracted as non-failing; the
`finally` removal of the handler has no store effect.  The trailing
`except Exception` branch appends the fault line and marks the job failed. -/
def runModeTrace (deps : RunDeps) (job_id mode : String) (api_body : Args) :
    List Op × RunEvents :=
  let pre : List Op := [.setStatus job_id .running Option.none Option.none]
  let args := buildARGS api_body
  match deps.checkArgs args with
  | some msg =>
    (pre ++ [.setStatus job_id .failed (some msg) Option.none], ⟨false, false⟩)
  | Option.none =>
    let run : Option EngineRun :=
      if mode = "google-takeout" then
        some (deps.mode_google_takeout args)
      else if mode = "automatic-migration" then
        some (deps.mode_AUTOMATIC_MIGRATION ((argsGet args "show-gpth-info").getD (Value.vbool true)))
      else
        Option.none
    match run with
    | Option.none =>
      (pre ++ [.appendLog job_id ("Error: Unknown mode: " ++ mode),
               .setStatus job_id .failed (some ("Unknown mode: " ++ mode)) Option.none],
       ⟨false, true⟩)
    | some r =>
      let logOps := r.logs.map (fun line => Op.appendLog job_id line)
      match r.raised with
      | Option.none =>
        (pre ++ logOps ++ [.setStatus job_id .done Option.none (some "Completed successfully")],
         ⟨true, true⟩)
      | some m =>
        (pre ++ logOps ++ [.appendLog job_id ("Error: " ++ m),
                           .setStatus job_id .failed (some m) Option.none],
         ⟨true, true⟩)

/-- runner.py `run_mode` as a store transformer. -/
def run_mode (deps : RunDeps) (job_id mode : String) (api_body : Args) (s : Store) : Store :=
  applyOps s (runModeTrace deps job_id mode api_body).1

/-- A queue item of main.py's `_job_queue`: `none` is the shutdown
sentinel. -/
abbrev QueueItem := Option (String × String × Args)

/-- main.py `_worker`: dequeue items in order; a `None` sentinel breaks the
loop; each item is processed by `run_mode` (whose faults are contained, so
the surrounding `except Exception: pass` never fires in the model). -/
def worker (deps : RunDeps) (s : Store) : List QueueItem → Store
  | [] => s
  | Option.none :: _ => s
  | some (job_id, mode, args) :: rest => worker deps (run_mode deps job_id mode args s) rest

/-! ## System traces for the lifecycle invariant -/

/-- An event of the web system: the request handler creating a job
(`create_job` under a route) or the worker running one dequeued item. -/
inductive SysEvent
  | createJob (job_id mode : String)
  | runJob (deps : RunDeps) (job_id mode : String) (api_body : Args)

/-- The store operations performed by a list of system events. -/
def sysOps : List SysEvent → List Op
  | [] => []
  | .createJob j m :: tr => Op.create j m :: sysOps tr
  | .runJob d j m b :: tr => (runModeTrace d j m b).1 ++ sysOps tr

def isCreateFor (jid : String) : SysEvent → Bool
  | .createJob j _ => j == jid
  | _ => false

def isRunFor (jid : String) : SysEvent → Bool
  | .runJob _ j _ _ => j == jid
  | _ => false

/-- Status of a job in a store, if present. -/
def statusOf (jid : String) (s : Store) : Option JobStatus :=
  (dictGet s.jobs jid).map (·.status)

/-- The stream of post-state status observations of job `jid` along a run
of elementary operations. -/
def statusTrail (jid : String) : Store → List Op → List (Option JobStatus)
  | _, [] => []
  | s, op :: ops =>
    statusOf jid (applyOp s op) :: statusTrail jid (applyOp s op) ops

/-- The observable status transition sequence of job `jid`: all states in
which the job exists, with adjacent repetitions collapsed. -/
def observedHistory (jid : String) (s : Store) (ops : List Op) : List JobStatus :=
  dedupAdjOpt ((statusOf jid s) :: statusTrail jid s ops)
where
  dedupAdjOpt (l : List (Option JobStatus)) : List JobStatus := dedupAdj (l.filterMap id)

/-! ## Config schema engine (src/web/config_ini.py) -/

/-- config_ini.py `FORM_SEP`. -/
def FORM_SEP : Str := str ("||")

/-- config_ini.py `SECTION_HINTS`. -/
def SECTION_HINTS : List (Str × Str) := [
  (str ("Google Takeout"), str ("No configuration needed for this module for the time being.")),
  (str ("Synology Photos"), str ("Set the URL to your Synology server (IP or hostname). Use SYNOLOGY_USERNAME_n and SYNOLOGY_PASSWORD_n for each account (n = 1, 2, or 3).")),
  (str ("Immich Photos"), str ("Set the Immich server URL and either API keys (Account Settings → API Keys) or username/password per account. ADMIN_API_KEY is required for some operations (e.g. remove orphan assets).")),
  (str ("Apple Photos"), str ("iCloud Apple Photos: use album = all for all albums; set to_directory for download path; date_from/date_to and asset_from/asset_to for date filters; max_photos to limit downloads; shared_library (e.g. PrimarySync) for library selection.")),
  (str ("Google Photos"), str ("No configuration needed for this module for the time being.")),
  (str ("TimeZone"), str ("Optional timezone for interpreting photo dates. When EXIF/metadata has no timezone (e.g. \x272024:06:15 14:30:00\x27 without offset), the tool currently uses the machine\x27s local timezone where the app runs. Photos taken in a different timezone are then interpreted as if they were in that local timezone, which can affect date-based grouping, album naming, and filtering. This setting is stored for features that may use it; set it to the IANA timezone where most of your photos were taken (e.g. US/Central) for future or optional override behavior."))]

/-- config_ini.py `OPTION_HINTS`. -/
def OPTION_HINTS : List ((Str × Str) × Str) := [
  ((str ("Synology Photos"), str ("SYNOLOGY_URL")), str ("URL of your Synology server (e.g. http://192.168.1.11:5000) or your valid Synology hostname.")),
  ((str ("Synology Photos"), str ("SYNOLOGY_USERNAME_1")), str ("Account 1: Your username for Synology Photos.")),
  ((str ("Synology Photos"), str ("SYNOLOGY_PASSWORD_1")), str ("Account 1: Your password for Synology Photos.")),
  ((str ("Synology Photos"), str ("SYNOLOGY_USERNAME_2")), str ("Account 2: Your username for Synology Photos.")),
  ((str ("Synology Photos"), str ("SYNOLOGY_PASSWORD_2")), str ("Account 2: Your password for Synology Photos.")),
  ((str ("Synology Photos"), str ("SYNOLOGY_USERNAME_3")), str ("Account 3: Your username for Synology Photos.")),
  ((str ("Synology Photos"), str ("SYNOLOGY_PASSWORD_3")), str ("Account 3: Your password for Synology Photos.")),
  ((str ("Immich Photos"), str ("IMMICH_URL")), str ("URL of your Immich server (e.g. http://192.168.1.11:2283).")),
  ((str ("Immich Photos"), str ("IMMICH_API_KEY_ADMIN")), str ("Admin API key from Immich (Account Settings → API Keys). Required for some operations.")),
  ((str ("Immich Photos"), str ("IMMICH_API_KEY_USER_1")), str ("Account 1: User API key from Immich (Account Settings → API Keys).")),
  ((str ("Immich Photos"), str ("IMMICH_USERNAME_1")), str ("Account 1: Username (used if API key not provided).")),
  ((str ("Immich Photos"), str ("IMMICH_PASSWORD_1")), str ("Account 1: Password (used if API key not provided).")),
  ((str ("Immich Photos"), str ("IMMICH_API_KEY_USER_2")), str ("Account 2: User API key.")),
  ((str ("Immich Photos"), str ("IMMICH_USERNAME_2")), str ("Account 2: Username.")),
  ((str ("Immich Photos"), str ("IMMICH_PASSWORD_2")), str ("Account 2: Password.")),
  ((str ("Immich Photos"), str ("IMMICH_API_KEY_USER_3")), str ("Account 3: User API key.")),
  ((str ("Immich Photos"), str ("IMMICH_USERNAME_3")), str ("Account 3: Username.")),
  ((str ("Immich Photos"), str ("IMMICH_PASSWORD_3")), str ("Account 3: Password.")),
  ((str ("Apple Photos"), str ("appleid")), str ("Your Apple ID for iCloud.")),
  ((str ("Apple Photos"), str ("applepwd")), str ("Your Apple ID password.")),
  ((str ("Apple Photos"), str ("album")), str ("Album name to download, or \x27all\x27 for all albums.")),
  ((str ("Apple Photos"), str ("to_directory")), str ("Directory path where photos will be downloaded (year/month/day structure will be created).")),
  ((str ("Apple Photos"), str ("date_from")), str ("Filter: photos added to library from this date.")),
  ((str ("Apple Photos"), str ("date_to")), str ("Filter: photos added to library until this date.")),
  ((str ("Apple Photos"), str ("asset_from")), str ("Filter: asset date from.")),
  ((str ("Apple Photos"), str ("asset_to")), str ("Filter: asset date to.")),
  ((str ("Apple Photos"), str ("max_photos")), str ("Maximum number of photos to download (safety limit).")),
  ((str ("Apple Photos"), str ("shared_library")), str ("Library identifier (e.g. PrimarySync for main library).")),
  ((str ("TimeZone"), str ("timezone")), str ("IANA timezone name (e.g. US/Central, Europe/London). Used when the tool interprets date/time from photos that have no timezone in metadata; set to the timezone where your photos were typically taken so date-based features (sorting, album names, filters) are consistent. Currently the app may use the server\x27s system timezone if this is not applied yet."))]

/-- config_ini.py `_strip_inline_comment`. -/
def _strip_inline_comment (value : Str) : Str :=
  if value = [] then value
  else
    let value := match findSub value (str ("#")) with
      | some i => value.take i
      | Option.none => value
    pyStrip value

/-- config_ini.py `_get_option_hint`. -/
def _get_option_hint (sectionName key : Str) : Str :=
  ((OPTION_HINTS.find? (fun p => p.1 == (sectionName, key))).map (·.2)).getD []

/-- config_ini.py `_get_section_hint`. -/
def _get_section_hint (sectionName : Str) : Str :=
  ((SECTION_HINTS.find? (fun p => p.1 == sectionName)).map (·.2)).getD []

/-- config_ini.py `_is_password_key`. -/
def _is_password_key (key : Str) : Bool :=
  let k := pyUpper key
  pyContainsSub k (str ("PASSWORD")) || pyContainsSub k (str ("API_KEY")) ||
    pyContainsSub k (str ("SECRET")) || k == str ("APPLEPWD")

/-- config_ini.py `_section_to_form` (spaces to underscores). -/
def _section_to_form (sectionName : Str) : Str := pyReplaceChar sectionName ' ' '_'

/-- config_ini.py `_form_to_section` (underscores to spaces). -/
def _form_to_section (form_section : Str) : Str := pyReplaceChar form_section '_' ' '

/-- One option entry of the structures served by the config page. -/
structure OptRec where
  key : Str
  value : Str
  is_password : Bool
  form_section : Str
  hint : Str
deriving DecidableEq

/-- One section entry of the structures served by the config page. -/
structure SectionRec where
  name : Str
  form_section : Str
  hint : Str
  options : List OptRec
deriving DecidableEq

/-- config_ini.py `_default_sections_structure`. -/
def _default_sections_structure : List SectionRec := [
  { name := str ("Google Takeout"), form_section := _section_to_form (str ("Google Takeout")), hint := _get_section_hint (str ("Google Takeout")), options := [] },
  { name := str ("Synology Photos"), form_section := _section_to_form (str ("Synology Photos")), hint := _get_section_hint (str ("Synology Photos")), options := [
      { key := str ("SYNOLOGY_URL"), value := str (""), is_password := false, form_section := _section_to_form (str ("Synology Photos")), hint := _get_option_hint (str ("Synology Photos")) (str ("SYNOLOGY_URL")) },
      { key := str ("SYNOLOGY_USERNAME_1"), value := str (""), is_password := false, form_section := _section_to_form (str ("Synology Photos")), hint := _get_option_hint (str ("Synology Photos")) (str ("SYNOLOGY_USERNAME_1")) },
      { key := str ("SYNOLOGY_PASSWORD_1"), value := str (""), is_password := true, form_section := _section_to_form (str ("Synology Photos")), hint := _get_option_hint (str ("Synology Photos")) (str ("SYNOLOGY_PASSWORD_1")) },
      { key := str ("SYNOLOGY_USERNAME_2"), value := str (""), is_password := false, form_section := _section_to_form (str ("Synology Photos")), hint := _get_option_hint (str ("Synology Photos")) (str ("SYNOLOGY_USERNAME_2")) },
      { key := str ("SYNOLOGY_PASSWORD_2"), value := str (""), is_password := true, form_section := _section_to_form (str ("Synology Photos")), hint := _get_option_hint (str ("Synology Photos")) (str ("SYNOLOGY_PASSWORD_2")) },
      { key := str ("SYNOLOGY_USERNAME_3"), value := str (""), is_password := false, form_section := _section_to_form (str ("Synology Photos")), hint := _get_option_hint (str ("Synology Photos")) (str ("SYNOLOGY_USERNAME_3")) },
      { key := str ("SYNOLOGY_PASSWORD_3"), value := str (""), is_password := true, form_section := _section_to_form (str ("Synology Photos")), hint := _get_option_hint (str ("Synology Photos")) (str ("SYNOLOGY_PASSWORD_3")) }] },
  { name := str ("Immich Photos"), form_section := _section_to_form (str ("Immich Photos")), hint := _get_section_hint (str ("Immich Photos")), options := [
      { key := str ("IMMICH_URL"), value := str (""), is_password := false, form_section := _section_to_form (str ("Immich Photos")), hint := _get_option_hint (str ("Immich Photos")) (str ("IMMICH_URL")) },
      { key := str ("IMMICH_API_KEY_ADMIN"), value := str (""), is_password := true, form_section := _section_to_form (str ("Immich Photos")), hint := _get_option_hint (str ("Immich Photos")) (str ("IMMICH_API_KEY_ADMIN")) },
      { key := str ("IMMICH_API_KEY_USER_1"), value := str (""), is_password := true, form_section := _section_to_form (str ("Immich Photos")), hint := _get_option_hint (str ("Immich Photos")) (str ("IMMICH_API_KEY_USER_1")) },
      { key := str ("IMMICH_USERNAME_1"), value := str (""), is_password := false, form_section := _section_to_form (str ("Immich Photos")), hint := _get_option_hint (str ("Immich Photos")) (str ("IMMICH_USERNAME_1")) },
      { key := str ("IMMICH_PASSWORD_1"), value := str (""), is_password := true, form_section := _section_to_form (str ("Immich Photos")), hint := _get_option_hint (str ("Immich Photos")) (str ("IMMICH_PASSWORD_1")) },
      { key := str ("IMMICH_API_KEY_USER_2"), value := str (""), is_password := true, form_section := _section_to_form (str ("Immich Photos")), hint := _get_option_hint (str ("Immich Photos")) (str ("IMMICH_API_KEY_USER_2")) },
      { key := str ("IMMICH_USERNAME_2"), value := str (""), is_password := false, form_section := _section_to_form (str ("Immich Photos")), hint := _get_option_hint (str ("Immich Photos")) (str ("IMMICH_USERNAME_2")) },
      { key := str ("IMMICH_PASSWORD_2"), value := str (""), is_password := true, form_section := _section_to_form (str ("Immich Photos")), hint := _get_option_hint (str ("Immich Photos")) (str ("IMMICH_PASSWORD_2")) },
      { key := str ("IMMICH_API_KEY_USER_3"), value := str (""), is_password := true, form_section := _section_to_form (str ("Immich Photos")), hint := _get_option_hint (str ("Immich Photos")) (str ("IMMICH_API_KEY_USER_3")) },
      { key := str ("IMMICH_USERNAME_3"), value := str (""), is_password := false, form_section := _section_to_form (str ("Immich Photos")), hint := _get_option_hint (str ("Immich Photos")) (str ("IMMICH_USERNAME_3")) },
      { key := str ("IMMICH_PASSWORD_3"), value := str (""), is_password := true, form_section := _section_to_form (str ("Immich Photos")), hint := _get_option_hint (str ("Immich Photos")) (str ("IMMICH_PASSWORD_3")) }] },
  { name := str ("Apple Photos"), form_section := _section_to_form (str ("Apple Photos")), hint := _get_section_hint (str ("Apple Photos")), options := [
      { key := str ("appleid"), value := str (""), is_password := false, form_section := _section_to_form (str ("Apple Photos")), hint := _get_option_hint (str ("Apple Photos")) (str ("appleid")) },
      { key := str ("applepwd"), value := str (""), is_password := true, form_section := _section_to_form (str ("Apple Photos")), hint := _get_option_hint (str ("Apple Photos")) (str ("applepwd")) },
      { key := str ("album"), value := str ("all"), is_password := false, form_section := _section_to_form (str ("Apple Photos")), hint := _get_option_hint (str ("Apple Photos")) (str ("album")) },
      { key := str ("to_directory"), value := str (""), is_password := false, form_section := _section_to_form (str ("Apple Photos")), hint := _get_option_hint (str ("Apple Photos")) (str ("to_directory")) },
      { key := str ("date_from"), value := str (""), is_password := false, form_section := _section_to_form (str ("Apple Photos")), hint := _get_option_hint (str ("Apple Photos")) (str ("date_from")) },
      { key := str ("date_to"), value := str (""), is_password := false, form_section := _section_to_form (str ("Apple Photos")), hint := _get_option_hint (str ("Apple Photos")) (str ("date_to")) },
      { key := str ("asset_from"), value := str (""), is_password := false, form_section := _section_to_form (str ("Apple Photos")), hint := _get_option_hint (str ("Apple Photos")) (str ("asset_from")) },
      { key := str ("asset_to"), value := str (""), is_password := false, form_section := _section_to_form (str ("Apple Photos")), hint := _get_option_hint (str ("Apple Photos")) (str ("asset_to")) },
      { key := str ("max_photos"), value := str ("10000"), is_password := false, form_section := _section_to_form (str ("Apple Photos")), hint := _get_option_hint (str ("Apple Photos")) (str ("max_photos")) },
      { key := str ("shared_library"), value := str ("PrimarySync"), is_password := false, form_section := _section_to_form (str ("Apple Photos")), hint := _get_option_hint (str ("Apple Photos")) (str ("shared_library")) }] },
  { name := str ("Google Photos"), form_section := _section_to_form (str ("Google Photos")), hint := _get_section_hint (str ("Google Photos")), options := [] },
  { name := str ("TimeZone"), form_section := _section_to_form (str ("TimeZone")), hint := _get_section_hint (str ("TimeZone")), options := [
      { key := str ("timezone"), value := str ("US/Central"), is_password := false, form_section := _section_to_form (str ("TimeZone")), hint := _get_option_hint (str ("TimeZone")) (str ("timezone")) }] }]

/-- Parser accumulator: sections read so far (file order) and the section
currently being filled. -/
structure IniAcc where
  sections : List (Str × List (Str × Str))
  cur : Option Str

/-- Append an option to the named section, preserving order. -/
def iniAddOption (sections : List (Str × List (Str × Str))) (name : Str) (kv : Str × Str) :
    List (Str × List (Str × Str)) :=
  sections.map (fun p => if p.1 == name then (p.1, p.2 ++ [kv]) else p)

/-- Section-header match of a stripped line (the `[...]` pattern: a bracket,
a non-empty header up to the first closing bracket). -/
def iniSectionHeader (t : Str) : Option Str :=
  match t with
  | '[' :: rest =>
    match rest.findIdx? (fun c => c == ']') with
    | some i => if i = 0 then Option.none else some (rest.take i)
    | Option.none => Option.none
  | _ => Option.none

/-- Modelled from the spec: one line of the stdlib `ConfigParser.read` used
by `parse_config` (the parser itself is not in src/).  Per the spec's file
format: `[Section Name]` headers, `key = value` lines (`:` is an accepted
delimiter as well), full-line `#`/`;` comments and blank lines are ignored;
values keep inline text (inline comments are stripped later by
`_strip_inline_comment`); key casing is preserved (`optionxform = str`);
duplicate sections or options and option lines outside any section are read
errors (strict mode); multi-line continuation values are not modelled and
are treated as read errors. -/
def iniLineStep (acc : IniAcc) (line : Str) : Option IniAcc :=
  let t := pyStrip line
  if t = [] then some acc
  else if t.head? = some '#' ∨ t.head? = some ';' then some acc
  else
    match iniSectionHeader t with
    | some name =>
      if acc.sections.any (fun p => p.1 == name) then Option.none
      else some ⟨acc.sections ++ [(name, [])], some name⟩
    | Option.none =>
      match t.findIdx? (fun c => c == '=' || c == ':') with
      | Option.none => Option.none
      | some i =>
        let key := pyStrip (t.take i)
        let value := pyStrip (t.drop (i + 1))
        match acc.cur with
        | Option.none => Option.none
        | some name =>
          let dup := match acc.sections.find? (fun p => p.1 == name) with
            | some p => p.2.any (fun q => q.1 == key)
            | Option.none => false
          if dup then Option.none
          else some ⟨iniAddOption acc.sections name (key, value), some name⟩

/-- Modelled from the spec: `ConfigParser.read` over the lines of the file,
yielding sections in file order with their options in file order, or
`none` on a read error (which `parse_config` turns into the default
structure). -/
def iniRead (lines : List Str) : Option (List (Str × List (Str × Str))) :=
  (lines.foldl (fun acc l => acc.bind (fun a => iniLineStep a l)) (some ⟨[], Option.none⟩)).map
    (·.sections)

/-- config_ini.py `parse_config`; the file is `none` when the path does not
exist, otherwise its text content (OS read errors behave like a missing
file: the parser sees no sections and the default structure is returned). -/
def parse_config (file : Option Str) : List SectionRec :=
  match file with
  | Option.none => _default_sections_structure
  | some content =>
    match iniRead (pySplitLines content) with
    | Option.none => _default_sections_structure
    | some sects =>
      let sections_out := sects.map (fun p =>
        { name := p.1
          form_section := _section_to_form p.1
          hint := _get_section_hint p.1
          options := p.2.map (fun q =>
            { key := q.1
              value := _strip_inline_comment q.2
              is_password := _is_password_key q.1
              form_section := _section_to_form p.1
              hint := _get_option_hint p.1 q.1 : OptRec }) : SectionRec })
      if sections_out = [] then _default_sections_structure else sections_out

/-- The `by_name` dict comprehension of `_merge_parsed_with_schema`: on
duplicate names the later section wins. -/
def lookupSectionLast (parsed : List SectionRec) (name : Str) : Option SectionRec :=
  parsed.reverse.find? (fun s => s.name == name)

/-- The inner loop of `_merge_parsed_with_schema`: write the parsed values
over the schema options, in place, for keys the schema knows. -/
def overlayOptions (schemaOpts parsedOpts : List OptRec) : List OptRec :=
  parsedOpts.foldl (fun acc k =>
    if acc.any (fun o => o.key == k.key) then
      acc.map (fun o => if o.key == k.key then { o with value := k.value } else o)
    else acc) schemaOpts

/-- config_ini.py `_merge_parsed_with_schema`. -/
def _merge_parsed_with_schema (parsed schema : List SectionRec) : List SectionRec :=
  schema.map (fun sect =>
    let keys0 := match lookupSectionLast parsed sect.name with
      | some p => overlayOptions sect.options p.options
      | Option.none => sect.options
    let keys_out := keys0.map (fun o => { o with form_section := _section_to_form sect.name })
    { name := sect.name
      form_section := _section_to_form sect.name
      hint := _get_section_hint sect.name
      options := keys_out })

/-- config_ini.py `parse_config_with_schema`. -/
def parse_config_with_schema (file : Option Str) : List SectionRec :=
  let schema := _default_sections_structure
  match file with
  | Option.none => schema
  | some content =>
    let parsed := parse_config (some content)
    if parsed = [] then schema else _merge_parsed_with_schema parsed schema

/-- Append a `(key, value)` pair to a section's pair list in the
insertion-ordered `by_section` mapping. -/
def dictAppendPair (acc : List (Str × List (Str × Str))) (sectionName : Str) (kv : Str × Str) :
    List (Str × List (Str × Str)) :=
  if acc.any (fun p => p.1 == sectionName) then
    acc.map (fun p => if p.1 == sectionName then (p.1, p.2 ++ [kv]) else p)
  else acc ++ [(sectionName, [kv])]

/-- Python `dict(pairs).get(k, "")`: the value of the last pair carrying the
key, or the empty string. -/
def pairsGetLast (pairs : List (Str × Str)) (k : Str) : Str :=
  ((pairs.reverse.find? (fun q => q.1 == k)).map (·.2)).getD []

/-- config_ini.py `build_ini_from_form`. -/
def build_ini_from_form (form_data : List (Str × Str)) : Str :=
  let pfx := str ("v") ++ FORM_SEP
  let by_section : List (Str × List (Str × Str)) :=
    form_data.foldl (fun acc p =>
      if !(pyStartsWith p.1 pfx) || !(pyContainsSub (p.1.drop pfx.length) FORM_SEP) then acc
      else
        match pySplitOnce (p.1.drop pfx.length) FORM_SEP with
        | Option.none => acc
        | some (form_section, key) =>
          let sectionName := _form_to_section form_section
          let value := pyStrip (pyOr p.2 (str ("")))
          dictAppendPair acc sectionName (key, value)) []
  let schema := _default_sections_structure
  let lines : List Str :=
    schema.foldl (fun ls sect =>
      let vals := ((by_section.find? (fun p => p.1 == sect.name)).map (·.2)).getD []
      let ls := ls ++ [str ("[") ++ sect.name ++ str ("]")]
      let ls := sect.options.foldl (fun ls key_info =>
        ls ++ [key_info.key ++ str (" = ") ++ pairsGetLast vals key_info.key]) ls
      ls ++ [str ("")]) [str ("# Config.ini File"), str ("")]
  pyStrip (joinNl lines) ++ str ("\n")

/-- config_ini.py `form_field_name`. -/
def form_field_name (form_section key : Str) : Str :=
  str ("v") ++ FORM_SEP ++ form_section ++ FORM_SEP ++ key

/-! ## Vocabulary used by the claims -/

/-- All `(section, key)` pairs of the registry, in registry order. -/
def registryPairs : List (Str × Str) :=
  _default_sections_structure.foldr (fun s r => s.options.map (fun o => (s.name, o.key)) ++ r) []

/-- The canonical form payload supplying a value for every registry pair:
each field is named by `form_field_name` and carries `v section key`. -/
def canonicalForm (v : Str → Str → Str) : List (Str × Str) :=
  registryPairs.map (fun p => (form_field_name (_section_to_form p.1) p.2, v p.1 p.2))

/-- Projection of a served structure to its `(section, (key, value))` data. -/
def configValues (sections : List SectionRec) : List (Str × List (Str × Str)) :=
  sections.map (fun s => (s.name, s.options.map (fun o => (o.key, o.value))))

/-- The value recorded for a `(section, key)` pair in a served structure. -/
def configValue (sections : List SectionRec) (sectionName key : Str) : Option Str :=
  (sections.find? (fun s => s.name == sectionName)).bind
    (fun s => (s.options.find? (fun o => o.key == key)).map (·.value))

/-- Executable well-formedness of a store: every id in the order index is
present in the dict and carries its own id. -/
def storeWF (s : Store) : Bool :=
  s.job_order.all (fun jid =>
    match dictGet s.jobs jid with
    | some j => j.id == jid
    | Option.none => false)

/-! ## Dictionary lemmas -/

theorem dictGet_map_set (m : List (String × Job)) (k : String) (v : Job)
    (hAny : m.any (fun p => p.1 == k) = true) :
    dictGet (m.map (fun p => if p.1 == k then (k, v) else p)) k = some v := by
  induction m with
  | nil => simp at hAny
  | cons p m ih =>
    by_cases hp : p.1 == k
    · simp [dictGet, List.find?, hp]
    · have hAny' : m.any (fun p => p.1 == k) = true := by
        simpa [List.any_cons, hp] using hAny
      simpa [dictGet, List.find?, hp] using ih hAny'

theorem dictGet_append_single (m : List (String × Job)) (k : String) (v : Job)
    (hAny : m.any (fun p => p.1 == k) = false) :
    dictGet (m ++ [(k, v)]) k = some v := by
  induction m with
  | nil => simp [dictGet, List.find?]
  | cons p m ih =>
    simp only [List.any_cons, Bool.or_eq_false_iff] at hAny
    simpa [dictGet, List.find?, hAny.1] using ih hAny.2

/-- Setting a key makes it readable. -/
theorem dictGet_dictSet_self (m : List (String × Job)) (k : String) (v : Job) :
    dictGet (dictSet m k v) k = some v := by
  unfold dictSet
  by_cases hAny : m.any (fun p => p.1 == k) = true
  · simpa [hAny] using dictGet_map_set m k v hAny
  · simp only [Bool.not_eq_true] at hAny
    simpa [hAny] using dictGet_append_single m k v hAny

theorem dictGet_map_set_other (m : List (String × Job)) (k k' : String) (v : Job)
    (hne : k' ≠ k) :
    dictGet (m.map (fun p => if p.1 == k then (k, v) else p)) k' = dictGet m k' := by
  induction m with
  | nil => rfl
  | cons p m ih =>
    simp only [List.map_cons]
    by_cases hp : (p.1 == k) = true
    · have h1 : (((k, v) : String × Job).1 == k') = false := by
        simp only [beq_eq_false_iff_ne]
        exact fun h => hne h.symm
      have h2 : (p.1 == k') = false := by
        simp only [beq_iff_eq] at hp
        simp only [beq_eq_false_iff_ne, hp]
        exact fun h => hne h.symm
      rw [if_pos hp]
      unfold dictGet
      simp only [List.find?_cons, h1, h2]
      exact ih
    · rw [if_neg hp]
      unfold dictGet
      simp only [List.find?_cons]
      cases hq : (p.1 == k')
      · exact ih
      · rfl

theorem dictGet_append_single_other (m : List (String × Job)) (k k' : String) (v : Job)
    (hne : k' ≠ k) :
    dictGet (m ++ [(k, v)]) k' = dictGet m k' := by
  induction m with
  | nil =>
    have h1 : (((k, v) : String × Job).1 == k') = false := by
      simp only [beq_eq_false_iff_ne]
      exact fun h => hne h.symm
    unfold dictGet
    simp only [List.nil_append, List.find?_cons, h1, List.find?_nil]
  | cons p m ih =>
    unfold dictGet at ih ⊢
    rw [List.cons_append]
    simp only [List.find?_cons]
    cases hq : (p.1 == k')
    · exact ih
    · rfl

/-- Setting a key leaves the other keys unchanged. -/
theorem dictGet_dictSet_other (m : List (String × Job)) (k k' : String) (v : Job)
    (hne : k' ≠ k) :
    dictGet (dictSet m k v) k' = dictGet m k' := by
  unfold dictSet
  by_cases hAny : m.any (fun p => p.1 == k) = true <;>
    simp only [hAny, Bool.false_eq_true, if_true, if_false]
  · exact dictGet_map_set_other m k k' v hne
  · exact dictGet_append_single_other m k k' v hne

/-! ## Claim C7: section-name form encoding -/

/-- C7 (counterexample): decoding does not reverse encoding for a section
name that already contains an underscore: `my_section` encodes to itself
and decodes to `my section`. -/
theorem C7_section_encoding_counterexample :
    _form_to_section (_section_to_form (str ("my_section"))) ≠ str ("my_section") := by
  decide

/-- C7 (amended): for every section name containing no underscore, decoding
reverses encoding: `_form_to_section (_section_to_form s) = s`. -/
theorem C7_section_encoding_roundtrip (s : Str) (h : '_' ∉ s) :
    _form_to_section (_section_to_form s) = s := by
  induction s with
  | nil => rfl
  | cons c cs ih =>
    rw [List.mem_cons, not_or] at h
    obtain ⟨h1, h2⟩ := h
    unfold _form_to_section _section_to_form pyReplaceChar at ih ⊢
    simp only [List.map_cons, List.cons.injEq]
    refine ⟨?_, ih h2⟩
    by_cases hc : c = ' '
    · simp [hc]
    · simp only [if_neg hc]
      rw [if_neg]
      exact fun hh => (h1 hh.symm).elim

/-- C7 witness: the round trip at a concrete underscore-free name. -/
theorem C7_section_encoding_roundtrip_witness :
    _form_to_section (_section_to_form (str ("My Section"))) = str ("My Section") :=
  C7_section_encoding_roundtrip (str ("My Section")) (by decide)

/-! ## Claim C8: unknown job ids are safe -/

/-- C8: for a job id absent from the store, `update_job_status` and
`append_job_log` are no-ops leaving the whole store unchanged, `get_job`
returns `none`, and the API route reports the miss as a 404 "Job not
found" response; no lookup fault crashes the store. -/
theorem C8_unknown_id_safe (s : Store) (job_id : String)
    (h : dictGet s.jobs job_id = Option.none)
    (st : JobStatus) (e r : Option String) (line : String) :
    update_job_status s job_id st e r = s ∧
    append_job_log s job_id line = s ∧
    get_job s job_id = Option.none ∧
    get_job_api s job_id = ApiResult.httpError 404 "Job not found" := by
  refine ⟨?_, ?_, ?_, ?_⟩
  · unfold update_job_status
    rw [h]
  · unfold append_job_log
    rw [h]
  · exact h
  · unfold get_job_api get_job
    rw [h]

/-- C8 witness at the empty store. -/
theorem C8_unknown_id_safe_witness :
    update_job_status emptyStore "nope" JobStatus.running Option.none Option.none = emptyStore ∧
    append_job_log emptyStore "nope" "line" = emptyStore ∧
    get_job emptyStore "nope" = Option.none ∧
    get_job_api emptyStore "nope" = ApiResult.httpError 404 "Job not found" :=
  C8_unknown_id_safe emptyStore "nope" (by rfl) JobStatus.running Option.none Option.none "line"

/-! ## Claim C9: update_job_status frame conditions -/

/-- C9: for a job present in the store, `update_job_status` sets the status
and refreshes `updated_at`; an absent `error` leaves the previously
recorded error unchanged, an absent `result_summary` leaves the summary
unchanged (present ones overwrite); and `id`, `mode`, `created_at` and
`log_lines` are unchanged in all cases. -/
theorem C9_update_status_frame (s : Store) (job_id : String) (j : Job)
    (h : dictGet s.jobs job_id = some j) (st : JobStatus) (e r : Option String) :
    dictGet (update_job_status s job_id st e r).jobs job_id =
      some { j with
             status := st
             updated_at := s.clock
             error := match e with | some m => some m | Option.none => j.error
             result_summary := match r with | some m => some m | Option.none => j.result_summary } := by
  unfold update_job_status
  rw [h]
  exact dictGet_dictSet_self s.jobs job_id _

/-- C9 witness: a fresh job updated to `done` with a summary and no error
keeps its (empty) error, id, mode, creation time and logs. -/
theorem C9_update_status_frame_witness :
    dictGet (update_job_status (create_job emptyStore "m").2 "job-0" JobStatus.done
      Option.none (some "ok")).jobs "job-0" =
      some { id := "job-0", mode := "m", status := JobStatus.done, created_at := 0,
             updated_at := 1, log_lines := [], error := Option.none,
             result_summary := some "ok" } := by
  have h := C9_update_status_frame (create_job emptyStore "m").2 "job-0"
    ⟨"job-0", "m", JobStatus.pending, 0, 0, [], Option.none, Option.none⟩
    (by rfl) JobStatus.done Option.none (some "ok")
  simpa using h

/-! ## Claim C10: empty parse falls back to the default registry -/

/-- C10: when the configuration file exists and reads without error but
yields zero sections (for example an empty file), `parse_config` and
`parse_config_with_schema` both return the complete default registry
structure — including the defaults `album = all`, `max_photos = 10000` and
`timezone = US/Central` — and the served view is never empty. -/
theorem C10_empty_parse_defaults (content : Str)
    (h : iniRead (pySplitLines content) = some []) :
    parse_config (some content) = _default_sections_structure ∧
    parse_config_with_schema (some content) = _default_sections_structure ∧
    configValue _default_sections_structure (str ("Apple Photos")) (str ("album")) = some (str ("all")) ∧
    configValue _default_sections_structure (str ("Apple Photos")) (str ("max_photos")) = some (str ("10000")) ∧
    configValue _default_sections_structure (str ("TimeZone")) (str ("timezone")) = some (str ("US/Central")) ∧
    _default_sections_structure ≠ [] := by
  have h1 : parse_config (some content) = _default_sections_structure := by
    simp only [parse_config, h, List.map_nil]
    rfl
  refine ⟨h1, ?_, by decide, by decide, by decide, by decide⟩
  simp only [parse_config_with_schema, h1]
  decide

/-- C10 witness: the empty file content. -/
theorem C10_empty_parse_defaults_witness :
    parse_config (some []) = _default_sections_structure ∧
    parse_config_with_schema (some []) = _default_sections_structure ∧
    configValue _default_sections_structure (str ("Apple Photos")) (str ("album")) = some (str ("all")) ∧
    configValue _default_sections_structure (str ("Apple Photos")) (str ("max_photos")) = some (str ("10000")) ∧
    configValue _default_sections_structure (str ("TimeZone")) (str ("timezone")) = some (str ("US/Central")) ∧
    _default_sections_structure ≠ [] :=
  C10_empty_parse_defaults [] (by rfl)

/-! ## Claim C4: list_jobs semantics -/

/-- A store holding 51 jobs. -/
def manyJobsStore : Store :=
  (List.range 51).foldl (fun s i => (create_job s (toString i)).2) emptyStore

/-- C4 (counterexample): `limit ≤ 0` does not always return all jobs, and
neither does an unspecified limit.  With one job in the store,
`list_jobs(-1)` returns nothing; with 51 jobs, the default
(`limit` unspecified, i.e. 50) returns only 50 of the 51. -/
theorem C4_list_limit_counterexample :
    (list_jobs (create_job emptyStore "m").2 (-1) = [] ∧
     list_jobs (create_job emptyStore "m").2 0 ≠ []) ∧
    ((list_jobs_default manyJobsStore).length = 50 ∧
     (list_jobs manyJobsStore 0).length = 51) := by
  decide

theorem list_jobs_zero (s : Store) :
    list_jobs s 0 = s.job_order.reverse.filterMap (dictGet s.jobs) := rfl

theorem list_jobs_pos (s : Store) (limit : Int) (h : 0 < limit) :
    list_jobs s limit =
      (s.job_order.drop (s.job_order.length - limit.toNat)).reverse.filterMap (dictGet s.jobs) := by
  have hne : limit ≠ 0 := by omega
  have hneg : -limit < 0 := by omega
  unfold list_jobs pySliceFrom
  simp only [hne, if_true, if_neg, hneg, if_pos, neg_neg, ite_true, ne_eq,
    not_false_eq_true]

theorem list_jobs_neg (s : Store) (limit : Int) (h : limit < 0) :
    list_jobs s limit =
      (s.job_order.drop (-limit).toNat).reverse.filterMap (dictGet s.jobs) := by
  have hne : limit ≠ 0 := by omega
  have hpos : ¬(-limit < 0) := by omega
  unfold list_jobs pySliceFrom
  simp only [hne, hpos, ite_true, ite_false, ne_eq, not_false_eq_true, if_false]

theorem filterMap_dictGet_ids (jobs : List (String × Job)) (l : List String)
    (hl : ∀ jid ∈ l, (match dictGet jobs jid with
                      | some j => j.id == jid
                      | Option.none => false) = true) :
    (l.filterMap (dictGet jobs)).map Job.id = l := by
  induction l with
  | nil => rfl
  | cons a l ih =>
    have ha := hl a (List.mem_cons_self a l)
    cases hga : dictGet jobs a with
    | none => rw [hga] at ha; simp at ha
    | some j =>
      rw [hga] at ha
      simp only [beq_iff_eq] at ha
      simp only [List.filterMap_cons, hga, List.map_cons, ha, List.cons.injEq, true_and]
      exact ih (fun jid hj => hl jid (List.mem_cons_of_mem a hj))

theorem filterMap_take_of_isSome {α β : Type} (f : α → Option β) (L : List α)
    (hf : ∀ x ∈ L, (f x).isSome = true) :
    ∀ m, (L.take m).filterMap f = (L.filterMap f).take m := by
  induction L with
  | nil => intro m; simp
  | cons a l ih =>
    intro m
    cases m with
    | zero => simp
    | succ m =>
      have ha := hf a (List.mem_cons_self a l)
      obtain ⟨b, hb⟩ := Option.isSome_iff_exists.mp ha
      simp only [List.take_succ_cons, List.filterMap_cons, hb, List.take_cons]
      rw [ih (fun x hx => hf x (List.mem_cons_of_mem a hx)) m]

/-- C4 (amended): for a well-formed store, `list_jobs` returns at most
`limit` jobs when `limit > 0`; `limit = 0` returns all jobs, most recently
created first (ids in reverse creation order); for every integer limit the
result extends to `list_jobs s 0` (a front segment of it); a negative limit
returns all but the `|limit|` oldest jobs; and an unspecified limit
defaults to 50 rather than to all jobs. -/
theorem C4_list_jobs_amended (s : Store) (hwf : storeWF s = true) (limit : Int) :
    (0 < limit → (list_jobs s limit).length ≤ limit.toNat) ∧
    ((list_jobs s 0).map Job.id = s.job_order.reverse) ∧
    (∃ t, list_jobs s limit ++ t = list_jobs s 0) ∧
    (limit < 0 →
      list_jobs s limit = (list_jobs s 0).take (s.job_order.length - (-limit).toNat)) ∧
    list_jobs_default s = list_jobs s 50 := by
  have hwf' : ∀ jid ∈ s.job_order, (match dictGet s.jobs jid with
      | some j => j.id == jid
      | Option.none => false) = true := by
    intro jid hj
    exact List.all_eq_true.mp hwf jid hj
  have hsome : ∀ jid ∈ s.job_order.reverse, (dictGet s.jobs jid).isSome = true := by
    intro jid hj
    have := hwf' jid (List.mem_reverse.mp hj)
    cases hga : dictGet s.jobs jid
    · rw [hga] at this; simp at this
    · rfl
  refine ⟨?_, ?_, ?_, ?_, rfl⟩
  · intro h
    rw [list_jobs_pos s limit h]
    calc ((s.job_order.drop (s.job_order.length - limit.toNat)).reverse.filterMap
            (dictGet s.jobs)).length
        ≤ (s.job_order.drop (s.job_order.length - limit.toNat)).reverse.length :=
          List.length_filterMap_le _ _
      _ = s.job_order.length - (s.job_order.length - limit.toNat) := by
          rw [List.length_reverse, List.length_drop]
      _ ≤ limit.toNat := by omega
  · rw [list_jobs_zero]
    exact filterMap_dictGet_ids s.jobs s.job_order.reverse
      (fun jid hj => hwf' jid (List.mem_reverse.mp hj))
  · rcases lt_trichotomy limit 0 with hlt | heq | hgt
    · rw [list_jobs_neg s limit hlt, list_jobs_zero, List.reverse_drop]
      exact ⟨(s.job_order.reverse.drop (s.job_order.length - (-limit).toNat)).filterMap
          (dictGet s.jobs),
        by rw [← List.filterMap_append, List.take_append_drop]⟩
    · exact ⟨[], by rw [heq, List.append_nil]⟩
    · rw [list_jobs_pos s limit hgt, list_jobs_zero, List.reverse_drop]
      exact ⟨(s.job_order.reverse.drop
          (s.job_order.length - (s.job_order.length - limit.toNat))).filterMap
          (dictGet s.jobs),
        by rw [← List.filterMap_append, List.take_append_drop]⟩
  · intro hlt
    rw [list_jobs_neg s limit hlt, list_jobs_zero, List.reverse_drop,
      filterMap_take_of_isSome (dictGet s.jobs) s.job_order.reverse hsome]

/-- C4 witness: the amended statement at a one-job store with limit 1. -/
theorem C4_list_jobs_amended_witness :
    (0 < (1 : Int) → (list_jobs (create_job emptyStore "m").2 1).length ≤ (1 : Int).toNat) ∧
    ((list_jobs (create_job emptyStore "m").2 0).map Job.id =
      (create_job emptyStore "m").2.job_order.reverse) ∧
    (∃ t, list_jobs (create_job emptyStore "m").2 1 ++ t =
      list_jobs (create_job emptyStore "m").2 0) ∧
    ((1 : Int) < 0 →
      list_jobs (create_job emptyStore "m").2 1 =
        (list_jobs (create_job emptyStore "m").2 0).take
          ((create_job emptyStore "m").2.job_order.length - (-(1 : Int)).toNat)) ∧
    list_jobs_default (create_job emptyStore "m").2 = list_jobs (create_job emptyStore "m").2 50 :=
  C4_list_jobs_amended (create_job emptyStore "m").2 (by decide) 1

/-! ## Claim C5: merge idempotence -/

/-- Value carried by the last parsed option with the given key (later
entries of the parsed list overwrite earlier ones in the overlay loop). -/
def lastValueFor (parsedOpts : List OptRec) (key : Str) : Option Str :=
  (parsedOpts.reverse.find? (fun o => o.key == key)).map (·.value)

theorem OptRec.eta_value (o : OptRec) : { o with value := o.value } = o := rfl

theorem lastValueFor_cons (k : OptRec) (rest : List OptRec) (key : Str) :
    lastValueFor (k :: rest) key =
      match lastValueFor rest key with
      | some v => some v
      | Option.none => if k.key == key then some k.value else Option.none := by
  unfold lastValueFor
  rw [List.reverse_cons, List.find?_append]
  cases h : rest.reverse.find? (fun o => o.key == key) with
  | some o => rfl
  | none =>
    simp only [List.find?_singleton]
    cases hk : (k.key == key)
    · rfl
    · rfl

theorem overlayStep_eq_map (sOpts : List OptRec) (k : OptRec) :
    (if sOpts.any (fun o => o.key == k.key) then
       sOpts.map (fun o => if o.key == k.key then { o with value := k.value } else o)
     else sOpts) =
    sOpts.map (fun o => { o with value := if o.key == k.key then k.value else o.value }) := by
  have hmap : sOpts.map (fun o => if o.key == k.key then { o with value := k.value } else o) =
      sOpts.map (fun o => { o with value := if o.key == k.key then k.value else o.value }) := by
    apply List.map_congr_left
    intro o _
    by_cases h : (o.key == k.key) = true
    · rw [if_pos h, if_pos h]
    · rw [if_neg h, if_neg h, OptRec.eta_value]
  by_cases hAny : sOpts.any (fun o => o.key == k.key) = true
  · rw [if_pos hAny]
    exact hmap
  · rw [if_neg hAny]
    rw [Bool.not_eq_true, List.any_eq_false] at hAny
    conv_lhs => rw [← List.map_id sOpts]
    apply List.map_congr_left
    intro o ho
    have h := hAny o ho
    simp only [Bool.not_eq_true] at h
    rw [id_eq, if_neg (by simp [h]), OptRec.eta_value]

/-- The overlay loop of the merge writes, for every schema option, the last
parsed value for its key (or keeps the schema value when the key was not
parsed); nothing else changes. -/
theorem overlayOptions_eq_map (parsedOpts : List OptRec) : ∀ (schemaOpts : List OptRec),
    overlayOptions schemaOpts parsedOpts =
      schemaOpts.map (fun o => { o with value := (lastValueFor parsedOpts o.key).getD o.value }) := by
  induction parsedOpts with
  | nil =>
    intro sOpts
    show List.foldl _ sOpts [] = _
    rw [List.foldl_nil]
    conv_lhs => rw [← List.map_id sOpts]
    apply List.map_congr_left
    intro o _
    rfl
  | cons k rest ih =>
    intro sOpts
    have hcons : overlayOptions sOpts (k :: rest) = overlayOptions
        (if sOpts.any (fun o => o.key == k.key) then
           sOpts.map (fun o => if o.key == k.key then { o with value := k.value } else o)
         else sOpts) rest := rfl
    rw [hcons, overlayStep_eq_map sOpts k, ih, List.map_map]
    apply List.map_congr_left
    intro o _
    show ({ o with value := ((lastValueFor rest o.key).getD
            (if o.key == k.key then k.value else o.value)) } : OptRec) = _
    rw [lastValueFor_cons]
    cases h : lastValueFor rest o.key with
    | some v => rfl
    | none =>
      by_cases hk : (o.key == k.key) = true
      · rw [if_pos hk, if_pos (by rw [Bool.beq_comm] at hk; exact hk)]
        rfl
      · rw [if_neg hk, if_neg (by rw [Bool.beq_comm] at hk; exact hk)]

theorem lastValueFor_map_self (g : OptRec → OptRec) (hg : ∀ o, (g o).key = o.key) :
    ∀ (sOpts : List OptRec), (sOpts.map (fun o => o.key)).Nodup →
    ∀ o ∈ sOpts, lastValueFor (sOpts.map g) o.key = some ((g o).value) := by
  intro sOpts
  induction sOpts with
  | nil => intro _ o ho; cases ho
  | cons a l ih =>
    intro hnd o ho
    rw [List.map_cons, List.nodup_cons] at hnd
    obtain ⟨hnotin, hnd'⟩ := hnd
    rw [List.map_cons, lastValueFor_cons]
    rcases List.mem_cons.mp ho with rfl | hmem
    · have hnone : lastValueFor (l.map g) o.key = Option.none := by
        unfold lastValueFor
        rw [List.find?_eq_none.mpr]
        · rfl
        · intro x hx
          rw [List.mem_reverse, List.mem_map] at hx
          obtain ⟨y, hy, rfl⟩ := hx
          simp only [hg, beq_iff_eq]
          intro hxy
          exact hnotin (hxy ▸ List.mem_map_of_mem (fun o => o.key) hy)
      rw [hnone, hg, if_pos (by simp)]
    · rw [ih hnd' o hmem]

theorem lookupSectionLast_map_self (F : SectionRec → SectionRec)
    (hF : ∀ s, (F s).name = s.name) :
    ∀ (schema : List SectionRec), (schema.map (fun s => s.name)).Nodup →
    ∀ sect ∈ schema, lookupSectionLast (schema.map F) sect.name = some (F sect) := by
  intro schema
  induction schema with
  | nil => intro _ sect h; cases h
  | cons a l ih =>
    intro hnd sect h
    rw [List.map_cons, List.nodup_cons] at hnd
    obtain ⟨hnotin, hnd'⟩ := hnd
    unfold lookupSectionLast
    rw [List.map_cons, List.reverse_cons, List.find?_append]
    rcases List.mem_cons.mp h with rfl | hmem
    · have hnone : (l.map F).reverse.find? (fun s => s.name == sect.name) = Option.none := by
        rw [List.find?_eq_none]
        intro x hx
        rw [List.mem_reverse, List.mem_map] at hx
        obtain ⟨y, hy, rfl⟩ := hx
        simp only [hF, beq_iff_eq]
        intro hxy
        exact hnotin (hxy ▸ List.mem_map_of_mem (fun s => s.name) hy)
      rw [hnone]
      show (List.find? (fun s => s.name == sect.name) [F sect]) = some (F sect)
      rw [List.find?_singleton, if_pos (by simp [hF])]
    · have hfound := ih hnd' sect hmem
      unfold lookupSectionLast at hfound
      rw [hfound]
      rfl

/-- The options a merge writes for one schema section. -/
def mergedSectionOptions (p : List SectionRec) (sect : SectionRec) : List OptRec :=
  (match lookupSectionLast p sect.name with
   | some q => overlayOptions sect.options q.options
   | Option.none => sect.options).map
    (fun (o : OptRec) => { o with form_section := _section_to_form sect.name })

/-- The section a merge writes for one schema section. -/
def mergedSection (p : List SectionRec) (sect : SectionRec) : SectionRec :=
  { name := sect.name
    form_section := _section_to_form sect.name
    hint := _get_section_hint sect.name
    options := mergedSectionOptions p sect }

theorem merge_eq_map_mergedSection (p schema : List SectionRec) :
    _merge_parsed_with_schema p schema = schema.map (mergedSection p) := by
  unfold _merge_parsed_with_schema mergedSection mergedSectionOptions
  apply List.map_congr_left
  intro sect _
  cases hq : lookupSectionLast p sect.name <;> rfl

/-- One section of the second merge reproduces the first merge's section:
overlaying the schema options with the already-merged options (which carry
exactly the schema keys) rewrites every value to itself. -/
theorem merge_section_stable (sOpts popts : List OptRec) (fsn : Str)
    (hnd : (sOpts.map (fun o => o.key)).Nodup) :
    (overlayOptions sOpts
        ((overlayOptions sOpts popts).map (fun o => { o with form_section := fsn }))).map
        (fun o => { o with form_section := fsn }) =
      (overlayOptions sOpts popts).map (fun o => { o with form_section := fsn }) := by
  rw [overlayOptions_eq_map popts sOpts, List.map_map, overlayOptions_eq_map _ sOpts,
    List.map_map]
  apply List.map_congr_left
  intro o ho
  have hval := lastValueFor_map_self
    ((fun (o : OptRec) => { o with form_section := fsn }) ∘
      (fun (o : OptRec) => { o with value := (lastValueFor popts o.key).getD o.value }))
    (fun o => rfl) sOpts hnd o ho
  simp only [Function.comp_apply] at hval ⊢
  rw [hval]
  rfl

/-- Merge idempotence over any schema with distinct section names and
per-section distinct keys. -/
theorem merge_idem_general (p schema : List SectionRec)
    (hndnames : (schema.map (fun s => s.name)).Nodup)
    (hndkeys : ∀ sect ∈ schema, (sect.options.map (fun o => o.key)).Nodup) :
    _merge_parsed_with_schema (_merge_parsed_with_schema p schema) schema =
      _merge_parsed_with_schema p schema := by
  rw [merge_eq_map_mergedSection p schema, merge_eq_map_mergedSection]
  apply List.map_congr_left
  intro sect hsect
  unfold mergedSection
  simp only [SectionRec.mk.injEq, true_and]
  show mergedSectionOptions (schema.map (mergedSection p)) sect = mergedSectionOptions p sect
  unfold mergedSectionOptions
  rw [lookupSectionLast_map_self (mergedSection p) (fun s => rfl) schema hndnames sect hsect]
  cases hq : lookupSectionLast p sect.name with
  | some q =>
    show (overlayOptions sect.options (mergedSection p sect).options).map
        (fun o => { o with form_section := _section_to_form sect.name }) =
      (overlayOptions sect.options q.options).map
        (fun o => { o with form_section := _section_to_form sect.name })
    have hopts : (mergedSection p sect).options =
        (overlayOptions sect.options q.options).map
          (fun o => { o with form_section := _section_to_form sect.name }) := by
      show mergedSectionOptions p sect = _
      unfold mergedSectionOptions
      rw [hq]
    rw [hopts]
    exact merge_section_stable sect.options q.options _ (hndkeys sect hsect)
  | none =>
    show (overlayOptions sect.options (mergedSection p sect).options).map
        (fun o => { o with form_section := _section_to_form sect.name }) =
      (overlayOptions sect.options []).map
        (fun o => { o with form_section := _section_to_form sect.name })
    have hopts : (mergedSection p sect).options =
        (overlayOptions sect.options []).map
          (fun o => { o with form_section := _section_to_form sect.name }) := by
      show mergedSectionOptions p sect = _
      unfold mergedSectionOptions
      rw [hq]
      rfl
    rw [hopts]
    exact merge_section_stable sect.options [] _ (hndkeys sect hsect)

/-- C5: the merge is idempotent.  Merging the schema-ordered result of
`_merge_parsed_with_schema p schema` with a fresh copy of the registry
schema yields an identical structure (same sections, keys, values, order). -/
theorem C5_merge_idempotent (p : List SectionRec) :
    _merge_parsed_with_schema (_merge_parsed_with_schema p _default_sections_structure)
      _default_sections_structure = _merge_parsed_with_schema p _default_sections_structure :=
  merge_idem_general p _default_sections_structure (by decide) (by decide)

/-! ## Runner lemmas -/

theorem dictGet_update_job_status_self (s : Store) (job_id : String) (j : Job)
    (h : dictGet s.jobs job_id = some j) (st : JobStatus) (e r : Option String) :
    dictGet (update_job_status s job_id st e r).jobs job_id =
      some { j with
             status := st
             updated_at := s.clock
             error := match e with | some m => some m | Option.none => j.error
             result_summary := match r with | some m => some m | Option.none => j.result_summary } := by
  unfold update_job_status
  rw [h]
  exact dictGet_dictSet_self s.jobs job_id _

theorem dictGet_append_job_log_self (s : Store) (job_id : String) (j : Job)
    (h : dictGet s.jobs job_id = some j) (line : String) :
    dictGet (append_job_log s job_id line).jobs job_id =
      some { j with log_lines := j.log_lines ++ [line], updated_at := s.clock } := by
  unfold append_job_log
  rw [h]
  exact dictGet_dictSet_self s.jobs job_id _

theorem applyOp_other (s : Store) (op : Op) (k : String) (hne : Op.targetId op ≠ k) :
    dictGet (applyOp s op).jobs k = dictGet s.jobs k := by
  cases op with
  | create jid mode =>
    simp only [Op.targetId] at hne
    show dictGet (insertNewJob s jid mode).jobs k = _
    unfold insertNewJob
    exact dictGet_dictSet_other s.jobs jid k _ (fun h => hne h.symm)
  | setStatus jid st e r =>
    simp only [Op.targetId] at hne
    show dictGet (update_job_status s jid st e r).jobs k = _
    unfold update_job_status
    cases h : dictGet s.jobs jid with
    | none => rfl
    | some j => exact dictGet_dictSet_other s.jobs jid k _ (fun h => hne h.symm)
  | appendLog jid line =>
    simp only [Op.targetId] at hne
    show dictGet (append_job_log s jid line).jobs k = _
    unfold append_job_log
    cases h : dictGet s.jobs jid with
    | none => rfl
    | some j => exact dictGet_dictSet_other s.jobs jid k _ (fun h => hne h.symm)

theorem applyOps_append (s : Store) (l1 l2 : List Op) :
    applyOps s (l1 ++ l2) = applyOps (applyOps s l1) l2 :=
  List.foldl_append applyOp s l1 l2

theorem applyOps_other (ops : List Op) : ∀ (s : Store) (k : String),
    (∀ op ∈ ops, Op.targetId op ≠ k) →
    dictGet (applyOps s ops).jobs k = dictGet s.jobs k := by
  induction ops with
  | nil => intro s k _; rfl
  | cons op ops ih =>
    intro s k h
    show dictGet (applyOps (applyOp s op) ops).jobs k = _
    rw [ih (applyOp s op) k (fun o ho => h o (List.mem_cons_of_mem op ho)),
      applyOp_other s op k (h op (List.mem_cons_self op ops))]

theorem applyOps_appendLogs_self (jid : String) (lines : List String) :
    ∀ (s : Store) (j : Job), dictGet s.jobs jid = some j →
    ∃ n, dictGet (applyOps s (lines.map (fun line => Op.appendLog jid line))).jobs jid =
      some { j with log_lines := j.log_lines ++ lines, updated_at := n } := by
  induction lines with
  | nil =>
    intro s j h
    refine ⟨j.updated_at, ?_⟩
    show dictGet s.jobs jid = _
    rw [h]
    simp only [List.append_nil]
  | cons line rest ih =>
    intro s j h
    have h1 := dictGet_append_job_log_self s jid j h line
    obtain ⟨n, hn⟩ := ih (append_job_log s jid line) _ h1
    refine ⟨n, ?_⟩
    show dictGet (applyOps (append_job_log s jid line) (rest.map _)).jobs jid = _
    rw [hn, List.append_assoc, List.singleton_append]

theorem applyOps_finishFail (jid : String) (m : String) (logs : List String)
    (s : Store) (j : Job) (h : dictGet s.jobs jid = some j) :
    ∃ n, dictGet (applyOps s (logs.map (fun line => Op.appendLog jid line) ++
        [Op.appendLog jid ("Error: " ++ m),
         Op.setStatus jid .failed (some m) Option.none])).jobs jid =
      some { j with
             status := JobStatus.failed
             error := some m
             log_lines := j.log_lines ++ (logs ++ ["Error: " ++ m])
             updated_at := n } := by
  obtain ⟨n2, h2⟩ := applyOps_appendLogs_self jid logs s j h
  rw [applyOps_append]
  have h3 := dictGet_append_job_log_self _ jid _ h2 ("Error: " ++ m)
  have h4 := dictGet_update_job_status_self _ jid _ h3 JobStatus.failed (some m) Option.none
  rw [List.append_assoc] at h4
  exact ⟨_, h4⟩

theorem applyOps_finishDone (jid : String) (logs : List String)
    (s : Store) (j : Job) (h : dictGet s.jobs jid = some j) :
    ∃ n, dictGet (applyOps s (logs.map (fun line => Op.appendLog jid line) ++
        [Op.setStatus jid .done Option.none (some "Completed successfully")])).jobs jid =
      some { j with
             status := JobStatus.done
             result_summary := some "Completed successfully"
             log_lines := j.log_lines ++ logs
             updated_at := n } := by
  obtain ⟨n2, h2⟩ := applyOps_appendLogs_self jid logs s j h
  rw [applyOps_append]
  have h3 := dictGet_update_job_status_self _ jid _ h2 JobStatus.done Option.none
    (some "Completed successfully")
  exact ⟨_, h3⟩

theorem runModeTrace_validation_fail (deps : RunDeps) (jid mode : String) (b : Args)
    (msg : String) (hv : deps.checkArgs (buildARGS b) = some msg) :
    runModeTrace deps jid mode b =
      ([Op.setStatus jid .running Option.none Option.none,
        Op.setStatus jid .failed (some msg) Option.none], ⟨false, false⟩) := by
  unfold runModeTrace
  dsimp only
  rw [hv]
  rfl

theorem runModeTrace_engine_raise (deps : RunDeps) (jid : String) (b : Args)
    (m : String) (logs : List String)
    (hv : deps.checkArgs (buildARGS b) = Option.none)
    (he : deps.mode_google_takeout (buildARGS b) = ⟨logs, some m⟩) :
    runModeTrace deps jid "google-takeout" b =
      ([Op.setStatus jid .running Option.none Option.none] ++
        logs.map (fun line => Op.appendLog jid line) ++
        [Op.appendLog jid ("Error: " ++ m),
         Op.setStatus jid .failed (some m) Option.none], ⟨true, true⟩) := by
  unfold runModeTrace
  dsimp only
  rw [hv, if_pos rfl, he]

theorem runModeTrace_engine_ok (deps : RunDeps) (jid : String) (b : Args)
    (logs : List String)
    (hv : deps.checkArgs (buildARGS b) = Option.none)
    (he : deps.mode_google_takeout (buildARGS b) = ⟨logs, Option.none⟩) :
    runModeTrace deps jid "google-takeout" b =
      ([Op.setStatus jid .running Option.none Option.none] ++
        logs.map (fun line => Op.appendLog jid line) ++
        [Op.setStatus jid .done Option.none (some "Completed successfully")], ⟨true, true⟩) := by
  unfold runModeTrace
  dsimp only
  rw [hv, if_pos rfl, he]

theorem run_mode_gt_raise (deps : RunDeps) (jid : String) (b : Args) (s : Store) (j : Job)
    (hj : dictGet s.jobs jid = some j) (m : String) (logs : List String)
    (hv : deps.checkArgs (buildARGS b) = Option.none)
    (he : deps.mode_google_takeout (buildARGS b) = ⟨logs, some m⟩) :
    (∃ n, dictGet (run_mode deps jid "google-takeout" b s).jobs jid =
      some { j with
             status := JobStatus.failed
             error := some m
             log_lines := j.log_lines ++ (logs ++ ["Error: " ++ m])
             updated_at := n }) ∧
    ∀ k, k ≠ jid →
      dictGet (run_mode deps jid "google-takeout" b s).jobs k = dictGet s.jobs k := by
  have ht := runModeTrace_engine_raise deps jid b m logs hv he
  constructor
  · unfold run_mode
    rw [ht, List.append_assoc, applyOps_append]
    have h1 : dictGet (applyOps s [Op.setStatus jid .running Option.none Option.none]).jobs jid =
        some { j with status := JobStatus.running, updated_at := s.clock } :=
      dictGet_update_job_status_self s jid j hj JobStatus.running Option.none Option.none
    exact applyOps_finishFail jid m logs _
      { j with status := JobStatus.running, updated_at := s.clock } h1
  · intro k hk
    unfold run_mode
    rw [ht]
    refine applyOps_other _ s k ?_
    intro op hop
    simp only [List.mem_append, List.mem_cons, List.mem_map, List.not_mem_nil, or_false] at hop
    rcases hop with (rfl | ⟨line, _, rfl⟩) | (rfl | rfl) <;>
      exact fun hh => hk hh.symm

theorem run_mode_gt_ok (deps : RunDeps) (jid : String) (b : Args) (s : Store) (j : Job)
    (hj : dictGet s.jobs jid = some j) (logs : List String)
    (hv : deps.checkArgs (buildARGS b) = Option.none)
    (he : deps.mode_google_takeout (buildARGS b) = ⟨logs, Option.none⟩) :
    (∃ n, dictGet (run_mode deps jid "google-takeout" b s).jobs jid =
      some { j with
             status := JobStatus.done
             result_summary := some "Completed successfully"
             log_lines := j.log_lines ++ logs
             updated_at := n }) ∧
    ∀ k, k ≠ jid →
      dictGet (run_mode deps jid "google-takeout" b s).jobs k = dictGet s.jobs k := by
  have ht := runModeTrace_engine_ok deps jid b logs hv he
  constructor
  · unfold run_mode
    rw [ht, List.append_assoc, applyOps_append]
    have h1 : dictGet (applyOps s [Op.setStatus jid .running Option.none Option.none]).jobs jid =
        some { j with status := JobStatus.running, updated_at := s.clock } :=
      dictGet_update_job_status_self s jid j hj JobStatus.running Option.none Option.none
    exact applyOps_finishDone jid logs _
      { j with status := JobStatus.running, updated_at := s.clock } h1
  · intro k hk
    unfold run_mode
    rw [ht]
    refine applyOps_other _ s k ?_
    intro op hop
    simp only [List.mem_append, List.mem_cons, List.mem_map, List.not_mem_nil, or_false] at hop
    rcases hop with (rfl | ⟨line, _, rfl⟩) | rfl <;>
      exact fun hh => hk hh.symm

/-- The engine dispatch of `run_mode`: which mode entry point a queued
item's mode string selects, and the run it produces (`none` for an unknown
mode, whose `ValueError` is handled by the shared fault handler). -/
def engineRun (deps : RunDeps) (mode : String) (args : Args) : Option EngineRun :=
  if mode = "google-takeout" then
    some (deps.mode_google_takeout args)
  else if mode = "automatic-migration" then
    some (deps.mode_AUTOMATIC_MIGRATION ((argsGet args "show-gpth-info").getD (Value.vbool true)))
  else
    Option.none

theorem runModeTrace_engine_raise_any (deps : RunDeps) (jid mode : String) (b : Args)
    (m : String) (logs : List String)
    (hv : deps.checkArgs (buildARGS b) = Option.none)
    (he : engineRun deps mode (buildARGS b) = some ⟨logs, some m⟩) :
    runModeTrace deps jid mode b =
      ([Op.setStatus jid .running Option.none Option.none] ++
        logs.map (fun line => Op.appendLog jid line) ++
        [Op.appendLog jid ("Error: " ++ m),
         Op.setStatus jid .failed (some m) Option.none], ⟨true, true⟩) := by
  have he2 : (if mode = "google-takeout" then
      some (deps.mode_google_takeout (buildARGS b))
    else if mode = "automatic-migration" then
      some (deps.mode_AUTOMATIC_MIGRATION
        ((argsGet (buildARGS b) "show-gpth-info").getD (Value.vbool true)))
    else Option.none) = some ⟨logs, some m⟩ := he
  unfold runModeTrace
  dsimp only
  rw [hv, he2]

theorem runModeTrace_engine_ok_any (deps : RunDeps) (jid mode : String) (b : Args)
    (logs : List String)
    (hv : deps.checkArgs (buildARGS b) = Option.none)
    (he : engineRun deps mode (buildARGS b) = some ⟨logs, Option.none⟩) :
    runModeTrace deps jid mode b =
      ([Op.setStatus jid .running Option.none Option.none] ++
        logs.map (fun line => Op.appendLog jid line) ++
        [Op.setStatus jid .done Option.none (some "Completed successfully")], ⟨true, true⟩) := by
  have he2 : (if mode = "google-takeout" then
      some (deps.mode_google_takeout (buildARGS b))
    else if mode = "automatic-migration" then
      some (deps.mode_AUTOMATIC_MIGRATION
        ((argsGet (buildARGS b) "show-gpth-info").getD (Value.vbool true)))
    else Option.none) = some ⟨logs, Option.none⟩ := he
  unfold runModeTrace
  dsimp only
  rw [hv, he2]

theorem run_mode_raise_any (deps : RunDeps) (jid mode : String) (b : Args) (s : Store)
    (j : Job) (hj : dictGet s.jobs jid = some j) (m : String) (logs : List String)
    (hv : deps.checkArgs (buildARGS b) = Option.none)
    (he : engineRun deps mode (buildARGS b) = some ⟨logs, some m⟩) :
    (∃ n, dictGet (run_mode deps jid mode b s).jobs jid =
      some { j with
             status := JobStatus.failed
             error := some m
             log_lines := j.log_lines ++ (logs ++ ["Error: " ++ m])
             updated_at := n }) ∧
    ∀ k, k ≠ jid →
      dictGet (run_mode deps jid mode b s).jobs k = dictGet s.jobs k := by
  have ht := runModeTrace_engine_raise_any deps jid mode b m logs hv he
  constructor
  · unfold run_mode
    rw [ht, List.append_assoc, applyOps_append]
    have h1 : dictGet (applyOps s [Op.setStatus jid .running Option.none Option.none]).jobs jid =
        some { j with status := JobStatus.running, updated_at := s.clock } :=
      dictGet_update_job_status_self s jid j hj JobStatus.running Option.none Option.none
    exact applyOps_finishFail jid m logs _
      { j with status := JobStatus.running, updated_at := s.clock } h1
  · intro k hk
    unfold run_mode
    rw [ht]
    refine applyOps_other _ s k ?_
    intro op hop
    simp only [List.mem_append, List.mem_cons, List.mem_map, List.not_mem_nil, or_false] at hop
    rcases hop with (rfl | ⟨line, _, rfl⟩) | (rfl | rfl) <;>
      exact fun hh => hk hh.symm

theorem run_mode_ok_any (deps : RunDeps) (jid mode : String) (b : Args) (s : Store)
    (j : Job) (hj : dictGet s.jobs jid = some j) (logs : List String)
    (hv : deps.checkArgs (buildARGS b) = Option.none)
    (he : engineRun deps mode (buildARGS b) = some ⟨logs, Option.none⟩) :
    (∃ n, dictGet (run_mode deps jid mode b s).jobs jid =
      some { j with
             status := JobStatus.done
             result_summary := some "Completed successfully"
             log_lines := j.log_lines ++ logs
             updated_at := n }) ∧
    ∀ k, k ≠ jid →
      dictGet (run_mode deps jid mode b s).jobs k = dictGet s.jobs k := by
  have ht := runModeTrace_engine_ok_any deps jid mode b logs hv he
  constructor
  · unfold run_mode
    rw [ht, List.append_assoc, applyOps_append]
    have h1 : dictGet (applyOps s [Op.setStatus jid .running Option.none Option.none]).jobs jid =
        some { j with status := JobStatus.running, updated_at := s.clock } :=
      dictGet_update_job_status_self s jid j hj JobStatus.running Option.none Option.none
    exact applyOps_finishDone jid logs _
      { j with status := JobStatus.running, updated_at := s.clock } h1
  · intro k hk
    unfold run_mode
    rw [ht]
    refine applyOps_other _ s k ?_
    intro op hop
    simp only [List.mem_append, List.mem_cons, List.mem_map, List.not_mem_nil, or_false] at hop
    rcases hop with (rfl | ⟨line, _, rfl⟩) | rfl <;>
      exact fun hh => hk hh.symm

/-! ## Claim C6: validation failure stops before the engine -/

/-- C6: when the validation collaborator rejects the parameters
(`checkArgs` raises `ValueError msg` through the mock parser), `run_mode`
transitions the job to `failed` with the validator's message and returns:
the engine is never invoked, the log capture handler is never installed,
and the job's log lines are untouched. -/
theorem C6_validation_failure (deps : RunDeps) (job_id mode : String) (api_body : Args)
    (s : Store) (j : Job) (hj : dictGet s.jobs job_id = some j) (msg : String)
    (hv : deps.checkArgs (buildARGS api_body) = some msg) :
    (runModeTrace deps job_id mode api_body).2.engineInvoked = false ∧
    (runModeTrace deps job_id mode api_body).2.handlerInstalled = false ∧
    ∃ n, dictGet (run_mode deps job_id mode api_body s).jobs job_id =
      some { j with status := JobStatus.failed, error := some msg, updated_at := n } := by
  have ht := runModeTrace_validation_fail deps job_id mode api_body msg hv
  refine ⟨by rw [ht], by rw [ht], ?_⟩
  unfold run_mode
  rw [ht]
  have h1 : dictGet (applyOp s (Op.setStatus job_id .running Option.none Option.none)).jobs
      job_id = some { j with status := JobStatus.running, updated_at := s.clock } :=
    dictGet_update_job_status_self s job_id j hj JobStatus.running Option.none Option.none
  have h2 := dictGet_update_job_status_self _ job_id
    { j with status := JobStatus.running, updated_at := s.clock } h1
    JobStatus.failed (some msg) Option.none
  exact ⟨_, h2⟩

/-- Shared concrete collaborators for the runner witnesses: validation
rejects a `BAD` source; the google-takeout engine raises `disk full` for
source `A` and completes otherwise. -/
def depsW : RunDeps :=
  { checkArgs := fun a =>
      match argsGet a "source" with
      | some (Value.vstr "BAD") => some "invalid source"
      | _ => Option.none
    mode_google_takeout := fun a =>
      match argsGet a "source" with
      | some (Value.vstr "A") => ⟨["line1"], some "disk full"⟩
      | _ => ⟨["line2"], Option.none⟩
    mode_AUTOMATIC_MIGRATION := fun _ => ⟨["line3"], some "disk full"⟩ }

/-- A store holding two pending jobs `job-0` and `job-1`. -/
def twoJobsStore : Store :=
  (create_job (create_job emptyStore "google-takeout").2 "google-takeout").2

/-- C6 witness: a rejected payload fails the job without reaching the
engine. -/
theorem C6_validation_failure_witness :
    (runModeTrace depsW "job-0" "google-takeout" [("source", Value.vstr "BAD")]).2.engineInvoked
      = false ∧
    (runModeTrace depsW "job-0" "google-takeout" [("source", Value.vstr "BAD")]).2.handlerInstalled
      = false ∧
    ∃ n, dictGet (run_mode depsW "job-0" "google-takeout" [("source", Value.vstr "BAD")]
        twoJobsStore).jobs "job-0" =
      some { (⟨"job-0", "google-takeout", JobStatus.pending, 0, 0, [], Option.none, Option.none⟩ : Job) with
             status := JobStatus.failed, error := some "invalid source", updated_at := n } :=
  C6_validation_failure depsW "job-0" "google-takeout" [("source", Value.vstr "BAD")]
    twoJobsStore ⟨"job-0", "google-takeout", JobStatus.pending, 0, 0, [], Option.none, Option.none⟩
    (by rfl) "invalid source" (by rfl)

/-! ## Claim C1: execution faults are contained per job -/

/-- C1: when the engine invocation for a job raises with message `m` — in
whichever execution mode the queued item names — `run_mode` appends a
final log line `Error: m` describing the fault after the engine's own log
lines, marks the job `failed` with `error = m`, and the worker loop
survives: the next queued item (of any mode) is still dequeued and
processed normally (here to `done` with its summary and logs). -/
theorem C1_engine_fault_contained (deps : RunDeps) (jid1 jid2 mode1 mode2 : String)
    (b1 b2 : Args) (s : Store) (j1 j2 : Job) (hne : jid1 ≠ jid2)
    (h1 : dictGet s.jobs jid1 = some j1) (h2 : dictGet s.jobs jid2 = some j2)
    (m : String) (logs1 logs2 : List String)
    (hv1 : deps.checkArgs (buildARGS b1) = Option.none)
    (hv2 : deps.checkArgs (buildARGS b2) = Option.none)
    (he1 : engineRun deps mode1 (buildARGS b1) = some ⟨logs1, some m⟩)
    (he2 : engineRun deps mode2 (buildARGS b2) = some ⟨logs2, Option.none⟩) :
    ∃ n1 n2,
      dictGet (worker deps s [some (jid1, mode1, b1),
          some (jid2, mode2, b2)]).jobs jid1 =
        some { j1 with
               status := JobStatus.failed
               error := some m
               log_lines := j1.log_lines ++ (logs1 ++ ["Error: " ++ m])
               updated_at := n1 } ∧
      dictGet (worker deps s [some (jid1, mode1, b1),
          some (jid2, mode2, b2)]).jobs jid2 =
        some { j2 with
               status := JobStatus.done
               result_summary := some "Completed successfully"
               log_lines := j2.log_lines ++ logs2
               updated_at := n2 } := by
  obtain ⟨⟨n1, hn1⟩, hpres1⟩ := run_mode_raise_any deps jid1 mode1 b1 s j1 h1 m logs1 hv1 he1
  have h2' : dictGet (run_mode deps jid1 mode1 b1 s).jobs jid2 = some j2 := by
    rw [hpres1 jid2 (fun hh => hne hh.symm)]
    exact h2
  obtain ⟨⟨n2, hn2⟩, hpres2⟩ :=
    run_mode_ok_any deps jid2 mode2 b2 (run_mode deps jid1 mode1 b1 s) j2 h2' logs2 hv2 he2
  refine ⟨n1, n2, ?_, ?_⟩
  · show dictGet (run_mode deps jid2 mode2 b2
        (run_mode deps jid1 mode1 b1 s)).jobs jid1 = _
    rw [hpres2 jid1 hne]
    exact hn1
  · exact hn2

/-- C1 witness: the fault scenario at concrete jobs — an
`automatic-migration` job whose engine raises `disk full`, followed by a
`google-takeout` job completing normally. -/
theorem C1_engine_fault_contained_witness :
    ∃ n1 n2,
      dictGet (worker depsW twoJobsStore
          [some ("job-0", "automatic-migration", ([] : Args)),
           some ("job-1", "google-takeout", ([] : Args))]).jobs "job-0" =
        some { (⟨"job-0", "google-takeout", JobStatus.pending, 0, 0, [], Option.none,
                 Option.none⟩ : Job) with
               status := JobStatus.failed
               error := some "disk full"
               log_lines := [] ++ (["line3"] ++ ["Error: " ++ "disk full"])
               updated_at := n1 } ∧
      dictGet (worker depsW twoJobsStore
          [some ("job-0", "automatic-migration", ([] : Args)),
           some ("job-1", "google-takeout", ([] : Args))]).jobs "job-1" =
        some { (⟨"job-1", "google-takeout", JobStatus.pending, 1, 1, [], Option.none,
                 Option.none⟩ : Job) with
               status := JobStatus.done
               result_summary := some "Completed successfully"
               log_lines := [] ++ ["line2"]
               updated_at := n2 } :=
  C1_engine_fault_contained depsW "job-0" "job-1" "automatic-migration" "google-takeout"
    ([] : Args) ([] : Args) twoJobsStore
    ⟨"job-0", "google-takeout", JobStatus.pending, 0, 0, [], Option.none, Option.none⟩
    ⟨"job-1", "google-takeout", JobStatus.pending, 1, 1, [], Option.none, Option.none⟩
    (by decide) (by rfl) (by rfl) "disk full" ["line3"] ["line2"]
    (by rfl) (by rfl) (by rfl) (by rfl)

/-! ## Claim C2: status lifecycle machinery -/

theorem statusOf_applyOp_other (s : Store) (op : Op) (jid : String)
    (hne : Op.targetId op ≠ jid) : statusOf jid (applyOp s op) = statusOf jid s := by
  unfold statusOf
  rw [applyOp_other s op jid hne]

theorem statusTrail_append (jid : String) (l1 : List Op) : ∀ (s : Store) (l2 : List Op),
    statusTrail jid s (l1 ++ l2) =
      statusTrail jid s l1 ++ statusTrail jid (applyOps s l1) l2 := by
  induction l1 with
  | nil => intro s l2; rfl
  | cons op l1 ih =>
    intro s l2
    show statusOf jid (applyOp s op) :: statusTrail jid (applyOp s op) (l1 ++ l2) = _
    rw [ih (applyOp s op) l2]
    rfl

theorem statusTrail_other (jid : String) (ops : List Op) : ∀ (s : Store),
    (∀ op ∈ ops, Op.targetId op ≠ jid) →
    statusTrail jid s ops = List.replicate ops.length (statusOf jid s) := by
  induction ops with
  | nil => intro s _; rfl
  | cons op ops ih =>
    intro s h
    have hop := h op (List.mem_cons_self op ops)
    show statusOf jid (applyOp s op) :: statusTrail jid (applyOp s op) ops = _
    rw [statusOf_applyOp_other s op jid hop,
      ih (applyOp s op) (fun o ho => h o (List.mem_cons_of_mem op ho)),
      statusOf_applyOp_other s op jid hop]
    rfl

theorem filterMap_id_replicate_some {α : Type} (n : Nat) (a : α) :
    (List.replicate n (some a)).filterMap id = List.replicate n a := by
  induction n with
  | zero => rfl
  | succ n ih => simp [List.replicate_succ, List.filterMap_cons, ih]

theorem filterMap_id_replicate_none {α : Type} (n : Nat) :
    (List.replicate n (Option.none : Option α)).filterMap id = [] := by
  induction n with
  | zero => rfl
  | succ n ih => simp [List.replicate_succ, List.filterMap_cons, ih]

theorem dedupFrom_replicate_self {α : Type} [DecidableEq α] (a : α) (n : Nat) (l : List α) :
    dedupFrom a (List.replicate n a ++ l) = dedupFrom a l := by
  induction n with
  | zero => rfl
  | succ n ih =>
    rw [List.replicate_succ, List.cons_append]
    show (if a = a then dedupFrom a (List.replicate n a ++ l)
          else a :: dedupFrom a (List.replicate n a ++ l)) = _
    rw [if_pos rfl, ih]

theorem dedupFrom_cons_ne {α : Type} [DecidableEq α] (a b : α) (hne : b ≠ a) (l : List α) :
    dedupFrom a (b :: l) = b :: dedupFrom b l := by
  show (if b = a then dedupFrom a l else b :: dedupFrom b l) = _
  rw [if_neg hne]

/-- Every `run_mode` pass performs: one transition to `running`, a run of
log appends to the same job, and one final transition to a terminal state
(`done` or `failed`). -/
theorem runModeTrace_shape (deps : RunDeps) (jid mode : String) (b : Args) :
    ∃ (mids : List Op) (term : JobStatus) (e r : Option String),
      (term = JobStatus.done ∨ term = JobStatus.failed) ∧
      (∀ op ∈ mids, ∃ line, op = Op.appendLog jid line) ∧
      (runModeTrace deps jid mode b).1 =
        Op.setStatus jid JobStatus.running Option.none Option.none ::
          (mids ++ [Op.setStatus jid term e r]) := by
  unfold runModeTrace
  dsimp only
  cases deps.checkArgs (buildARGS b) with
  | some msg =>
    refine ⟨[], JobStatus.failed, some msg, Option.none, Or.inr rfl, ?_, ?_⟩
    · intro op hop
      cases hop
    · rfl
  | none =>
    cases hrun : (if mode = "google-takeout" then some (deps.mode_google_takeout (buildARGS b))
        else if mode = "automatic-migration" then
          some (deps.mode_AUTOMATIC_MIGRATION
            ((argsGet (buildARGS b) "show-gpth-info").getD (Value.vbool true)))
        else Option.none) with
    | none =>
      refine ⟨[Op.appendLog jid ("Error: Unknown mode: " ++ mode)], JobStatus.failed,
        some ("Unknown mode: " ++ mode), Option.none, Or.inr rfl, ?_, rfl⟩
      intro op hop
      rcases List.mem_cons.mp hop with rfl | h
      · exact ⟨_, rfl⟩
      · cases h
    | some r =>
      cases r with
      | mk logs raised =>
        cases raised with
        | none =>
          refine ⟨logs.map (fun line => Op.appendLog jid line), JobStatus.done, Option.none,
            some "Completed successfully", Or.inl rfl, ?_, rfl⟩
          intro op hop
          rw [List.mem_map] at hop
          obtain ⟨line, _, rfl⟩ := hop
          exact ⟨line, rfl⟩
        | some m =>
          refine ⟨logs.map (fun line => Op.appendLog jid line) ++
            [Op.appendLog jid ("Error: " ++ m)], JobStatus.failed, some m, Option.none,
            Or.inr rfl, ?_, ?_⟩
          · intro op hop
            rw [List.mem_append] at hop
            rcases hop with h | h
            · rw [List.mem_map] at h
              obtain ⟨line, _, rfl⟩ := h
              exact ⟨line, rfl⟩
            · rcases List.mem_cons.mp h with rfl | h
              · exact ⟨_, rfl⟩
              · cases h
          · show _ = Op.setStatus jid JobStatus.running Option.none Option.none ::
              ((logs.map (fun line => Op.appendLog jid line) ++ [_]) ++ [_])
            rw [List.append_assoc]
            rfl

/-- All operations of a `run_mode` pass address its own job id. -/
theorem runModeTrace_targets (deps : RunDeps) (jid mode : String) (b : Args) :
    ∀ op ∈ (runModeTrace deps jid mode b).1, Op.targetId op = jid := by
  obtain ⟨mids, term, e, r, _, hmids, hops⟩ := runModeTrace_shape deps jid mode b
  rw [hops]
  intro op hop
  rcases List.mem_cons.mp hop with rfl | hop
  · rfl
  · rw [List.mem_append] at hop
    rcases hop with h | h
    · obtain ⟨line, rfl⟩ := hmids op h
      rfl
    · rcases List.mem_cons.mp h with rfl | h
      · rfl
      · cases h

theorem statusTrail_logs (jid : String) (mids : List Op)
    (hmids : ∀ op ∈ mids, ∃ line, op = Op.appendLog jid line) :
    ∀ (s : Store) (j : Job), dictGet s.jobs jid = some j →
    statusTrail jid s mids = List.replicate mids.length (some j.status) ∧
    ∃ j', dictGet (applyOps s mids).jobs jid = some j' ∧ j'.status = j.status := by
  induction mids with
  | nil => intro s j h; exact ⟨rfl, j, h, rfl⟩
  | cons op rest ihgen =>
    intro s j h
    obtain ⟨line, rfl⟩ := hmids _ (List.mem_cons_self _ rest)
    have h1 : dictGet (applyOp s (Op.appendLog jid line)).jobs jid =
        some { j with log_lines := j.log_lines ++ [line], updated_at := s.clock } :=
      dictGet_append_job_log_self s jid j h line
    obtain ⟨htrail, j', hj', hstat⟩ :=
      ihgen (fun o ho => hmids o (List.mem_cons_of_mem _ ho)) (applyOp s (Op.appendLog jid line))
        _ h1
    constructor
    · show statusOf jid (applyOp s (Op.appendLog jid line)) ::
        statusTrail jid (applyOp s (Op.appendLog jid line)) rest = _
      have hso : statusOf jid (applyOp s (Op.appendLog jid line)) = some j.status := by
        unfold statusOf
        rw [h1]
        rfl
      rw [hso, htrail]
      rfl
    · exact ⟨j', hj', hstat⟩

/-- Trail and final state of a full `run_mode` pass over a present job: the
observations are `running` (repeated during log capture) and then exactly
one terminal state, which the job then carries. -/
theorem run_self_trail (deps : RunDeps) (jid mode : String) (b : Args) (s : Store) (j : Job)
    (hj : dictGet s.jobs jid = some j) :
    ∃ (k : Nat) (term : JobStatus),
      (term = JobStatus.done ∨ term = JobStatus.failed) ∧
      (statusTrail jid s (runModeTrace deps jid mode b).1).filterMap id =
        JobStatus.running :: (List.replicate k JobStatus.running ++ [term]) ∧
      statusOf jid (applyOps s (runModeTrace deps jid mode b).1) = some term := by
  obtain ⟨mids, term, e, r, hterm, hmids, hops⟩ := runModeTrace_shape deps jid mode b
  rw [hops]
  have h1 : dictGet (applyOp s
      (Op.setStatus jid JobStatus.running Option.none Option.none)).jobs jid =
      some { j with status := JobStatus.running, updated_at := s.clock } :=
    dictGet_update_job_status_self s jid j hj JobStatus.running Option.none Option.none
  obtain ⟨htrail, j2, hj2, hst2⟩ := statusTrail_logs jid mids hmids _ _ h1
  have h3 := dictGet_update_job_status_self (applyOps (applyOp s
    (Op.setStatus jid JobStatus.running Option.none Option.none)) mids) jid j2 hj2 term e r
  refine ⟨mids.length, term, hterm, ?_, ?_⟩
  · show (statusOf jid (applyOp s (Op.setStatus jid JobStatus.running Option.none Option.none)) ::
      statusTrail jid (applyOp s (Op.setStatus jid JobStatus.running Option.none Option.none))
        (mids ++ [Op.setStatus jid term e r])).filterMap id = _
    rw [statusTrail_append, htrail]
    have hso : statusOf jid (applyOp s
        (Op.setStatus jid JobStatus.running Option.none Option.none)) =
        some JobStatus.running := by
      unfold statusOf
      rw [h1]
      rfl
    have hfin : statusTrail jid (applyOps (applyOp s
        (Op.setStatus jid JobStatus.running Option.none Option.none)) mids)
        [Op.setStatus jid term e r] = [some term] := by
      show [(dictGet (update_job_status (applyOps (applyOp s
        (Op.setStatus jid JobStatus.running Option.none Option.none)) mids)
          jid term e r).jobs jid).map (fun x => x.status)] = _
      rw [h3]
      rfl
    rw [hso, hfin, List.filterMap_cons, List.filterMap_append,
      filterMap_id_replicate_some, List.filterMap_cons]
    rfl
  · have hsplit : applyOps s (Op.setStatus jid JobStatus.running Option.none Option.none ::
        (mids ++ [Op.setStatus jid term e r])) =
        applyOps (applyOps (applyOp s
          (Op.setStatus jid JobStatus.running Option.none Option.none)) mids)
          [Op.setStatus jid term e r] := by
      show applyOps (applyOp s (Op.setStatus jid JobStatus.running Option.none Option.none))
        (mids ++ [Op.setStatus jid term e r]) = _
      exact applyOps_append _ mids _
    rw [hsplit]
    show statusOf jid (update_job_status (applyOps (applyOp s
      (Op.setStatus jid JobStatus.running Option.none Option.none)) mids) jid term e r) = _
    unfold statusOf
    rw [h3]
    rfl

theorem applyOp_absent_noop (s : Store) (op : Op) (jid : String)
    (ht : Op.targetId op = jid) (hnc : ∀ j m, op ≠ Op.create j m)
    (h : dictGet s.jobs jid = Option.none) : applyOp s op = s := by
  cases op with
  | create j m => exact absurd rfl (hnc j m)
  | setStatus j st e r =>
    simp only [Op.targetId] at ht
    subst ht
    show update_job_status s j st e r = s
    unfold update_job_status
    rw [h]
  | appendLog j line =>
    simp only [Op.targetId] at ht
    subst ht
    show append_job_log s j line = s
    unfold append_job_log
    rw [h]

theorem applyOps_absent_noop (jid : String) (ops : List Op)
    (hops : ∀ op ∈ ops, Op.targetId op = jid ∧ ∀ j m, op ≠ Op.create j m) :
    ∀ (s : Store), dictGet s.jobs jid = Option.none →
    applyOps s ops = s ∧
    statusTrail jid s ops = List.replicate ops.length Option.none := by
  induction ops with
  | nil => intro s _; exact ⟨rfl, rfl⟩
  | cons op rest ih =>
    intro s h
    obtain ⟨ht, hnc⟩ := hops op (List.mem_cons_self op rest)
    have ha := applyOp_absent_noop s op jid ht hnc h
    obtain ⟨hh1, hh2⟩ := ih (fun o ho => hops o (List.mem_cons_of_mem _ ho)) s h
    constructor
    · show applyOps (applyOp s op) rest = s
      rw [ha]
      exact hh1
    · show statusOf jid (applyOp s op) :: statusTrail jid (applyOp s op) rest = _
      rw [ha, hh2]
      unfold statusOf
      rw [h]
      rfl

/-- A `run_mode` pass for a job id absent from the store is a complete
no-op on the store and observes nothing for that id. -/
theorem run_absent_noop (deps : RunDeps) (jid mode : String) (b : Args) (s : Store)
    (h : dictGet s.jobs jid = Option.none) :
    applyOps s (runModeTrace deps jid mode b).1 = s ∧
    statusTrail jid s (runModeTrace deps jid mode b).1 =
      List.replicate (runModeTrace deps jid mode b).1.length Option.none := by
  refine applyOps_absent_noop jid _ ?_ s h
  obtain ⟨mids, term, e, r, _, hmids, hops⟩ := runModeTrace_shape deps jid mode b
  rw [hops]
  intro op hop
  rcases List.mem_cons.mp hop with rfl | hop
  · exact ⟨rfl, fun j m hx => by cases hx⟩
  · rw [List.mem_append] at hop
    rcases hop with hmem | hmem
    · obtain ⟨line, rfl⟩ := hmids op hmem
      exact ⟨rfl, fun j m hx => by cases hx⟩
    · rcases List.mem_cons.mp hmem with rfl | hmem
      · exact ⟨rfl, fun j m hx => by cases hx⟩
      · cases hmem

theorem dedupFrom_cons_self {α : Type} [DecidableEq α] (a : α) (l : List α) :
    dedupFrom a (a :: l) = dedupFrom a l := by
  show (if a = a then dedupFrom a l else a :: dedupFrom a l) = _
  rw [if_pos rfl]

theorem sysEvent_other_targets (jid : String) (tr : List SysEvent) :
    tr.countP (isCreateFor jid) = 0 → tr.countP (isRunFor jid) = 0 →
    ∀ op ∈ sysOps tr, Op.targetId op ≠ jid := by
  induction tr with
  | nil => intro _ _ op hop; cases hop
  | cons e rest ih =>
    intro hc hr
    rw [List.countP_cons] at hc hr
    cases e with
    | createJob j m =>
      have hne : (j == jid) = false := by
        by_contra hx
        rw [Bool.not_eq_false] at hx
        simp [isCreateFor, hx] at hc
      have hc' : rest.countP (isCreateFor jid) = 0 := by omega
      have hr' : rest.countP (isRunFor jid) = 0 := by
        simp only [isRunFor, if_false] at hr
        omega
      intro op hop
      rcases List.mem_cons.mp hop with rfl | hop
      · show j ≠ jid
        simpa [beq_iff_eq] using hne
      · exact ih hc' hr' op hop
    | runJob d j m b =>
      have hne : (j == jid) = false := by
        by_contra hx
        rw [Bool.not_eq_false] at hx
        simp [isRunFor, hx] at hr
      have hc' : rest.countP (isCreateFor jid) = 0 := by
        simp only [isCreateFor, if_false] at hc
        omega
      have hr' : rest.countP (isRunFor jid) = 0 := by omega
      intro op hop
      rw [show sysOps (SysEvent.runJob d j m b :: rest) =
        (runModeTrace d j m b).1 ++ sysOps rest from rfl, List.mem_append] at hop
      rcases hop with hop | hop
      · rw [runModeTrace_targets d j m b op hop]
        simpa [beq_iff_eq] using hne
      · exact ih hc' hr' op hop

/-- While no event creates or runs a given job, its observation never
changes: the trail repeats the current status and the store entry is
untouched. -/
theorem trail_frozen (jid : String) (tr : List SysEvent) (s : Store)
    (hc : tr.countP (isCreateFor jid) = 0) (hr : tr.countP (isRunFor jid) = 0) :
    statusTrail jid s (sysOps tr) = List.replicate (sysOps tr).length (statusOf jid s) ∧
    statusOf jid (applyOps s (sysOps tr)) = statusOf jid s := by
  have h := sysEvent_other_targets jid tr hc hr
  refine ⟨statusTrail_other jid (sysOps tr) s h, ?_⟩
  unfold statusOf
  rw [applyOps_other (sysOps tr) s jid h]

/-- After a job is observed `pending` (created, not yet run), the remaining
observable transitions are nothing, or exactly `running` followed by one
terminal state. -/
theorem hist_after_pending (jid : String) (tr : List SysEvent) :
    ∀ (s : Store), statusOf jid s = some JobStatus.pending →
    tr.countP (isCreateFor jid) = 0 → tr.countP (isRunFor jid) ≤ 1 →
    dedupFrom JobStatus.pending ((statusTrail jid s (sysOps tr)).filterMap id) = [] ∨
    ∃ term, (term = JobStatus.done ∨ term = JobStatus.failed) ∧
      dedupFrom JobStatus.pending ((statusTrail jid s (sysOps tr)).filterMap id) =
        [JobStatus.running, term] := by
  induction tr with
  | nil => intro s _ _ _; exact Or.inl rfl
  | cons e rest ih =>
    intro s hs hc hr
    rw [List.countP_cons] at hc hr
    cases e with
    | createJob j m =>
      have hne : (j == jid) = false := by
        by_contra hx
        rw [Bool.not_eq_false] at hx
        simp [isCreateFor, hx] at hc
      have hc' : rest.countP (isCreateFor jid) = 0 := by omega
      have hr' : rest.countP (isRunFor jid) ≤ 1 := by
        simp only [isRunFor, if_false] at hr
        omega
      have hne' : j ≠ jid := by simpa [beq_iff_eq] using hne
      have hpres : statusOf jid (applyOp s (Op.create j m)) = statusOf jid s :=
        statusOf_applyOp_other s _ jid hne'
      have hrec := ih (applyOp s (Op.create j m)) (by rw [hpres]; exact hs) hc' hr'
      have heq : dedupFrom JobStatus.pending
          ((statusTrail jid s (sysOps (SysEvent.createJob j m :: rest))).filterMap id) =
          dedupFrom JobStatus.pending
          ((statusTrail jid (applyOp s (Op.create j m)) (sysOps rest)).filterMap id) := by
        show dedupFrom JobStatus.pending ((statusOf jid (applyOp s (Op.create j m)) ::
          statusTrail jid (applyOp s (Op.create j m)) (sysOps rest)).filterMap id) = _
        rw [hpres, hs, List.filterMap_cons]
        show dedupFrom JobStatus.pending (JobStatus.pending :: _) = _
        rw [dedupFrom_cons_self]
      rw [heq]
      exact hrec
    | runJob d j m b =>
      by_cases hj : j = jid
      · subst hj
        have hone : (if isRunFor j (SysEvent.runJob d j m b) = true then 1 else 0) = 1 := by
          simp [isRunFor]
        rw [hone] at hr
        have hr' : rest.countP (isRunFor j) = 0 := by omega
        have hc' : rest.countP (isCreateFor j) = 0 := by
          simp only [isCreateFor, if_false] at hc
          omega
        obtain ⟨jb, hjb, hjbst⟩ : ∃ jb, dictGet s.jobs j = some jb ∧
            jb.status = JobStatus.pending := by
          unfold statusOf at hs
          cases hg : dictGet s.jobs j with
          | none => rw [hg] at hs; cases hs
          | some jb =>
            rw [hg] at hs
            refine ⟨jb, rfl, ?_⟩
            injection hs
        obtain ⟨k, term, hterm, htrail, hfin⟩ := run_self_trail d j m b s jb hjb
        obtain ⟨htr2, _⟩ := trail_frozen j rest (applyOps s (runModeTrace d j m b).1) hc' hr'
        have hterm_ne : term ≠ JobStatus.running := by
          rcases hterm with rfl | rfl <;> decide
        have heq : dedupFrom JobStatus.pending
            ((statusTrail j s (sysOps (SysEvent.runJob d j m b :: rest))).filterMap id) =
            [JobStatus.running, term] := by
          show dedupFrom JobStatus.pending ((statusTrail j s ((runModeTrace d j m b).1 ++
            sysOps rest)).filterMap id) = _
          rw [statusTrail_append, List.filterMap_append, htrail, htr2, hfin,
            filterMap_id_replicate_some, List.cons_append,
            dedupFrom_cons_ne JobStatus.pending JobStatus.running (by decide),
            List.append_assoc, dedupFrom_replicate_self, List.singleton_append,
            dedupFrom_cons_ne JobStatus.running term hterm_ne,
            ← List.append_nil (List.replicate (sysOps rest).length term),
            dedupFrom_replicate_self]
          rfl
        rw [heq]
        exact Or.inr ⟨term, hterm, rfl⟩
      · have hne : (j == jid) = false := by simpa [beq_eq_false_iff_ne] using hj
        have hc' : rest.countP (isCreateFor jid) = 0 := by
          simp only [isCreateFor, if_false] at hc
          omega
        have hr' : rest.countP (isRunFor jid) ≤ 1 := by omega
        have htargets : ∀ op ∈ (runModeTrace d j m b).1, Op.targetId op ≠ jid := by
          intro op hop
          rw [runModeTrace_targets d j m b op hop]
          exact hj
        have htr := statusTrail_other jid (runModeTrace d j m b).1 s htargets
        have hpres : statusOf jid (applyOps s (runModeTrace d j m b).1) = statusOf jid s := by
          unfold statusOf
          rw [applyOps_other (runModeTrace d j m b).1 s jid htargets]
        have hrec := ih (applyOps s (runModeTrace d j m b).1) (by rw [hpres]; exact hs) hc' hr'
        have heq : dedupFrom JobStatus.pending
            ((statusTrail jid s (sysOps (SysEvent.runJob d j m b :: rest))).filterMap id) =
            dedupFrom JobStatus.pending
            ((statusTrail jid (applyOps s (runModeTrace d j m b).1) (sysOps rest)).filterMap
              id) := by
          show dedupFrom JobStatus.pending ((statusTrail jid s ((runModeTrace d j m b).1 ++
            sysOps rest)).filterMap id) = _
          rw [statusTrail_append, List.filterMap_append, htr, hs,
            filterMap_id_replicate_some, dedupFrom_replicate_self]
        rw [heq]
        exact hrec

/-- From a store where the job id is absent, under at most one creation and
at most one worker pass for that id, the deduplicated status observations
form a front segment of one of the two legal chains. -/
theorem hist_absent (jid : String) (tr : List SysEvent) :
    ∀ (s : Store), dictGet s.jobs jid = Option.none →
    tr.countP (isCreateFor jid) ≤ 1 → tr.countP (isRunFor jid) ≤ 1 →
    (∃ t, dedupAdj ((statusTrail jid s (sysOps tr)).filterMap id) ++ t =
      [JobStatus.pending, JobStatus.running, JobStatus.done]) ∨
    (∃ t, dedupAdj ((statusTrail jid s (sysOps tr)).filterMap id) ++ t =
      [JobStatus.pending, JobStatus.running, JobStatus.failed]) := by
  induction tr with
  | nil =>
    intro s _ _ _
    exact Or.inl ⟨[JobStatus.pending, JobStatus.running, JobStatus.done], rfl⟩
  | cons e rest ih =>
    intro s habs hc hr
    rw [List.countP_cons] at hc hr
    have hsnone : statusOf jid s = Option.none := by
      unfold statusOf
      rw [habs]
      rfl
    cases e with
    | createJob j m =>
      by_cases hj : j = jid
      · subst hj
        have hone : (if isCreateFor j (SysEvent.createJob j m) = true then 1 else 0) = 1 := by
          simp [isCreateFor]
        rw [hone] at hc
        have hc' : rest.countP (isCreateFor j) = 0 := by omega
        have hr' : rest.countP (isRunFor j) ≤ 1 := by
          simp only [isRunFor, if_false] at hr
          omega
        have hins : dictGet (applyOp s (Op.create j m)).jobs j =
            some ⟨j, m, JobStatus.pending, s.clock, s.clock, [], Option.none, Option.none⟩ := by
          show dictGet (insertNewJob s j m).jobs j = _
          unfold insertNewJob
          exact dictGet_dictSet_self s.jobs j _
        have hpend : statusOf j (applyOp s (Op.create j m)) = some JobStatus.pending := by
          unfold statusOf
          rw [hins]
          rfl
        have hrest := hist_after_pending j rest (applyOp s (Op.create j m)) hpend hc' hr'
        have heq : (statusTrail j s (sysOps (SysEvent.createJob j m :: rest))).filterMap id =
            JobStatus.pending ::
              (statusTrail j (applyOp s (Op.create j m)) (sysOps rest)).filterMap id := by
          show ((statusOf j (applyOp s (Op.create j m)) ::
            statusTrail j (applyOp s (Op.create j m)) (sysOps rest)).filterMap id) = _
          rw [hpend, List.filterMap_cons]
          rfl
        rw [heq]
        show (∃ t, JobStatus.pending :: dedupFrom JobStatus.pending _ ++ t = _) ∨
          (∃ t, JobStatus.pending :: dedupFrom JobStatus.pending _ ++ t = _)
        rcases hrest with hnil | ⟨term, hterm, hchain⟩
        · rw [hnil]
          exact Or.inl ⟨[JobStatus.running, JobStatus.done], rfl⟩
        · rw [hchain]
          rcases hterm with rfl | rfl
          · exact Or.inl ⟨[], rfl⟩
          · exact Or.inr ⟨[], rfl⟩
      · have hne : j ≠ jid := hj
        have hc' : rest.countP (isCreateFor jid) ≤ 1 := by omega
        have hr' : rest.countP (isRunFor jid) ≤ 1 := by
          simp only [isRunFor, if_false] at hr
          omega
        have habs' : dictGet (applyOp s (Op.create j m)).jobs jid = Option.none := by
          rw [applyOp_other s (Op.create j m) jid
            (show Op.targetId (Op.create j m) ≠ jid from hne)]
          exact habs
        have heq : (statusTrail jid s (sysOps (SysEvent.createJob j m :: rest))).filterMap id =
            (statusTrail jid (applyOp s (Op.create j m)) (sysOps rest)).filterMap id := by
          show ((statusOf jid (applyOp s (Op.create j m)) ::
            statusTrail jid (applyOp s (Op.create j m)) (sysOps rest)).filterMap id) = _
          rw [statusOf_applyOp_other s (Op.create j m) jid
            (show Op.targetId (Op.create j m) ≠ jid from hne), hsnone, List.filterMap_cons]
          rfl
        rw [heq]
        exact ih (applyOp s (Op.create j m)) habs' hc' hr'
    | runJob d j m b =>
      by_cases hj : j = jid
      · subst hj
        have hone : (if isRunFor j (SysEvent.runJob d j m b) = true then 1 else 0) = 1 := by
          simp [isRunFor]
        rw [hone] at hr
        have hr' : rest.countP (isRunFor j) = 0 := by omega
        have hc' : rest.countP (isCreateFor j) ≤ 1 := by
          simp only [isCreateFor, if_false] at hc
          omega
        obtain ⟨hnoop, htr⟩ := run_absent_noop d j m b s habs
        have heq : (statusTrail j s (sysOps (SysEvent.runJob d j m b :: rest))).filterMap id =
            (statusTrail j s (sysOps rest)).filterMap id := by
          show ((statusTrail j s ((runModeTrace d j m b).1 ++ sysOps rest)).filterMap id) = _
          rw [statusTrail_append, List.filterMap_append, htr, hnoop,
            filterMap_id_replicate_none]
          rfl
        rw [heq]
        exact ih s habs hc' (by omega)
      · have hne : j ≠ jid := hj
        have hc' : rest.countP (isCreateFor jid) ≤ 1 := by
          simp only [isCreateFor, if_false] at hc
          omega
        have hr' : rest.countP (isRunFor jid) ≤ 1 := by omega
        have htargets : ∀ op ∈ (runModeTrace d j m b).1, Op.targetId op ≠ jid := by
          intro op hop
          rw [runModeTrace_targets d j m b op hop]
          exact hne
        have habs' : dictGet (applyOps s (runModeTrace d j m b).1).jobs jid = Option.none := by
          rw [applyOps_other (runModeTrace d j m b).1 s jid htargets]
          exact habs
        have heq : (statusTrail jid s (sysOps (SysEvent.runJob d j m b :: rest))).filterMap id =
            (statusTrail jid (applyOps s (runModeTrace d j m b).1) (sysOps rest)).filterMap
              id := by
          show ((statusTrail jid s ((runModeTrace d j m b).1 ++ sysOps rest)).filterMap id) = _
          rw [statusTrail_append, List.filterMap_append,
            statusTrail_other jid (runModeTrace d j m b).1 s htargets, hsnone,
            filterMap_id_replicate_none]
          rfl
        rw [heq]
        exact ih (applyOps s (runModeTrace d j m b).1) habs' hc' hr'

/-- C2: in every reachable system state (jobs created by `create_job`,
mutated only by worker `run_mode` passes, each job id created at most once
and dequeued at most once), a job's observable status sequence follows
only `pending → running → done` or `pending → running → failed`: the
deduplicated sequence of observed statuses is a front segment of one of
the two chains, so no job re-enters `pending` or `running` after a
terminal state and no other transition sequence is observable. -/
theorem C2_status_lifecycle (jid : String) (tr : List SysEvent) (s0 : Store)
    (h0 : dictGet s0.jobs jid = Option.none)
    (hc : tr.countP (isCreateFor jid) ≤ 1)
    (hr : tr.countP (isRunFor jid) ≤ 1) :
    (∃ t, observedHistory jid s0 (sysOps tr) ++ t =
      [JobStatus.pending, JobStatus.running, JobStatus.done]) ∨
    (∃ t, observedHistory jid s0 (sysOps tr) ++ t =
      [JobStatus.pending, JobStatus.running, JobStatus.failed]) := by
  have heq : observedHistory jid s0 (sysOps tr) =
      dedupAdj ((statusTrail jid s0 (sysOps tr)).filterMap id) := by
    unfold observedHistory observedHistory.dedupAdjOpt
    have hs : statusOf jid s0 = Option.none := by
      unfold statusOf
      rw [h0]
      rfl
    rw [hs, List.filterMap_cons]
    rfl
  rw [heq]
  exact hist_absent jid tr s0 h0 hc hr

/-- C2 witness: one creation followed by one worker pass of the same job. -/
theorem C2_status_lifecycle_witness :
    (∃ t, observedHistory "a" emptyStore (sysOps
      [SysEvent.createJob "a" "google-takeout",
       SysEvent.runJob depsW "a" "google-takeout" []]) ++ t =
      [JobStatus.pending, JobStatus.running, JobStatus.done]) ∨
    (∃ t, observedHistory "a" emptyStore (sysOps
      [SysEvent.createJob "a" "google-takeout",
       SysEvent.runJob depsW "a" "google-takeout" []]) ++ t =
      [JobStatus.pending, JobStatus.running, JobStatus.failed]) :=
  C2_status_lifecycle "a"
    [SysEvent.createJob "a" "google-takeout",
     SysEvent.runJob depsW "a" "google-takeout" []]
    emptyStore (by rfl) (by decide) (by decide)

/-! ## C3: the build-parse round trip -/

/-- The value the build records for a submitted field: `(value or "").strip()`
of `build_ini_from_form`. -/
def wv (v : Str → Str → Str) (s k : Str) : Str := pyStrip (pyOr (v s k) (str ("")))

/-- The `(key, value)` pairs the build collects for section `s` from the
submitted keys `ks`. -/
def secPairs (v : Str → Str → Str) (s : Str) (ks : List Str) : List (Str × Str) :=
  ks.map (fun k => (k, wv v s k))

/-- The form-collection step of `build_ini_from_form` (its first loop body,
with the prefix inlined). -/
def buildF (acc : List (Str × List (Str × Str))) (p : Str × Str) :
    List (Str × List (Str × Str)) :=
  if !(pyStartsWith p.1 (str ("v") ++ FORM_SEP)) ||
      !(pyContainsSub (p.1.drop (str ("v") ++ FORM_SEP).length) FORM_SEP) then acc
  else
    match pySplitOnce (p.1.drop (str ("v") ++ FORM_SEP).length) FORM_SEP with
    | Option.none => acc
    | some (form_section, key) =>
      dictAppendPair acc (_form_to_section form_section) (key, pyStrip (pyOr p.2 (str (""))))

/-- The line-emission loop of `build_ini_from_form` (its second loop, over
the registry schema, from the collected `by_section` mapping). -/
def buildLines (bys : List (Str × List (Str × Str))) : List Str :=
  _default_sections_structure.foldl (fun ls sect =>
    let vals := ((bys.find? (fun p => p.1 == sect.name)).map (·.2)).getD []
    let ls := ls ++ [str ("[") ++ sect.name ++ str ("]")]
    let ls := sect.options.foldl (fun ls key_info =>
      ls ++ [key_info.key ++ str (" = ") ++ pairsGetLast vals key_info.key]) ls
    ls ++ [str ("")]) [str ("# Config.ini File"), str ("")]

/-- `build_ini_from_form` is the line loop over the collection loop. -/
theorem build_decomp (fd : List (Str × Str)) :
    build_ini_from_form fd =
      pyStrip (joinNl (buildLines (List.foldl buildF [] fd))) ++ str ("\n") := rfl

theorem dictAppendPair_new (acc : List (Str × List (Str × Str))) (n : Str) (kv : Str × Str)
    (h : acc.any (fun p => p.1 == n) = false) :
    dictAppendPair acc n kv = acc ++ [(n, [kv])] := by
  unfold dictAppendPair
  rw [h]
  rfl

theorem dictAppendPair_last (pre : List (Str × List (Str × Str))) (n : Str)
    (done : List (Str × Str)) (kv : Str × Str) (h : ∀ p ∈ pre, p.1 ≠ n) :
    dictAppendPair (pre ++ [(n, done)]) n kv = pre ++ [(n, done ++ [kv])] := by
  unfold dictAppendPair
  have hany : (pre ++ [(n, done)]).any (fun p => p.1 == n) = true := by
    rw [List.any_append]
    simp
  rw [hany]
  rw [if_pos rfl, List.map_append]
  have hpre : pre.map (fun p => if p.1 == n then (p.1, p.2 ++ [kv]) else p) = pre := by
    conv_rhs => rw [← List.map_id pre]
    apply List.map_congr_left
    intro p hp
    rw [if_neg (by simp [h p hp]), id_eq]
  rw [hpre]
  simp

theorem buildF_entry (v : Str → Str → Str) (acc : List (Str × List (Str × Str))) (s k : Str)
    (hsp : pySplitOnce (_section_to_form s ++ FORM_SEP ++ k) FORM_SEP =
      some (_section_to_form s, k))
    (hdec : _form_to_section (_section_to_form s) = s) :
    buildF acc (form_field_name (_section_to_form s) k, v s k) =
      dictAppendPair acc s (k, wv v s k) := by
  unfold buildF
  have hdrop : (form_field_name (_section_to_form s) k).drop (str ("v") ++ FORM_SEP).length =
      _section_to_form s ++ FORM_SEP ++ k := rfl
  have hstart : pyStartsWith (form_field_name (_section_to_form s) k)
      (str ("v") ++ FORM_SEP) = true := rfl
  show (if !(pyStartsWith (form_field_name (_section_to_form s) k) (str ("v") ++ FORM_SEP)) ||
      !(pyContainsSub ((form_field_name (_section_to_form s) k).drop
        (str ("v") ++ FORM_SEP).length) FORM_SEP) then acc
    else _) = _
  rw [hdrop, hstart]
  have hcont : pyContainsSub (_section_to_form s ++ FORM_SEP ++ k) FORM_SEP = true := by
    unfold pyContainsSub
    unfold pySplitOnce at hsp
    cases hf : findSub (_section_to_form s ++ FORM_SEP ++ k) FORM_SEP with
    | some i => rfl
    | none => rw [hf] at hsp; cases hsp
  rw [hcont]
  show (match pySplitOnce (_section_to_form s ++ FORM_SEP ++ k) FORM_SEP with
    | Option.none => acc
    | some (form_section, key) =>
      dictAppendPair acc (_form_to_section form_section)
        (key, pyStrip (pyOr (form_field_name (_section_to_form s) k, v s k).2 (str ("")))) : _) = _
  rw [hsp]
  dsimp only
  rw [hdec]
  rfl

/-- Keys of the Synology Photos registry section, in order. -/
def synKeys : List Str :=
  [str ("SYNOLOGY_URL"), str ("SYNOLOGY_USERNAME_1"), str ("SYNOLOGY_PASSWORD_1"),
   str ("SYNOLOGY_USERNAME_2"), str ("SYNOLOGY_PASSWORD_2"), str ("SYNOLOGY_USERNAME_3"),
   str ("SYNOLOGY_PASSWORD_3")]

/-- Keys of the Immich Photos registry section, in order. -/
def immKeys : List Str :=
  [str ("IMMICH_URL"), str ("IMMICH_API_KEY_ADMIN"), str ("IMMICH_API_KEY_USER_1"),
   str ("IMMICH_USERNAME_1"), str ("IMMICH_PASSWORD_1"), str ("IMMICH_API_KEY_USER_2"),
   str ("IMMICH_USERNAME_2"), str ("IMMICH_PASSWORD_2"), str ("IMMICH_API_KEY_USER_3"),
   str ("IMMICH_USERNAME_3"), str ("IMMICH_PASSWORD_3")]

/-- Keys of the Apple Photos registry section, in order. -/
def appleKeys : List Str :=
  [str ("appleid"), str ("applepwd"), str ("album"), str ("to_directory"), str ("date_from"),
   str ("date_to"), str ("asset_from"), str ("asset_to"), str ("max_photos"),
   str ("shared_library")]

/-- The `by_section` mapping the build collects from a canonical payload. -/
def bySect (v : Str → Str → Str) : List (Str × List (Str × Str)) :=
  [(str ("Synology Photos"), secPairs v (str ("Synology Photos")) synKeys),
   (str ("Immich Photos"), secPairs v (str ("Immich Photos")) immKeys),
   (str ("Apple Photos"), secPairs v (str ("Apple Photos")) appleKeys),
   (str ("TimeZone"), secPairs v (str ("TimeZone")) [str ("timezone")])]

theorem bySection_run (v : Str → Str → Str) (s : Str)
    (hdec : _form_to_section (_section_to_form s) = s) (ks : List Str) :
    (∀ k ∈ ks, pySplitOnce (_section_to_form s ++ FORM_SEP ++ k) FORM_SEP =
      some (_section_to_form s, k)) →
    ∀ (pre : List (Str × List (Str × Str))) (done : List (Str × Str)),
    (∀ p ∈ pre, p.1 ≠ s) →
    List.foldl buildF (pre ++ [(s, done)])
        (ks.map (fun k => (form_field_name (_section_to_form s) k, v s k))) =
      pre ++ [(s, done ++ secPairs v s ks)] := by
  induction ks with
  | nil =>
    intro _ pre done _
    show pre ++ [(s, done)] = pre ++ [(s, done ++ [])]
    rw [List.append_nil]
  | cons k ks ih =>
    intro hsp pre done hpre
    rw [List.map_cons, List.foldl_cons,
      buildF_entry v (pre ++ [(s, done)]) s k (hsp k (List.mem_cons_self k ks)) hdec,
      dictAppendPair_last pre s done (k, wv v s k) hpre,
      ih (fun k2 hk2 => hsp k2 (List.mem_cons_of_mem k hk2)) pre (done ++ [(k, wv v s k)]) hpre]
    rw [List.append_assoc]
    rfl

theorem bySection_sec (v : Str → Str → Str) (s : Str)
    (hdec : _form_to_section (_section_to_form s) = s) (k0 : Str) (ks : List Str)
    (hsp : ∀ k ∈ k0 :: ks, pySplitOnce (_section_to_form s ++ FORM_SEP ++ k) FORM_SEP =
      some (_section_to_form s, k))
    (pre : List (Str × List (Str × Str))) (hpre : ∀ p ∈ pre, p.1 ≠ s) :
    List.foldl buildF pre
        ((k0 :: ks).map (fun k => (form_field_name (_section_to_form s) k, v s k))) =
      pre ++ [(s, secPairs v s (k0 :: ks))] := by
  rw [List.map_cons, List.foldl_cons,
    buildF_entry v pre s k0 (hsp k0 (List.mem_cons_self k0 ks)) hdec,
    dictAppendPair_new pre s (k0, wv v s k0)
      (List.any_eq_false.mpr (fun p hp => by simp [hpre p hp])),
    bySection_run v s hdec ks (fun k2 hk2 => hsp k2 (List.mem_cons_of_mem k0 hk2))
      pre [(k0, wv v s k0)] hpre]
  rfl

theorem bySection_full (v : Str → Str → Str) (s : Str)
    (hdec : _form_to_section (_section_to_form s) = s) (ks : List Str) (hne : ks ≠ [])
    (hsp : ∀ k ∈ ks, pySplitOnce (_section_to_form s ++ FORM_SEP ++ k) FORM_SEP =
      some (_section_to_form s, k))
    (pre : List (Str × List (Str × Str))) (hpre : ∀ p ∈ pre, p.1 ≠ s) :
    List.foldl buildF pre
        (ks.map (fun k => (form_field_name (_section_to_form s) k, v s k))) =
      pre ++ [(s, secPairs v s ks)] := by
  cases ks with
  | nil => exact absurd rfl hne
  | cons k0 ks => exact bySection_sec v s hdec k0 ks hsp pre hpre

theorem canonicalForm_decomp (v : Str → Str → Str) :
    canonicalForm v =
      synKeys.map (fun k =>
          (form_field_name (_section_to_form (str ("Synology Photos"))) k,
           v (str ("Synology Photos")) k)) ++
        (immKeys.map (fun k =>
          (form_field_name (_section_to_form (str ("Immich Photos"))) k,
           v (str ("Immich Photos")) k)) ++
        (appleKeys.map (fun k =>
          (form_field_name (_section_to_form (str ("Apple Photos"))) k,
           v (str ("Apple Photos")) k)) ++
        [str ("timezone")].map (fun k =>
          (form_field_name (_section_to_form (str ("TimeZone"))) k,
           v (str ("TimeZone")) k)))) := rfl

theorem bySection_eval (v : Str → Str → Str) :
    List.foldl buildF [] (canonicalForm v) = bySect v := by
  rw [canonicalForm_decomp, List.foldl_append, List.foldl_append, List.foldl_append]
  rw [bySection_full v (str ("Synology Photos")) (by decide) synKeys (by decide) (by decide)
    [] (by intro p hp; cases hp), List.nil_append]
  rw [bySection_full v (str ("Immich Photos")) (by decide) immKeys (by decide) (by decide)
    [(str ("Synology Photos"), secPairs v (str ("Synology Photos")) synKeys)]
    (by intro p hp; rw [List.mem_singleton] at hp; subst hp
        show str ("Synology Photos") ≠ str ("Immich Photos"); decide)]
  rw [bySection_full v (str ("Apple Photos")) (by decide) appleKeys (by decide) (by decide)
    ([(str ("Synology Photos"), secPairs v (str ("Synology Photos")) synKeys)] ++
      [(str ("Immich Photos"), secPairs v (str ("Immich Photos")) immKeys)])
    (by intro p hp; simp only [List.mem_append, List.mem_singleton] at hp
        rcases hp with rfl | rfl
        · show str ("Synology Photos") ≠ str ("Apple Photos")
          decide
        · show str ("Immich Photos") ≠ str ("Apple Photos")
          decide)]
  rw [bySection_full v (str ("TimeZone")) (by decide) [str ("timezone")] (by decide) (by decide)
    (([(str ("Synology Photos"), secPairs v (str ("Synology Photos")) synKeys)] ++
      [(str ("Immich Photos"), secPairs v (str ("Immich Photos")) immKeys)]) ++
      [(str ("Apple Photos"), secPairs v (str ("Apple Photos")) appleKeys)])
    (by intro p hp; simp only [List.mem_append, List.mem_singleton] at hp
        rcases hp with (rfl | rfl) | rfl
        · show str ("Synology Photos") ≠ str ("TimeZone")
          decide
        · show str ("Immich Photos") ≠ str ("TimeZone")
          decide
        · show str ("Apple Photos") ≠ str ("TimeZone")
          decide)]
  rfl

/-- `(name, pairs)` data of the registry sections carrying the submitted
values, in registry order. -/
def secsPairs (v : Str → Str → Str) : List (Str × List (Str × Str)) :=
  _default_sections_structure.map (fun sect =>
    (sect.name, sect.options.map (fun o => (o.key, wv v sect.name o.key))))

/-- The first five registry sections with the submitted values. -/
def secsInit (v : Str → Str → Str) : List (Str × List (Str × Str)) :=
  (_default_sections_structure.take 5).map (fun sect =>
    (sect.name, sect.options.map (fun o => (o.key, wv v sect.name o.key))))

/-- INI document lines of a `(name, pairs)` section list: a bracketed
header, `key = value` lines, and a trailing blank per section. -/
def docOf (secs : List (Str × List (Str × Str))) : List Str :=
  secs.foldr (fun sc acc =>
    (str ("[") ++ sc.1 ++ str ("]")) ::
      (sc.2.map (fun q => q.1 ++ str (" = ") ++ q.2) ++ (str ("") :: acc))) []

/-- The submitted TimeZone value after the build's per-field strip. -/
def wtz (v : Str → Str → Str) : Str := wv v (str ("TimeZone")) (str ("timezone"))

/-- Every line the build emits before the final `timezone` key line. -/
def preLines (v : Str → Str → Str) : List Str :=
  str ("# Config.ini File") :: str ("") :: (docOf (secsInit v) ++ [str ("[TimeZone]")])

/-- The raw final key line of the built document. -/
def tzRawLine (v : Str → Str → Str) : Str := str ("timezone = ") ++ wtz v

/-- The `vals` lookup of the build's line loop. -/
def valsOf (bys : List (Str × List (Str × Str))) (n : Str) : List (Str × Str) :=
  ((bys.find? (fun p => p.1 == n)).map (·.2)).getD []

theorem foldl_emit {a b : Type} (g : b → List a) : ∀ (l : List b) (acc : List a),
    List.foldl (fun ls x => ls ++ g x) acc l = acc ++ l.foldr (fun x r => g x ++ r) [] := by
  intro l
  induction l with
  | nil => intro acc; rw [List.foldl_nil, List.foldr_nil, List.append_nil]
  | cons x l ih =>
    intro acc
    rw [List.foldl_cons, List.foldr_cons, ih, List.append_assoc]

theorem buildLines_decomp (bys : List (Str × List (Str × Str))) :
    buildLines bys =
      [str ("# Config.ini File"), str ("")] ++
        _default_sections_structure.foldr (fun sect r =>
          (str ("[") ++ sect.name ++ str ("]")) ::
            (sect.options.map (fun ki =>
              ki.key ++ str (" = ") ++ pairsGetLast (valsOf bys sect.name) ki.key) ++
              (str ("") :: r))) [] := by
  unfold buildLines
  have hbody : (fun (ls : List Str) (sect : SectionRec) =>
      let vals := ((bys.find? (fun p => p.1 == sect.name)).map (·.2)).getD []
      let ls := ls ++ [str ("[") ++ sect.name ++ str ("]")]
      let ls := sect.options.foldl (fun ls key_info =>
        ls ++ [key_info.key ++ str (" = ") ++ pairsGetLast vals key_info.key]) ls
      ls ++ [str ("")]) =
      (fun (ls : List Str) (sect : SectionRec) => ls ++
        ((str ("[") ++ sect.name ++ str ("]")) ::
          (sect.options.map (fun ki =>
            ki.key ++ str (" = ") ++ pairsGetLast (valsOf bys sect.name) ki.key) ++
            [str ("")]))) := by
    funext ls sect
    dsimp only
    show List.foldl (fun ls key_info =>
        ls ++ [key_info.key ++ str (" = ") ++ pairsGetLast (valsOf bys sect.name) key_info.key])
        (ls ++ [str ("[") ++ sect.name ++ str ("]")]) sect.options ++ [str ("")] = _
    rw [foldl_emit (fun ki =>
      [ki.key ++ str (" = ") ++ pairsGetLast (valsOf bys sect.name) ki.key]) sect.options]
    have hm : sect.options.foldr (fun ki r =>
        [ki.key ++ str (" = ") ++ pairsGetLast (valsOf bys sect.name) ki.key] ++ r) [] =
        sect.options.map (fun ki =>
          ki.key ++ str (" = ") ++ pairsGetLast (valsOf bys sect.name) ki.key) := by
      induction sect.options with
      | nil => rfl
      | cons o os ih => rw [List.foldr_cons, List.map_cons, ih]; rfl
    rw [hm, List.append_assoc, List.append_assoc]
    rfl
  rw [hbody, foldl_emit]
  have hfun : (fun (sect : SectionRec) (r : List Str) =>
      ((str ("[") ++ sect.name ++ str ("]")) ::
        (sect.options.map (fun ki =>
          ki.key ++ str (" = ") ++ pairsGetLast (valsOf bys sect.name) ki.key) ++
          [str ("")])) ++ r) =
      (fun (sect : SectionRec) (r : List Str) =>
        (str ("[") ++ sect.name ++ str ("]")) ::
          (sect.options.map (fun ki =>
            ki.key ++ str (" = ") ++ pairsGetLast (valsOf bys sect.name) ki.key) ++
            (str ("") :: r))) := by
    funext sect r
    rw [List.cons_append, List.append_assoc, List.append_assoc]
    rfl
  rw [hfun]

theorem find_secPairs (v : Str → Str → Str) (s k : Str) : ∀ (ks : List Str), k ∈ ks →
    (secPairs v s ks).reverse.find? (fun q => q.1 == k) = some (k, wv v s k) := by
  intro ks
  induction ks with
  | nil => intro hk; cases hk
  | cons k0 ks ih =>
    intro hk
    show ((k0, wv v s k0) :: secPairs v s ks).reverse.find? (fun q => q.1 == k) = _
    rw [List.reverse_cons, List.find?_append]
    cases hf : (secPairs v s ks).reverse.find? (fun q => q.1 == k) with
    | some q =>
      have hpred := List.find?_some hf
      have hmem := List.mem_of_find?_eq_some hf
      rw [List.mem_reverse] at hmem
      obtain ⟨k2, hk2, rfl⟩ := List.mem_map.mp hmem
      rw [beq_iff_eq] at hpred
      show some (k2, wv v s k2) = some (k, wv v s k)
      rw [show k2 = k from hpred]
    | none =>
      show List.find? (fun q => q.1 == k) [(k0, wv v s k0)] = _
      rw [List.find?_singleton]
      have hknots : k ∉ ks := by
        intro hmem
        have := List.find?_eq_none.mp hf (k, wv v s k)
          (List.mem_reverse.mpr (List.mem_map_of_mem (fun k2 => (k2, wv v s k2)) hmem))
        simp at this
      have hk0 : k = k0 := by
        rcases List.mem_cons.mp hk with rfl | hmem
        · rfl
        · exact absurd hmem hknots
      subst hk0
      rw [if_pos (by simp)]

theorem pairsGetLast_secPairs (v : Str → Str → Str) (s : Str) (ks : List Str) (k : Str)
    (hk : k ∈ ks) : pairsGetLast (secPairs v s ks) k = wv v s k := by
  unfold pairsGetLast
  rw [find_secPairs v s k ks hk]
  rfl

theorem mapLine_secPairs (v : Str → Str → Str) (s : Str) (opts : List OptRec) (ks : List Str)
    (hks : ∀ o ∈ opts, o.key ∈ ks) :
    opts.map (fun ki => ki.key ++ str (" = ") ++ pairsGetLast (secPairs v s ks) ki.key) =
      opts.map (fun ki => ki.key ++ str (" = ") ++ wv v s ki.key) := by
  apply List.map_congr_left
  intro o ho
  rw [pairsGetLast_secPairs v s ks o.key (hks o ho)]

/-- The six registry schema sections, by position. -/
def sGT : SectionRec := _default_sections_structure.get ⟨0, by decide⟩

def sSyn : SectionRec := _default_sections_structure.get ⟨1, by decide⟩

def sImm : SectionRec := _default_sections_structure.get ⟨2, by decide⟩

def sApple : SectionRec := _default_sections_structure.get ⟨3, by decide⟩

def sGP : SectionRec := _default_sections_structure.get ⟨4, by decide⟩

def sTZ : SectionRec := _default_sections_structure.get ⟨5, by decide⟩

theorem schema_cons : _default_sections_structure = [sGT, sSyn, sImm, sApple, sGP, sTZ] := rfl

theorem lines_eval (v : Str → Str → Str) :
    buildLines (bySect v) = preLines v ++ [tzRawLine v, str ("")] := by
  rw [buildLines_decomp, schema_cons]
  simp only [List.foldr_cons, List.foldr_nil]
  have h1 : valsOf (bySect v) sGT.name = [] := rfl
  have h2 : valsOf (bySect v) sSyn.name = secPairs v sSyn.name synKeys := rfl
  have h3 : valsOf (bySect v) sImm.name = secPairs v sImm.name immKeys := rfl
  have h4 : valsOf (bySect v) sApple.name = secPairs v sApple.name appleKeys := rfl
  have h5 : valsOf (bySect v) sGP.name = [] := rfl
  have h6 : valsOf (bySect v) sTZ.name = secPairs v sTZ.name [str ("timezone")] := rfl
  rw [h1, h2, h3, h4, h5, h6]
  rw [mapLine_secPairs v sSyn.name sSyn.options synKeys (by decide),
    mapLine_secPairs v sImm.name sImm.options immKeys (by decide),
    mapLine_secPairs v sApple.name sApple.options appleKeys (by decide),
    mapLine_secPairs v sTZ.name sTZ.options [str ("timezone")] (by decide)]
  rfl

/-- The built file text is the canonical document: a comment header, a blank,
every registry section with the stripped submitted values, globally stripped
with a final newline. -/
theorem build_eval (v : Str → Str → Str) :
    build_ini_from_form (canonicalForm v) =
      pyStrip (joinNl (preLines v ++ [tzRawLine v, str ("")])) ++ str ("\n") := by
  rw [build_decomp, bySection_eval, lines_eval]

/-! ## Whitespace-stripping facts -/

theorem dropWhile_idem (p : Char → Bool) : ∀ (l : Str),
    (l.dropWhile p).dropWhile p = l.dropWhile p := by
  intro l
  induction l with
  | nil => rfl
  | cons c l ih =>
    cases hc : p c with
    | true => rw [List.dropWhile_cons, if_pos hc]; exact ih
    | false => rw [List.dropWhile_cons, if_neg (by simp [hc]), List.dropWhile_cons,
        if_neg (by simp [hc])]

theorem pyDropLead_cons_not_ws (c : Char) (l : Str) (h : isPyWs c = false) :
    pyDropLead (c :: l) = c :: l := by
  unfold pyDropLead
  rw [List.dropWhile_cons, if_neg (by simp [h])]

theorem pyDropTrail_append_not_ws (l : Str) (c : Char) (h : isPyWs c = false) :
    pyDropTrail (l ++ [c]) = l ++ [c] := by
  unfold pyDropTrail
  rw [List.reverse_append, List.reverse_singleton, List.singleton_append, List.dropWhile_cons,
    if_neg (by simp [h]), List.reverse_cons, List.reverse_reverse]

theorem pyDropTrail_append_ws (l : Str) (c : Char) (h : isPyWs c = true) :
    pyDropTrail (l ++ [c]) = pyDropTrail l := by
  unfold pyDropTrail
  rw [List.reverse_append, List.reverse_singleton, List.singleton_append, List.dropWhile_cons,
    if_pos h]

theorem pyDropTrail_append_of_ne (a b : Str) (h : pyDropTrail b ≠ []) :
    pyDropTrail (a ++ b) = a ++ pyDropTrail b := by
  unfold pyDropTrail at h ⊢
  have hne : b.reverse.dropWhile isPyWs ≠ [] := by
    intro he
    rw [he] at h
    exact h rfl
  rw [List.reverse_append, List.dropWhile_append, if_neg (by simp [hne]), List.reverse_append,
    List.reverse_reverse]

theorem pyDropTrail_idem (l : Str) : pyDropTrail (pyDropTrail l) = pyDropTrail l := by
  unfold pyDropTrail
  rw [List.reverse_reverse, dropWhile_idem]

theorem dropWhile_head_not (p : Char → Bool) : ∀ (l : Str) (c : Char) (t : Str),
    l.dropWhile p = c :: t → p c = false := by
  intro l
  induction l with
  | nil => intro c t h; cases h
  | cons a l ih =>
    intro c t h
    rw [List.dropWhile_cons] at h
    by_cases ha : p a = true
    · rw [if_pos ha] at h
      exact ih c t h
    · rw [if_neg ha] at h
      injection h with h1 _
      subst h1
      exact Bool.not_eq_true _ |>.mp ha

theorem pyDropLead_pyDropTrail_of_head (l : Str) (h : pyDropLead l = l) :
    pyDropLead (pyDropTrail l) = pyDropTrail l := by
  cases hl : l with
  | nil => rfl
  | cons c t =>
    subst hl
    have hc : isPyWs c = false := by
      by_cases hcw : isPyWs c = true
      · unfold pyDropLead at h
        rw [List.dropWhile_cons, if_pos hcw] at h
        have hlen := List.Sublist.length_le (List.dropWhile_sublist (p := isPyWs) (l := t))
        rw [h] at hlen
        simp at hlen
      · exact Bool.not_eq_true _ |>.mp hcw
    unfold pyDropTrail
    rw [List.reverse_cons, List.dropWhile_append]
    by_cases he : (t.reverse.dropWhile isPyWs).isEmpty = true
    · rw [if_pos he]
      show pyDropLead (List.dropWhile isPyWs [c]).reverse = _
      rw [List.dropWhile_cons, if_neg (by simp [hc]), List.reverse_singleton,
        pyDropLead_cons_not_ws c [] hc]
    · rw [if_neg he, List.reverse_append, List.reverse_singleton]
      cases hd : (t.reverse.dropWhile isPyWs).reverse with
      | nil =>
        show pyDropLead (c :: []) = c :: []
        exact pyDropLead_cons_not_ws c [] hc
      | cons d r =>
        show pyDropLead (c :: (d :: r)) = c :: (d :: r)
        exact pyDropLead_cons_not_ws c (d :: r) hc

theorem pyDropTrail_pyStrip (l : Str) : pyDropTrail (pyStrip l) = pyStrip l :=
  pyDropTrail_idem (pyDropLead l)

theorem pyDropLead_pyStrip (l : Str) : pyDropLead (pyStrip l) = pyStrip l :=
  pyDropLead_pyDropTrail_of_head (pyDropLead l) (dropWhile_idem isPyWs l)

theorem pyStrip_idem (l : Str) : pyStrip (pyStrip l) = pyStrip l := by
  show pyDropTrail (pyDropLead (pyStrip l)) = pyStrip l
  rw [pyDropLead_pyStrip, pyDropTrail_pyStrip]

theorem not_mem_pyDropLead (c : Char) (l : Str) (h : c ∉ l) : c ∉ pyDropLead l :=
  fun hc => h (List.Sublist.mem hc (List.dropWhile_sublist (p := isPyWs)))

theorem not_mem_pyDropTrail (c : Char) (l : Str) (h : c ∉ l) : c ∉ pyDropTrail l := by
  intro hc
  unfold pyDropTrail at hc
  rw [List.mem_reverse] at hc
  have hm := List.Sublist.mem hc (List.dropWhile_sublist (p := isPyWs))
  rw [List.mem_reverse] at hm
  exact h hm

theorem not_mem_pyStrip (c : Char) (l : Str) (h : c ∉ l) : c ∉ pyStrip l :=
  not_mem_pyDropTrail c (pyDropLead l) (not_mem_pyDropLead c l h)

theorem pyStrip_pyOr_empty (x : Str) : pyStrip (pyOr x (str (""))) = pyStrip x := by
  unfold pyOr
  by_cases hx : x = []
  · rw [if_pos hx, hx]
    rfl
  · rw [if_neg hx]

theorem not_mem_wv (c : Char) (v : Str → Str → Str) (s k : Str) (h : c ∉ v s k) :
    c ∉ wv v s k := by
  unfold wv pyOr
  by_cases hx : v s k = []
  · rw [if_pos hx]
    intro hc
    cases not_mem_pyStrip c (str ("")) (by intro hn; cases hn) hc
  · rw [if_neg hx]
    exact not_mem_pyStrip c (v s k) h

/-! ## Line joining and splitting -/

theorem joinNl_cons_cons (x y : Str) (rest : List Str) :
    joinNl (x :: y :: rest) = x ++ '\n' :: joinNl (y :: rest) := rfl

theorem joinNl_append_single (a : Str) : ∀ (xs : List Str), xs ≠ [] →
    joinNl (xs ++ [a]) = joinNl xs ++ '\n' :: a := by
  intro xs
  induction xs with
  | nil => intro h; exact absurd rfl h
  | cons x xs ih =>
    intro _
    cases hxs : xs with
    | nil => rfl
    | cons y ys =>
      subst hxs
      rw [List.cons_append, List.cons_append, joinNl_cons_cons x y (ys ++ [a])]
      have ih2 := ih (by intro h; cases h)
      rw [List.cons_append] at ih2
      rw [ih2, joinNl_cons_cons x y ys, List.append_assoc]
      rfl

theorem pySplitLines_cons_other (c : Char) (h1 : c ≠ '\r') (h2 : c ≠ '\n') (rest : Str) :
    pySplitLines (c :: rest) =
      (match pySplitLines rest with
       | [] => [[c]]
       | l :: ls => (c :: l) :: ls) := by
  rw [pySplitLines.eq_def]
  split
  · next heq => cases heq
  · next r heq =>
    injection heq with hh _
    exact absurd hh h1
  · next r heq =>
    injection heq with hh _
    exact absurd hh h1
  · next r heq =>
    injection heq with hh _
    exact absurd hh h2
  · next c2 r h3 h4 h5 heq =>
    injection heq with hh ht
    subst hh
    subst ht
    rfl

theorem pySplitLines_line (rest : Str) : ∀ (l : Str), '\n' ∉ l → '\r' ∉ l →
    pySplitLines (l ++ '\n' :: rest) = l :: pySplitLines rest := by
  intro l
  induction l with
  | nil =>
    intro _ _
    rfl
  | cons c l ih =>
    intro hn hr
    rw [List.cons_append,
      pySplitLines_cons_other c (fun he => hr (he ▸ List.mem_cons_self c l))
        (fun he => hn (he ▸ List.mem_cons_self c l)) (l ++ '\n' :: rest),
      ih (fun hm => hn (List.mem_cons_of_mem c hm)) (fun hm => hr (List.mem_cons_of_mem c hm))]

theorem pySplitLines_joinNl : ∀ (ls : List Str), (∀ l ∈ ls, '\n' ∉ l ∧ '\r' ∉ l) → ls ≠ [] →
    pySplitLines (joinNl ls ++ ['\n']) = ls ++ [[]] := by
  intro ls
  induction ls with
  | nil => intro _ h; exact absurd rfl h
  | cons x xs ih =>
    intro hcl _
    cases hxs : xs with
    | nil =>
      subst hxs
      have hx := hcl x (List.mem_cons_self x [])
      show pySplitLines (x ++ '\n' :: []) = [x, []]
      rw [pySplitLines_line [] x hx.1 hx.2]
      rfl
    | cons y ys =>
      subst hxs
      have hx := hcl x (List.mem_cons_self x (y :: ys))
      rw [joinNl_cons_cons, List.append_assoc, List.cons_append,
        pySplitLines_line (joinNl (y :: ys) ++ ['\n']) x hx.1 hx.2,
        ih (fun l hl => hcl l (List.mem_cons_of_mem x hl)) (by intro h; cases h)]
      rfl

/-- The final key line of the built text after the global strip: when the
submitted TimeZone value strips to nothing, the trailing space of
`timezone = ` is eaten too. -/
def tzStr (v : Str → Str → Str) : Str :=
  if wtz v = [] then str ("timezone =") else tzRawLine v

theorem preLines_ne_nil (v : Str → Str → Str) : preLines v ≠ [] := by
  unfold preLines
  exact List.cons_ne_nil _ _

theorem content_eval (v : Str → Str → Str) :
    build_ini_from_form (canonicalForm v) = joinNl (preLines v ++ [tzStr v]) ++ str ("\n") := by
  rw [build_eval]
  have hsplit2 : preLines v ++ [tzRawLine v, str ("")] =
      (preLines v ++ [tzRawLine v]) ++ [str ("")] := by
    rw [List.append_assoc]
    rfl
  rw [hsplit2, joinNl_append_single (str ("")) (preLines v ++ [tzRawLine v]) (by simp),
    joinNl_append_single (tzRawLine v) (preLines v) (preLines_ne_nil v)]
  have hlead : pyDropLead ((joinNl (preLines v) ++ '\n' :: tzRawLine v) ++ '\n' :: str ("")) =
      (joinNl (preLines v) ++ '\n' :: tzRawLine v) ++ '\n' :: str ("") := by
    show pyDropLead ('#' :: _) = _
    exact pyDropLead_cons_not_ws '#' _ (by decide)
  have htrail : pyStrip ((joinNl (preLines v) ++ '\n' :: tzRawLine v) ++ '\n' :: str ("")) =
      pyDropTrail (joinNl (preLines v) ++ '\n' :: tzRawLine v) := by
    show pyDropTrail (pyDropLead _) = _
    rw [hlead]
    show pyDropTrail ((joinNl (preLines v) ++ '\n' :: tzRawLine v) ++ ['\n']) = _
    exact pyDropTrail_append_ws _ '\n' (by decide)
  rw [htrail]
  by_cases hz : wtz v = []
  · have htzr : tzRawLine v = str ("timezone = ") := by
      unfold tzRawLine
      rw [hz, List.append_nil]
    have hb : pyDropTrail ('\n' :: str ("timezone = ")) = '\n' :: str ("timezone =") := rfl
    rw [htzr, pyDropTrail_append_of_ne (joinNl (preLines v)) ('\n' :: str ("timezone = "))
      (by rw [hb]; intro h; cases h), hb]
    have htz2 : tzStr v = str ("timezone =") := by
      unfold tzStr
      rw [if_pos hz]
    rw [joinNl_append_single (tzStr v) (preLines v) (preLines_ne_nil v), htz2]
  · have hwt : pyDropTrail (wtz v) = wtz v := pyDropTrail_pyStrip _
    have hregroup : joinNl (preLines v) ++ '\n' :: tzRawLine v =
        (joinNl (preLines v) ++ ('\n' :: str ("timezone = "))) ++ wtz v := by
      unfold tzRawLine
      rw [List.append_assoc]
      rfl
    rw [hregroup, pyDropTrail_append_of_ne _ (wtz v) (by rw [hwt]; exact hz), hwt, ← hregroup]
    have htz2 : tzStr v = tzRawLine v := by
      unfold tzStr
      rw [if_neg hz]
    rw [joinNl_append_single (tzStr v) (preLines v) (preLines_ne_nil v), htz2]

theorem not_mem_append2 {c : Char} {a b : Str} (ha : c ∉ a) (hb : c ∉ b) : c ∉ a ++ b := by
  intro hc
  rcases List.mem_append.mp hc with h | h
  · exact ha h
  · exact hb h

theorem mem_docOf : ∀ (secs : List (Str × List (Str × Str))) (l : Str), l ∈ docOf secs →
    (∃ sc ∈ secs, l = str ("[") ++ sc.1 ++ str ("]")) ∨
    (∃ sc ∈ secs, ∃ q ∈ sc.2, l = q.1 ++ str (" = ") ++ q.2) ∨ l = str ("") := by
  intro secs
  induction secs with
  | nil => intro l hl; cases hl
  | cons sc secs ih =>
    intro l hl
    rw [show docOf (sc :: secs) = (str ("[") ++ sc.1 ++ str ("]")) ::
        (sc.2.map (fun q => q.1 ++ str (" = ") ++ q.2) ++ (str ("") :: docOf secs)) from rfl] at hl
    rcases List.mem_cons.mp hl with rfl | hl2
    · exact Or.inl ⟨sc, List.mem_cons_self sc secs, rfl⟩
    rcases List.mem_append.mp hl2 with hmap | hrest
    · obtain ⟨q, hq, rfl⟩ := List.mem_map.mp hmap
      exact Or.inr (Or.inl ⟨sc, List.mem_cons_self sc secs, q, hq, rfl⟩)
    rcases List.mem_cons.mp hrest with rfl | htail
    · exact Or.inr (Or.inr rfl)
    rcases ih l htail with ⟨sc2, hsc2, he⟩ | ⟨sc2, hsc2, q, hq, he⟩ | he
    · exact Or.inl ⟨sc2, List.mem_cons_of_mem sc hsc2, he⟩
    · exact Or.inr (Or.inl ⟨sc2, List.mem_cons_of_mem sc hsc2, q, hq, he⟩)
    · exact Or.inr (Or.inr he)

theorem clean_parseLines (v : Str → Str → Str)
    (hv : ∀ p ∈ registryPairs, '\n' ∉ v p.1 p.2 ∧ '\r' ∉ v p.1 p.2) :
    ∀ l ∈ preLines v ++ [tzStr v], '\n' ∉ l ∧ '\r' ∉ l := by
  have hreg : ∀ sect ∈ _default_sections_structure, ∀ o ∈ sect.options,
      (sect.name, o.key) ∈ registryPairs := by decide
  have hnames : ∀ sect ∈ _default_sections_structure,
      '\n' ∉ sect.name ∧ '\r' ∉ sect.name := by decide
  have hkeys : ∀ sect ∈ _default_sections_structure, ∀ o ∈ sect.options,
      '\n' ∉ o.key ∧ '\r' ∉ o.key := by decide
  intro l hl
  rcases List.mem_append.mp hl with hpre | htz
  · unfold preLines at hpre
    rcases List.mem_cons.mp hpre with rfl | hpre2
    · exact ⟨by decide, by decide⟩
    rcases List.mem_cons.mp hpre2 with rfl | hpre3
    · exact ⟨by decide, by decide⟩
    rcases List.mem_append.mp hpre3 with hdoc | hbr
    · rcases mem_docOf (secsInit v) l hdoc with ⟨sc, hsc, rfl⟩ | ⟨sc, hsc, q, hq, rfl⟩ | rfl
      · obtain ⟨sect, hsect5, rfl⟩ := List.mem_map.mp hsc
        have hsect := List.take_subset 5 _default_sections_structure hsect5
        exact ⟨not_mem_append2 (not_mem_append2 (by decide) ((hnames sect hsect).1)) (by decide),
          not_mem_append2 (not_mem_append2 (by decide) ((hnames sect hsect).2)) (by decide)⟩
      · obtain ⟨sect, hsect5, rfl⟩ := List.mem_map.mp hsc
        have hsect := List.take_subset 5 _default_sections_structure hsect5
        obtain ⟨o, ho, rfl⟩ := List.mem_map.mp hq
        have hval := hv (sect.name, o.key) (hreg sect hsect o ho)
        exact ⟨not_mem_append2 (not_mem_append2 ((hkeys sect hsect o ho).1) (by decide))
            (not_mem_wv '\n' v sect.name o.key hval.1),
          not_mem_append2 (not_mem_append2 ((hkeys sect hsect o ho).2) (by decide))
            (not_mem_wv '\r' v sect.name o.key hval.2)⟩
      · exact ⟨by decide, by decide⟩
    · rw [List.mem_singleton] at hbr
      subst hbr
      exact ⟨by decide, by decide⟩
  · rw [List.mem_singleton] at htz
    subst htz
    unfold tzStr
    by_cases hz : wtz v = []
    · rw [if_pos hz]
      exact ⟨by decide, by decide⟩
    · rw [if_neg hz]
      unfold tzRawLine
      have hval := hv (str ("TimeZone"), str ("timezone")) (by decide)
      exact ⟨not_mem_append2 (by decide) (not_mem_wv '\n' v (str ("TimeZone")) (str ("timezone")) hval.1),
        not_mem_append2 (by decide) (not_mem_wv '\r' v (str ("TimeZone")) (str ("timezone")) hval.2)⟩

theorem split_eval (v : Str → Str → Str)
    (hv : ∀ p ∈ registryPairs, '\n' ∉ v p.1 p.2 ∧ '\r' ∉ v p.1 p.2) :
    pySplitLines (build_ini_from_form (canonicalForm v)) = (preLines v ++ [tzStr v]) ++ [[]] := by
  rw [content_eval]
  show pySplitLines (joinNl (preLines v ++ [tzStr v]) ++ ['\n']) = _
  exact pySplitLines_joinNl (preLines v ++ [tzStr v]) (clean_parseLines v hv) (by simp)

/-! ## Evaluating the parse of the built document -/

/-- The fold of `iniRead` from an arbitrary accumulator. -/
def iniFold (a : Option IniAcc) (lines : List Str) : Option IniAcc :=
  lines.foldl (fun acc l => acc.bind (fun x => iniLineStep x l)) a

theorem iniRead_eq (lines : List Str) :
    iniRead lines = (iniFold (some ⟨[], Option.none⟩) lines).map (·.sections) := rfl

theorem iniFold_append (a : Option IniAcc) (l1 l2 : List Str) :
    iniFold a (l1 ++ l2) = iniFold (iniFold a l1) l2 :=
  List.foldl_append ..

theorem iniSectionHeader_cons_ne (d : Char) (r : Str) (h : d ≠ '[') :
    iniSectionHeader (d :: r) = Option.none := by
  unfold iniSectionHeader
  split
  · next rest heq =>
    injection heq with hh _
    exact absurd hh h
  · rfl

theorem iniLineStep_congr (a : IniAcc) (l1 l2 : Str) (h : pyStrip l1 = pyStrip l2) :
    iniLineStep a l1 = iniLineStep a l2 := by
  unfold iniLineStep
  rw [h]

theorem iniLineStep_kv_aux (acc : IniAcc) (n : Str) (c : Char) (k0 B w line : Str)
    (ht : pyStrip line = (c :: k0) ++ B)
    (hc3 : c ≠ '#' ∧ c ≠ ';' ∧ c ≠ '[')
    (hkdelim : (c :: k0).findIdx? (fun ch => ch == '=' || ch == ':') = Option.none)
    (hkdt : pyDropTrail (c :: k0) = c :: k0)
    (hcws : isPyWs c = false)
    (hBf : B.findIdx? (fun ch => ch == '=' || ch == ':') = some 1)
    (hBt : B.take 1 = [' '])
    (hBd : pyStrip (B.drop 2) = w)
    (hcur : acc.cur = some n)
    (hdup : (match acc.sections.find? (fun p => p.1 == n) with
             | some p => p.2.any (fun q => q.1 == (c :: k0))
             | Option.none => false) = false) :
    iniLineStep acc line = some ⟨iniAddOption acc.sections n (c :: k0, w), some n⟩ := by
  unfold iniLineStep
  rw [ht]
  dsimp only
  rw [if_neg (by simp)]
  rw [if_neg (by
    intro hor
    rcases hor with h | h
    · exact hc3.1 (Option.some.inj h)
    · exact hc3.2.1 (Option.some.inj h))]
  have hhd : iniSectionHeader ((c :: k0) ++ B) = Option.none := by
    show iniSectionHeader (c :: (k0 ++ B)) = Option.none
    exact iniSectionHeader_cons_ne c (k0 ++ B) hc3.2.2
  rw [hhd]
  have hfi : ((c :: k0) ++ B).findIdx? (fun ch => ch == '=' || ch == ':') =
      some (1 + (c :: k0).length) := by
    rw [List.findIdx?_append, hkdelim, hBf]
    rfl
  rw [hfi]
  dsimp only
  have hkey : pyStrip (((c :: k0) ++ B).take (1 + (c :: k0).length)) = c :: k0 := by
    rw [Nat.add_comm, List.take_append, hBt]
    show pyDropTrail (pyDropLead (c :: (k0 ++ [' ']))) = _
    rw [pyDropLead_cons_not_ws c (k0 ++ [' ']) hcws]
    show pyDropTrail ((c :: k0) ++ [' ']) = _
    rw [pyDropTrail_append_ws (c :: k0) ' ' (by decide), hkdt]
  have hdrop : ((c :: k0) ++ B).drop (1 + (c :: k0).length + 1) = B.drop 2 := by
    rw [show 1 + (c :: k0).length + 1 = (c :: k0).length + 2 from by omega, List.drop_append]
  rw [hkey, hdrop, hBd, hcur]
  dsimp only
  rw [hdup]
  rfl

theorem iniLineStep_kv (acc : IniAcc) (n k w : Str)
    (hcur : acc.cur = some n) (hkne : k ≠ [])
    (hkdl : pyDropLead k = k) (hkdt : pyDropTrail k = k)
    (hkdelim : k.findIdx? (fun ch => ch == '=' || ch == ':') = Option.none)
    (hkhead : ∀ c t, k = c :: t → c ≠ '#' ∧ c ≠ ';' ∧ c ≠ '[')
    (hw : pyStrip w = w)
    (hdup : (match acc.sections.find? (fun p => p.1 == n) with
             | some p => p.2.any (fun q => q.1 == k)
             | Option.none => false) = false) :
    iniLineStep acc (k ++ str (" = ") ++ w) =
      some ⟨iniAddOption acc.sections n (k, w), some n⟩ := by
  obtain ⟨c, k0, rfl⟩ : ∃ c k0, k = c :: k0 := by
    cases k with
    | nil => exact absurd rfl hkne
    | cons c k0 => exact ⟨c, k0, rfl⟩
  have hc3 := hkhead c k0 rfl
  have hcws : isPyWs c = false := by
    by_cases hcw : isPyWs c = true
    · exfalso
      unfold pyDropLead at hkdl
      rw [List.dropWhile_cons, if_pos hcw] at hkdl
      have hlen := List.Sublist.length_le (List.dropWhile_sublist (p := isPyWs) (l := k0))
      rw [hkdl] at hlen
      simp at hlen
    · exact Bool.not_eq_true _ |>.mp hcw
  by_cases hwe : w = []
  · subst hwe
    have ht : pyStrip ((c :: k0) ++ str (" = ") ++ []) = (c :: k0) ++ [' ', '='] := by
      rw [List.append_nil]
      show pyDropTrail (pyDropLead (c :: (k0 ++ str (" = ")))) = _
      rw [pyDropLead_cons_not_ws c (k0 ++ str (" = ")) hcws]
      have h1 : c :: (k0 ++ str (" = ")) = ((c :: k0) ++ [' ', '=']) ++ [' '] := by
        rw [List.append_assoc]
        rfl
      rw [h1, pyDropTrail_append_ws _ ' ' (by decide)]
      have h2 : (c :: k0) ++ [' ', '='] = ((c :: k0) ++ [' ']) ++ ['='] := by
        rw [List.append_assoc]
        rfl
      rw [h2, pyDropTrail_append_not_ws _ '=' (by decide), ← h2]
    exact iniLineStep_kv_aux acc n c k0 [' ', '='] [] ((c :: k0) ++ str (" = ") ++ []) ht hc3
      hkdelim hkdt hcws rfl rfl rfl hcur hdup
  · have hwdt : pyDropTrail w = w := by
      rw [← hw]
      exact pyDropTrail_pyStrip w
    have hwdl : pyDropLead w = w := by
      rw [← hw]
      exact pyDropLead_pyStrip w
    have ht : pyStrip ((c :: k0) ++ str (" = ") ++ w) =
        (c :: k0) ++ (' ' :: '=' :: ' ' :: w) := by
      show pyDropTrail (pyDropLead (c :: ((k0 ++ str (" = ")) ++ w))) = _
      rw [pyDropLead_cons_not_ws c ((k0 ++ str (" = ")) ++ w) hcws]
      have h1a : (k0 ++ str (" = ")) ++ w = k0 ++ (' ' :: '=' :: ' ' :: w) := by
        rw [List.append_assoc]
        rfl
      rw [h1a]
      have h1b : c :: (k0 ++ (' ' :: '=' :: ' ' :: w)) = ((c :: k0) ++ [' ', '=', ' ']) ++ w := by
        rw [List.append_assoc]
        rfl
      rw [h1b, pyDropTrail_append_of_ne _ w (by rw [hwdt]; exact hwe), hwdt, List.append_assoc]
      rfl
    have hBd : pyStrip (' ' :: w) = w := by
      show pyDropTrail (pyDropLead (' ' :: w)) = w
      have hld : pyDropLead (' ' :: w) = pyDropLead w := by
        unfold pyDropLead
        rw [List.dropWhile_cons, if_pos (by decide)]
      rw [hld, hwdl, hwdt]
    exact iniLineStep_kv_aux acc n c k0 (' ' :: '=' :: ' ' :: w) w
      ((c :: k0) ++ str (" = ") ++ w) ht hc3 hkdelim hkdt hcws rfl rfl hBd hcur hdup

theorem iniLineStep_header (acc : IniAcc) (n : Str) (hne : n ≠ []) (hnb : ']' ∉ n)
    (hdup : acc.sections.any (fun p => p.1 == n) = false) :
    iniLineStep acc (str ("[") ++ n ++ str ("]")) =
      some ⟨acc.sections ++ [(n, [])], some n⟩ := by
  have ht : pyStrip (str ("[") ++ n ++ str ("]")) = '[' :: (n ++ [']']) := by
    show pyDropTrail (pyDropLead ('[' :: (n ++ [']']))) = _
    rw [pyDropLead_cons_not_ws '[' (n ++ [']']) (by decide)]
    have h1 : '[' :: (n ++ [']']) = ('[' :: n) ++ [']'] := rfl
    rw [h1, pyDropTrail_append_not_ws ('[' :: n) ']' (by decide)]
  unfold iniLineStep
  rw [ht]
  dsimp only
  rw [if_neg (by simp)]
  rw [if_neg (by
    intro hor
    rcases hor with h | h
    · exact absurd (Option.some.inj h) (by decide)
    · exact absurd (Option.some.inj h) (by decide))]
  have hfi : (n ++ [']']).findIdx? (fun c => c == ']') = some n.length := by
    have hn : n.findIdx? (fun c => c == ']') = Option.none := by
      rw [List.findIdx?_eq_none_iff]
      intro x hx
      cases hq : (x == ']') with
      | true => exact absurd (by rw [beq_iff_eq] at hq; exact hq ▸ hx) hnb
      | false => rfl
    rw [List.findIdx?_append, hn]
    show some (0 + n.length) = some n.length
    rw [Nat.zero_add]
  have hsh : iniSectionHeader ('[' :: (n ++ [']'])) = some n := by
    show (match (n ++ [']']).findIdx? (fun c => c == ']') with
      | some i => if i = 0 then Option.none else some ((n ++ [']']).take i)
      | Option.none => Option.none) = some n
    rw [hfi]
    show (if n.length = 0 then Option.none else some ((n ++ [']']).take n.length)) = some n
    rw [if_neg (fun h0 => hne (List.length_eq_zero.mp h0)), List.take_left]
  rw [hsh]
  dsimp only
  rw [hdup]
  rfl

theorem find_append_last (pre : List (Str × List (Str × Str))) (n : Str)
    (x : List (Str × Str)) (h : ∀ p ∈ pre, p.1 ≠ n) :
    (pre ++ [(n, x)]).find? (fun p => p.1 == n) = some (n, x) := by
  induction pre with
  | nil =>
    rw [List.nil_append, List.find?_singleton, if_pos (by simp)]
  | cons q pre ih =>
    rw [List.cons_append, List.find?_cons_of_neg _ (by simp [h q (List.mem_cons_self q pre)])]
    exact ih (fun p hp => h p (List.mem_cons_of_mem q hp))

theorem iniAddOption_append_last (pre : List (Str × List (Str × Str))) (n : Str)
    (done : List (Str × Str)) (kv : Str × Str) (h : ∀ p ∈ pre, p.1 ≠ n) :
    iniAddOption (pre ++ [(n, done)]) n kv = pre ++ [(n, done ++ [kv])] := by
  unfold iniAddOption
  rw [List.map_append]
  have hpre : pre.map (fun p => if p.1 == n then (p.1, p.2 ++ [kv]) else p) = pre := by
    conv_rhs => rw [← List.map_id pre]
    apply List.map_congr_left
    intro p hp
    rw [if_neg (by simp [h p hp]), id_eq]
  rw [hpre]
  simp

/-- Side conditions under which a `key = value` document line parses as the
pair `(key, value)`. -/
def kvOk (q : Str × Str) : Prop :=
  q.1 ≠ [] ∧ pyDropLead q.1 = q.1 ∧ pyDropTrail q.1 = q.1 ∧
    q.1.findIdx? (fun ch => ch == '=' || ch == ':') = Option.none ∧
    (∀ c t, q.1 = c :: t → c ≠ '#' ∧ c ≠ ';' ∧ c ≠ '[') ∧ pyStrip q.2 = q.2

theorem iniSteps_kvs (n : Str) : ∀ (kvs : List (Str × Str))
    (pre : List (Str × List (Str × Str))) (done : List (Str × Str)),
    (∀ p ∈ pre, p.1 ≠ n) →
    (∀ q ∈ kvs, kvOk q) →
    (∀ q ∈ kvs, q.1 ∉ done.map (fun r => r.1)) →
    ((kvs.map (fun q => q.1)).Nodup) →
    iniFold (some ⟨pre ++ [(n, done)], some n⟩)
        (kvs.map (fun q => q.1 ++ str (" = ") ++ q.2)) =
      some ⟨pre ++ [(n, done ++ kvs)], some n⟩ := by
  intro kvs
  induction kvs with
  | nil =>
    intro pre done _ _ _ _
    rw [List.map_nil]
    show some _ = _
    rw [List.append_nil]
  | cons q kvs ih =>
    intro pre done hpre hk hnd hnd2
    rw [List.map_cons]
    show iniFold (iniLineStep ⟨pre ++ [(n, done)], some n⟩ (q.1 ++ str (" = ") ++ q.2))
      (kvs.map (fun q => q.1 ++ str (" = ") ++ q.2)) = _
    have hkq := hk q (List.mem_cons_self q kvs)
    have hstep := iniLineStep_kv ⟨pre ++ [(n, done)], some n⟩ n q.1 q.2 rfl hkq.1 hkq.2.1
      hkq.2.2.1 hkq.2.2.2.1 hkq.2.2.2.2.1 hkq.2.2.2.2.2 (by
        show (match (pre ++ [(n, done)]).find? (fun p => p.1 == n) with
          | some p => p.2.any (fun r => r.1 == q.1)
          | Option.none => false) = false
        rw [find_append_last pre n done hpre]
        show done.any (fun r => r.1 == q.1) = false
        rw [List.any_eq_false]
        intro r hr
        simp only [beq_iff_eq]
        intro he
        exact (hnd q (List.mem_cons_self q kvs)) (he ▸ List.mem_map_of_mem (fun r => r.1) hr))
    rw [hstep]
    show iniFold (some ⟨iniAddOption (pre ++ [(n, done)]) n (q.1, q.2), some n⟩) _ = _
    rw [iniAddOption_append_last pre n done (q.1, q.2) hpre]
    have hnd2t := (List.nodup_cons.mp (by rw [← List.map_cons]; exact hnd2 : 
      (q.1 :: kvs.map (fun r => r.1)).Nodup))
    rw [ih pre (done ++ [(q.1, q.2)]) hpre (fun r hr => hk r (List.mem_cons_of_mem q hr))
      (fun r hr => by
        rw [List.map_append]
        intro hmem
        rcases List.mem_append.mp hmem with hm | hm
        · exact (hnd r (List.mem_cons_of_mem q hr)) hm
        · rw [show (([(q.1, q.2)]).map (fun r => r.1)) = [q.1] from rfl,
            List.mem_singleton] at hm
          exact hnd2t.1 (hm ▸ List.mem_map_of_mem (fun r => r.1) hr))
      hnd2t.2]
    rw [List.append_assoc]
    rfl

theorem iniSteps_sections : ∀ (secs : List (Str × List (Str × Str)))
    (prev : List (Str × List (Str × Str))) (cur : Option Str),
    (∀ sc ∈ secs, sc.1 ≠ [] ∧ ']' ∉ sc.1) →
    (∀ sc ∈ secs, ∀ q ∈ sc.2, kvOk q) →
    (∀ sc ∈ secs, (sc.2.map (fun q => q.1)).Nodup) →
    (∀ sc ∈ secs, sc.1 ∉ prev.map (fun p => p.1)) →
    ((secs.map (fun sc => sc.1)).Nodup) →
    ∃ cur2, iniFold (some ⟨prev, cur⟩) (docOf secs) = some ⟨prev ++ secs, cur2⟩ := by
  intro secs
  induction secs with
  | nil =>
    intro prev cur _ _ _ _ _
    exact ⟨cur, by show some _ = _; rw [List.append_nil]⟩
  | cons sc secs ih =>
    intro prev cur hh hkv hnd hnew hnds
    have hsplit : docOf (sc :: secs) =
        (([str ("[") ++ sc.1 ++ str ("]")] ++ sc.2.map (fun q => q.1 ++ str (" = ") ++ q.2)) ++
          [str ("")]) ++ docOf secs := by
      rw [List.append_assoc, List.append_assoc]
      rfl
    rw [hsplit, iniFold_append, iniFold_append, iniFold_append]
    have hprene : ∀ p ∈ prev, p.1 ≠ sc.1 := by
      intro p hp he
      exact (hnew sc (List.mem_cons_self sc secs)) (he ▸ List.mem_map_of_mem (fun p => p.1) hp)
    have hhdr : iniFold (some ⟨prev, cur⟩) [str ("[") ++ sc.1 ++ str ("]")] =
        some ⟨prev ++ [(sc.1, [])], some sc.1⟩ := by
      show iniLineStep ⟨prev, cur⟩ (str ("[") ++ sc.1 ++ str ("]")) = _
      exact iniLineStep_header ⟨prev, cur⟩ sc.1 (hh sc (List.mem_cons_self sc secs)).1
        (hh sc (List.mem_cons_self sc secs)).2
        (List.any_eq_false.mpr (fun p hp => by simp [hprene p hp]))
    rw [hhdr]
    rw [iniSteps_kvs sc.1 sc.2 prev [] hprene (hkv sc (List.mem_cons_self sc secs))
      (fun q _ => by intro h; cases h) (hnd sc (List.mem_cons_self sc secs))]
    rw [List.nil_append]
    have hbl : iniFold (some (⟨prev ++ [(sc.1, sc.2)], some sc.1⟩ : IniAcc)) [str ("")] =
        some ⟨prev ++ [(sc.1, sc.2)], some sc.1⟩ := rfl
    rw [hbl]
    have hnds2 := List.nodup_cons.mp (by rw [← List.map_cons]; exact hnds :
      (sc.1 :: secs.map (fun r => r.1)).Nodup)
    obtain ⟨cur2, hLast⟩ := ih (prev ++ [(sc.1, sc.2)]) (some sc.1)
      (fun r hr => hh r (List.mem_cons_of_mem sc hr))
      (fun r hr => hkv r (List.mem_cons_of_mem sc hr))
      (fun r hr => hnd r (List.mem_cons_of_mem sc hr))
      (fun r hr => by
        rw [List.map_append]
        intro hmem
        rcases List.mem_append.mp hmem with hm | hm
        · exact (hnew r (List.mem_cons_of_mem sc hr)) hm
        · rw [show (([(sc.1, sc.2)]).map (fun p => p.1)) = [sc.1] from rfl,
            List.mem_singleton] at hm
          exact hnds2.1 (hm ▸ List.mem_map_of_mem (fun r => r.1) hr))
      hnds2.2
    refine ⟨cur2, ?_⟩
    rw [hLast, List.append_assoc]
    rfl

/-- Decidable head-character check of an option key. -/
def keyHeadOk (k : Str) : Bool :=
  match k with
  | [] => true
  | c :: _ => !(c == '#') && !(c == ';') && !(c == '[')

theorem keyHeadOk_spec (k : Str) (h : keyHeadOk k = true) :
    ∀ c t, k = c :: t → c ≠ '#' ∧ c ≠ ';' ∧ c ≠ '[' := by
  intro c t hk
  subst hk
  unfold keyHeadOk at h
  refine ⟨?_, ?_, ?_⟩ <;> intro he <;> subst he <;> simp at h

theorem kvOk_of (q : Str × Str) (h1 : q.1 ≠ []) (h2 : pyDropLead q.1 = q.1)
    (h3 : pyDropTrail q.1 = q.1)
    (h4 : q.1.findIdx? (fun ch => ch == '=' || ch == ':') = Option.none)
    (h5 : keyHeadOk q.1 = true) (h6 : pyStrip q.2 = q.2) : kvOk q :=
  ⟨h1, h2, h3, h4, keyHeadOk_spec q.1 h5, h6⟩

theorem iniRead_built (v : Str → Str → Str) :
    iniRead ((preLines v ++ [tzStr v]) ++ [[]]) = some (secsPairs v) := by
  have hmemF : ∀ sc ∈ secsInit v, ∃ sect, sect ∈ _default_sections_structure ∧
      sc = (sect.name, sect.options.map (fun o => (o.key, wv v sect.name o.key))) := by
    intro sc hsc
    obtain ⟨sect, hs5, rfl⟩ := List.mem_map.mp hsc
    exact ⟨sect, List.take_subset 5 _ hs5, rfl⟩
  have hnames2 : ∀ sect ∈ _default_sections_structure,
      sect.name ≠ [] ∧ ']' ∉ sect.name := by decide
  have hkeyok : ∀ sect ∈ _default_sections_structure, ∀ o ∈ sect.options,
      o.key ≠ [] ∧ pyDropLead o.key = o.key ∧ pyDropTrail o.key = o.key ∧
      o.key.findIdx? (fun ch => ch == '=' || ch == ':') = Option.none ∧
      keyHeadOk o.key = true := by decide
  have hkeynd : ∀ sect ∈ _default_sections_structure,
      (sect.options.map (fun o => o.key)).Nodup := by decide
  have hsplit : (preLines v ++ [tzStr v]) ++ [([] : Str)] =
      ([str ("# Config.ini File"), str ("")] ++ docOf (secsInit v)) ++
        ([str ("[") ++ str ("TimeZone") ++ str ("]")] ++ ([tzStr v] ++ [([] : Str)])) := by
    unfold preLines
    simp only [List.append_assoc, List.cons_append, List.nil_append]
    rfl
  rw [iniRead_eq, hsplit, iniFold_append, iniFold_append, iniFold_append]
  have hfirst : iniFold (some ⟨[], Option.none⟩)
      ([str ("# Config.ini File"), str ("")] ++ docOf (secsInit v)) =
      iniFold (some ⟨[], Option.none⟩) (docOf (secsInit v)) := by
    rw [iniFold_append]
    rfl
  rw [hfirst]
  obtain ⟨cur5, h5fold⟩ := iniSteps_sections (secsInit v) [] Option.none
    (by
      intro sc hsc
      obtain ⟨sect, hsect, rfl⟩ := hmemF sc hsc
      exact hnames2 sect hsect)
    (by
      intro sc hsc
      obtain ⟨sect, hsect, rfl⟩ := hmemF sc hsc
      intro q hq
      obtain ⟨o, ho, rfl⟩ := List.mem_map.mp hq
      have hko := hkeyok sect hsect o ho
      exact kvOk_of (o.key, wv v sect.name o.key) hko.1 hko.2.1 hko.2.2.1 hko.2.2.2.1
        hko.2.2.2.2 (pyStrip_idem (pyOr (v sect.name o.key) (str ("")))))
    (by
      intro sc hsc
      obtain ⟨sect, hsect, rfl⟩ := hmemF sc hsc
      have heq : ((sect.options.map (fun o => (o.key, wv v sect.name o.key))).map
          (fun q => q.1)) = sect.options.map (fun o => o.key) := by
        rw [List.map_map]
        rfl
      show ((sect.options.map (fun o => (o.key, wv v sect.name o.key))).map
        (fun q => q.1)).Nodup
      rw [heq]
      exact hkeynd sect hsect)
    (by intro sc _ h; cases h)
    (by
      have hinitnames : (secsInit v).map (fun sc => sc.1) =
          [str ("Google Takeout"), str ("Synology Photos"), str ("Immich Photos"),
           str ("Apple Photos"), str ("Google Photos")] := rfl
      rw [hinitnames]
      decide)
  rw [h5fold, List.nil_append]
  have hprene : ∀ p ∈ secsInit v, p.1 ≠ str ("TimeZone") := by
    have hall : ∀ sect2 ∈ _default_sections_structure.take 5,
        sect2.name ≠ str ("TimeZone") := by decide
    intro p hp
    obtain ⟨sect3, hs5b, rfl⟩ := List.mem_map.mp hp
    exact hall sect3 hs5b
  have hhdr : iniFold (some ⟨secsInit v, cur5⟩) [str ("[") ++ str ("TimeZone") ++ str ("]")] =
      some ⟨secsInit v ++ [(str ("TimeZone"), [])], some (str ("TimeZone"))⟩ := by
    show iniLineStep ⟨secsInit v, cur5⟩ (str ("[") ++ str ("TimeZone") ++ str ("]")) = _
    exact iniLineStep_header ⟨secsInit v, cur5⟩ (str ("TimeZone")) (by decide) (by decide)
      (List.any_eq_false.mpr (fun p hp => by simp [hprene p hp]))
  rw [hhdr]
  have htzline : iniFold (some ⟨secsInit v ++ [(str ("TimeZone"), [])], some (str ("TimeZone"))⟩)
      [tzStr v] = some ⟨secsInit v ++ [(str ("TimeZone"), [(str ("timezone"), wtz v)])],
        some (str ("TimeZone"))⟩ := by
    show iniLineStep ⟨secsInit v ++ [(str ("TimeZone"), [])], some (str ("TimeZone"))⟩
      (tzStr v) = _
    have hcongr : iniLineStep ⟨secsInit v ++ [(str ("TimeZone"), [])], some (str ("TimeZone"))⟩
        (tzStr v) = iniLineStep ⟨secsInit v ++ [(str ("TimeZone"), [])], some (str ("TimeZone"))⟩
        (str ("timezone") ++ str (" = ") ++ wtz v) := by
      unfold tzStr
      by_cases hz : wtz v = []
      · rw [if_pos hz, hz]
        apply iniLineStep_congr
        decide
      · rw [if_neg hz]
        rfl
    rw [hcongr]
    have hstep := iniLineStep_kv ⟨secsInit v ++ [(str ("TimeZone"), [])],
        some (str ("TimeZone"))⟩ (str ("TimeZone")) (str ("timezone")) (wtz v) rfl
      (by decide) (by decide) (by decide) (by decide)
      (keyHeadOk_spec (str ("timezone")) (by decide))
      (pyStrip_idem (pyOr (v (str ("TimeZone")) (str ("timezone"))) (str (""))))
      (by
        rw [find_append_last (secsInit v) (str ("TimeZone")) [] hprene]
        rfl)
    rw [hstep]
    rw [iniAddOption_append_last (secsInit v) (str ("TimeZone")) []
      (str ("timezone"), wtz v) hprene]
    rfl
  rw [htzline]
  have hblank : iniFold (some ⟨secsInit v ++ [(str ("TimeZone"),
      [(str ("timezone"), wtz v)])], some (str ("TimeZone"))⟩) [([] : Str)] =
      some ⟨secsInit v ++ [(str ("TimeZone"), [(str ("timezone"), wtz v)])],
        some (str ("TimeZone"))⟩ := rfl
  rw [hblank]
  have hfinal : secsInit v ++ [(str ("TimeZone"), [(str ("timezone"), wtz v)])] =
      secsPairs v := rfl
  rw [hfinal]
  rfl

/-- What `parse_config` returns for the built document: every registry
section and key, with the stripped submitted values. -/
def parsedRec (v : Str → Str → Str) : List SectionRec :=
  _default_sections_structure.map (fun sect =>
    { name := sect.name
      form_section := _section_to_form sect.name
      hint := _get_section_hint sect.name
      options := sect.options.map (fun o =>
        { key := o.key
          value := wv v sect.name o.key
          is_password := _is_password_key o.key
          form_section := _section_to_form sect.name
          hint := _get_option_hint sect.name o.key : OptRec }) : SectionRec })

theorem strip_inline_wv (v : Str → Str → Str) (s k : Str) (h : '#' ∉ v s k) :
    _strip_inline_comment (wv v s k) = wv v s k := by
  have hnm : '#' ∉ wv v s k := not_mem_wv '#' v s k h
  unfold _strip_inline_comment
  by_cases hz : wv v s k = []
  · rw [if_pos hz]
  · rw [if_neg hz]
    have hfs : findSub (wv v s k) (str ("#")) = Option.none := by
      unfold findSub
      rw [List.find?_eq_none]
      intro i _
      cases hd : (wv v s k).drop i with
      | nil =>
        intro hst
        cases hst
      | cons c t =>
        intro hst
        unfold pyStartsWith at hst
        have hc : c = '#' := by
          have h1 : (c :: t).take (str ("#")).length = [c] := rfl
          rw [h1] at hst
          have h2 := (beq_iff_eq ..).mp hst
          injection h2 with h3 h4
        apply hnm
        rw [← hc]
        exact List.drop_subset i (wv v s k) (hd ▸ List.mem_cons_self c t)
    rw [hfs]
    exact pyStrip_idem (pyOr (v s k) (str ("")))

theorem parsedRec_ne_nil (v : Str → Str → Str) : parsedRec v ≠ [] := by
  unfold parsedRec _default_sections_structure
  simp

theorem parse_config_built (v : Str → Str → Str)
    (hv : ∀ p ∈ registryPairs, '#' ∉ v p.1 p.2 ∧ '\n' ∉ v p.1 p.2 ∧ '\r' ∉ v p.1 p.2) :
    parse_config (some (build_ini_from_form (canonicalForm v))) = parsedRec v := by
  have hreg : ∀ sect ∈ _default_sections_structure, ∀ o ∈ sect.options,
      (sect.name, o.key) ∈ registryPairs := by decide
  unfold parse_config
  dsimp only
  rw [split_eval v (fun p hp => ⟨(hv p hp).2.1, (hv p hp).2.2⟩), iniRead_built v]
  dsimp only
  have hmap : (secsPairs v).map (fun p =>
      { name := p.1
        form_section := _section_to_form p.1
        hint := _get_section_hint p.1
        options := p.2.map (fun q =>
          { key := q.1
            value := _strip_inline_comment q.2
            is_password := _is_password_key q.1
            form_section := _section_to_form p.1
            hint := _get_option_hint p.1 q.1 : OptRec }) : SectionRec }) = parsedRec v := by
    unfold secsPairs parsedRec
    rw [List.map_map]
    apply List.map_congr_left
    intro sect hsect
    show ({ name := sect.name
            form_section := _section_to_form sect.name
            hint := _get_section_hint sect.name
            options := (sect.options.map (fun o => (o.key, wv v sect.name o.key))).map
              (fun q =>
                { key := q.1
                  value := _strip_inline_comment q.2
                  is_password := _is_password_key q.1
                  form_section := _section_to_form sect.name
                  hint := _get_option_hint sect.name q.1 : OptRec }) : SectionRec }) = _
    rw [List.map_map]
    have hopts : sect.options.map ((fun (q : Str × Str) =>
        { key := q.1
          value := _strip_inline_comment q.2
          is_password := _is_password_key q.1
          form_section := _section_to_form sect.name
          hint := _get_option_hint sect.name q.1 : OptRec }) ∘
        (fun o => (o.key, wv v sect.name o.key))) = sect.options.map (fun o =>
        { key := o.key
          value := wv v sect.name o.key
          is_password := _is_password_key o.key
          form_section := _section_to_form sect.name
          hint := _get_option_hint sect.name o.key : OptRec }) := by
      apply List.map_congr_left
      intro o ho
      show ({ key := o.key
              value := _strip_inline_comment (wv v sect.name o.key)
              is_password := _is_password_key o.key
              form_section := _section_to_form sect.name
              hint := _get_option_hint sect.name o.key : OptRec }) = _
      rw [strip_inline_wv v sect.name o.key (hv (sect.name, o.key) (hreg sect hsect o ho)).1]
    rw [hopts]
  rw [hmap, if_neg (parsedRec_ne_nil v)]

theorem merged_options_built (v : Str → Str → Str) (sect : SectionRec)
    (hsect : sect ∈ _default_sections_structure) :
    (mergedSection (parsedRec v) sect).options.map (fun o => (o.key, o.value)) =
      sect.options.map (fun o => (o.key, pyStrip (v sect.name o.key))) := by
  have hndkeys : ∀ sect2 ∈ _default_sections_structure,
      (sect2.options.map (fun o => o.key)).Nodup := by decide
  unfold mergedSection
  dsimp only
  unfold mergedSectionOptions
  unfold parsedRec
  rw [lookupSectionLast_map_self (fun sect2 =>
    { name := sect2.name
      form_section := _section_to_form sect2.name
      hint := _get_section_hint sect2.name
      options := sect2.options.map (fun o =>
        { key := o.key
          value := wv v sect2.name o.key
          is_password := _is_password_key o.key
          form_section := _section_to_form sect2.name
          hint := _get_option_hint sect2.name o.key : OptRec }) : SectionRec })
    (fun s => rfl) _default_sections_structure (by decide) sect hsect]
  show ((overlayOptions sect.options (sect.options.map (fun o =>
      { key := o.key
        value := wv v sect.name o.key
        is_password := _is_password_key o.key
        form_section := _section_to_form sect.name
        hint := _get_option_hint sect.name o.key : OptRec }))).map
      (fun o => { o with form_section := _section_to_form sect.name })).map
      (fun o => (o.key, o.value)) = _
  rw [overlayOptions_eq_map, List.map_map, List.map_map]
  apply List.map_congr_left
  intro o ho
  have hval := lastValueFor_map_self (fun o2 =>
    { key := o2.key
      value := wv v sect.name o2.key
      is_password := _is_password_key o2.key
      form_section := _section_to_form sect.name
      hint := _get_option_hint sect.name o2.key : OptRec })
    (fun o2 => rfl) sect.options (hndkeys sect hsect) o ho
  show (o.key, (lastValueFor (sect.options.map (fun o2 =>
      { key := o2.key
        value := wv v sect.name o2.key
        is_password := _is_password_key o2.key
        form_section := _section_to_form sect.name
        hint := _get_option_hint sect.name o2.key : OptRec })) o.key).getD o.value) = _
  rw [hval]
  show (o.key, pyStrip (pyOr (v sect.name o.key) (str ("")))) = _
  rw [pyStrip_pyOr_empty (v sect.name o.key)]

/-- C3 (amended): for every form payload that supplies, for each registry
`(section, key)` pair, a value free of `#`, newline and carriage-return
characters, building file text with `build_ini_from_form` and then parsing
and merging that text with `parse_config_with_schema` reproduces the
submitted values exactly, after surrounding-whitespace trimming. -/
theorem C3_roundtrip_amended (v : Str → Str → Str)
    (hv : ∀ p ∈ registryPairs, '#' ∉ v p.1 p.2 ∧ '\n' ∉ v p.1 p.2 ∧ '\r' ∉ v p.1 p.2) :
    configValues (parse_config_with_schema (some (build_ini_from_form (canonicalForm v)))) =
      _default_sections_structure.map (fun sect =>
        (sect.name, sect.options.map (fun o => (o.key, pyStrip (v sect.name o.key))))) := by
  unfold parse_config_with_schema
  dsimp only
  rw [parse_config_built v hv, if_neg (parsedRec_ne_nil v), merge_eq_map_mergedSection]
  unfold configValues
  rw [List.map_map]
  apply List.map_congr_left
  intro sect hsect
  show ((mergedSection (parsedRec v) sect).name,
    (mergedSection (parsedRec v) sect).options.map (fun o => (o.key, o.value))) = _
  rw [merged_options_built v sect hsect]
  rfl

set_option maxHeartbeats 4000000 in
/-- C3 (counterexample): the round trip does not reproduce every submitted
value. A payload whose Apple Photos `album` value is `a#b` comes back as
`a`: the re-parse strips the `#` inline comment, while the trimmed
submitted value is `a#b` itself. -/
theorem C3_roundtrip_counterexample :
    ∃ v : Str → Str → Str,
      configValue (parse_config_with_schema (some (build_ini_from_form (canonicalForm v))))
          (str ("Apple Photos")) (str ("album")) ≠
        some (pyStrip (v (str ("Apple Photos")) (str ("album")))) := by
  refine ⟨fun s k => if s = str ("Apple Photos") ∧ k = str ("album") then str ("a#b")
    else str ("x"), ?_⟩
  decide

/-- C3 witness: the amended round trip at the payload submitting `x` for
every registry key. -/
theorem C3_roundtrip_amended_witness :
    (∀ p ∈ registryPairs, '#' ∉ (fun (_ _ : Str) => str ("x")) p.1 p.2 ∧
      '\n' ∉ (fun (_ _ : Str) => str ("x")) p.1 p.2 ∧
      '\r' ∉ (fun (_ _ : Str) => str ("x")) p.1 p.2) ∧
    configValues (parse_config_with_schema (some (build_ini_from_form
        (canonicalForm (fun (_ _ : Str) => str ("x")))))) =
      _default_sections_structure.map (fun sect =>
        (sect.name, sect.options.map (fun o =>
          (o.key, pyStrip ((fun (_ _ : Str) => str ("x")) sect.name o.key))))) :=
  ⟨by decide, C3_roundtrip_amended (fun (_ _ : Str) => str ("x")) (by decide)⟩
